import Mathlib

/-!
Falling-circle merge puzzle: physics and merge engine.

Shallow embedding of `source/main.cpp`.

* `double` values are elements of an arbitrary linear ordered field `K`
  (exact arithmetic); `std::sqrt` is a parameter `sqrt : K → K` of every
  function that, in the source, takes a vector length.  Theorems that need more
  of the square root say so: `IsSqrt sqrt` (the real square root), exactness on
  squares, or `ExactSqrtAt sqrt L` (exactness on squares and at `L`).  The real
  square root has all three; `sqrtQ` on the rationals is exact on squares and
  makes the definitions executable there.
* Where rounding decides a discrete outcome, namely the number of fixed steps that
  the loop of line 205 runs, the time accumulator is modelled in `double`
  arithmetic as well: `roundDouble` rounds a rational to the nearest `double` and
  `stepLoopR` is the loop with the stored step and a rounded subtraction.
* `int32` values (tier, score) are integers; `/` on them is truncating division.
* `Vec2` and `Line` operations follow the Siv3D library that the source calls.
* The body of `while (System::Update())` between lines 205 and 289 is the
  function `advance`; rendering and keyboard handling are not embedded.
-/

namespace Suika

/-! ## Vectors and segments (Siv3D `Vec2`, `Line`) -/

/-- Two-dimensional vector of the numeric type `K` (`Vec2`). -/
structure Vec2 (K : Type) where
  x : K
  y : K
deriving DecidableEq

/-- Line segment with two end points (`Line`). -/
structure Line (K : Type) where
  begin : Vec2 K
  end_ : Vec2 K
deriving DecidableEq

namespace Vec2

variable {K : Type} [LinearOrderedField K]

/-- Vector sum, `a + b`. -/
def add (a b : Vec2 K) : Vec2 K := ⟨a.x + b.x, a.y + b.y⟩

/-- Vector difference, `a - b`. -/
def sub (a b : Vec2 K) : Vec2 K := ⟨a.x - b.x, a.y - b.y⟩

/-- Unary minus, `-a`. -/
def neg (a : Vec2 K) : Vec2 K := ⟨-a.x, -a.y⟩

/-- Product with a scalar, `a * s` (and `s * a`). -/
def mul (a : Vec2 K) (s : K) : Vec2 K := ⟨a.x * s, a.y * s⟩

/-- Quotient by a scalar, `a / s`, which the library computes as `a * (1 / s)`. -/
def div (a : Vec2 K) (s : K) : Vec2 K := a.mul (1 / s)

/-- Inner product, `a.dot(b)`. -/
def dot (a b : Vec2 K) : K := a.x * b.x + a.y * b.y

/-- Planar cross product, `a.cross(b)`. -/
def cross (a b : Vec2 K) : K := a.x * b.y - a.y * b.x

/-- Test `a.isZero()`: both components are exactly zero. -/
def isZero (a : Vec2 K) : Bool := decide (a.x = 0) && decide (a.y = 0)

/-- Squared length, `a.lengthSq()`. -/
def lengthSq (a : Vec2 K) : K := a.x * a.x + a.y * a.y

/-- Length, `a.length()`, the square root of the squared length. -/
def length (sqrt : K → K) (a : Vec2 K) : K := sqrt a.lengthSq

/-- Normalisation, `a.normalized()`, the product of `a` with `1 / a.length()`. -/
def normalized (sqrt : K → K) (a : Vec2 K) : Vec2 K := a.mul (1 / a.length sqrt)

/-- Quarter turn, `a.rotated90()`. -/
def rotated90 (a : Vec2 K) : Vec2 K := ⟨-a.y, a.x⟩

end Vec2

variable {K : Type} [LinearOrderedField K]

/-- Sign of a number as `-1`, `0` or `1` (`Sign`). -/
def Sign (x : K) : K := if x < 0 then -1 else if 0 < x then 1 else 0

/-- Smaller of two numbers (`Min`). -/
def Min (a b : K) : K := if b < a then b else a

/-- Point of the segment nearest to `pos` (`Line::closest`). -/
def Line.closest (sqrt : K → K) (l : Line K) (pos : Vec2 K) : Vec2 K :=
  let v := l.end_.sub l.begin
  let d := v.length sqrt
  if d = 0 then l.begin
  else
    let v := v.div d
    let t := v.dot (pos.sub l.begin)
    if t < 0 then l.begin
    else if d < t then l.end_
    else l.begin.add (v.mul t)

/-- The square-root parameter is the real square root on non-negative numbers. -/
def IsSqrt (sqrt : K → K) : Prop :=
  (∀ x : K, 0 ≤ x → sqrt x * sqrt x = x) ∧ (∀ x : K, 0 ≤ sqrt x)

/-! ## Bodies (`PhysicsCircle`, `Fruit`) -/

/-- A game piece: the fields of `PhysicsCircle` followed by those of `Fruit`. -/
structure Fruit (K : Type) where
  pos : Vec2 K
  v : Vec2 K
  theta : K
  omega : K
  M : K
  I : K
  r : K
  num : Int
  dead : Bool
  fallen : Bool
deriving DecidableEq

/-- Radius of a tier: `pow(1.2, n) * 12`. -/
def fruitR (n : Int) : K := (12 / 10 : K) ^ n * 12

/-- Constructor `Fruit(pos, n)`, through `PhysicsCircle(center, radius)`. -/
def Fruit.new (pos : Vec2 K) (n : Int) : Fruit K :=
  { pos := pos
    v := ⟨0, 0⟩
    theta := 0
    omega := 0
    M := 1
    I := 5 / 10 * 1 * fruitR n * fruitR n
    r := fruitR n
    num := n
    dead := false
    fallen := false }

/-- Method `addImpulseLocal(impulse, addLocalPos)`. -/
def Fruit.addImpulseLocal (o : Fruit K) (impulse addLocalPos : Vec2 K) : Fruit K :=
  { o with
    v := o.v.add (impulse.div o.M)
    omega := o.omega + addLocalPos.cross impulse / o.I }

/-- Method `update(delta)`. -/
def Fruit.update (o : Fruit K) (delta : K) : Fruit K :=
  { o with
    pos := o.pos.add (o.v.mul delta)
    theta := o.theta + o.omega * delta }

/-! ## Simulation state -/

/-- The variables of `Main` that the simulation reads and writes. -/
structure World (K : Type) where
  circles : List (Fruit K)
  addFruit : Option (Fruit K)
  score : Int
  accumulatorSec : K
  gameOver : Bool
deriving DecidableEq

/-- Constant `stepSec`. -/
def stepSec : K := 1 / 200

/-- Constant `solveNum`. -/
def solveNum : Nat := 5

/-- The three container walls built from `Rect { 250, 120, 300, 380 }`:
bottom, left and right. -/
def gameWalls : List (Line K) :=
  [ ⟨⟨250, 500⟩, ⟨550, 500⟩⟩, ⟨⟨250, 500⟩, ⟨250, 120⟩⟩, ⟨⟨550, 500⟩, ⟨550, 120⟩⟩ ]

/-- Score gained by a merge at tier `n`: `n * (n + 1) / 2` on `int32`. -/
def mergeScore (n : Int) : Int := Int.tdiv (n * (n + 1)) 2

/-- What one pass through the body of the circle-circle loop leaves behind:
the two bodies, the pending-spawn slot and the score. -/
structure PairState (K : Type) where
  pc1 : Fruit K
  pc2 : Fruit K
  addFruit : Option (Fruit K)
  score : Int
deriving DecidableEq

/-- Body of the circle-circle double loop (lines 216-251) for bodies `pc1`, `pc2`. -/
def resolvePair (sqrt : K → K) (s : PairState K) : PairState K :=
  let subV := s.pc1.pos.sub s.pc2.pos
  if subV.isZero then s
  else
    let overlap := s.pc1.r + s.pc2.r - subV.length sqrt
    if overlap < 0 then s
    else
      let nv := subV.normalized sqrt
      let solveV := (nv.mul overlap).div 2
      let pc1 := { s.pc1 with pos := s.pc1.pos.add solveV, fallen := true }
      let pc2 := { s.pc2 with pos := s.pc2.pos.sub solveV, fallen := true }
      let created : Option (Fruit K) :=
        if pc1.num ≤ (10 : Int) then
          some (Fruit.new (pc1.pos.sub (nv.mul pc1.r)) (pc1.num + 1))
        else s.addFruit
      let merged : PairState K :=
        if pc1.num = pc2.num ∧ s.addFruit = none then
          ⟨{ pc1 with dead := true }, { pc2 with dead := true }, created,
            s.score + mergeScore pc1.num⟩
        else ⟨pc1, pc2, s.addFruit, s.score⟩
      let dotV := (merged.pc2.v.sub merged.pc1.v).dot nv
      if dotV < 0 then merged
      else
        let tan := nv.rotated90
        let fDir := tan.mul (-Sign ((merged.pc1.v.sub merged.pc2.v).dot tan
          - merged.pc1.r * merged.pc1.omega - merged.pc2.r * merged.pc2.omega))
        let impulse := ((((nv.add (fDir.mul (5 / 10))).mul (Min dotV 50)).mul merged.pc1.M).mul
          merged.pc2.M).div (merged.pc1.M + merged.pc2.M)
        { merged with
          pc1 := merged.pc1.addImpulseLocal impulse (nv.neg.mul merged.pc1.r)
          pc2 := merged.pc2.addImpulseLocal impulse.neg (nv.mul merged.pc2.r) }

/-- One visit of the ordered pair of the bodies at indices `i` and `j`.
For `i = j` both references name one body; its separation from itself is zero,
so the visit leaves it as it is. -/
def resolveCC (sqrt : K → K) (i j : Nat) (w : World K) : World K :=
  match w.circles[i]?, w.circles[j]? with
  | some pc1, some pc2 =>
    let s := resolvePair sqrt ⟨pc1, pc2, w.addFruit, w.score⟩
    { w with
      circles := (w.circles.set i s.pc1).set j s.pc2
      addFruit := s.addFruit
      score := s.score }
  | _, _ => w

/-- The circle-circle pass: every ordered pair of indices, first index outermost. -/
def ccPass (sqrt : K → K) (w : World K) : World K :=
  (List.range w.circles.length).foldl
    (fun w i => (List.range w.circles.length).foldl (fun w j => resolveCC sqrt i j w) w) w

/-- Body of the circle-wall double loop (lines 258-278) for one body and one wall. -/
def resolveWall (sqrt : K → K) (pCircle : Fruit K) (wall : Line K) : Fruit K :=
  let subV := pCircle.pos.sub (wall.closest sqrt pCircle.pos)
  if subV.isZero then pCircle
  else
    let overlap := pCircle.r - subV.length sqrt
    if overlap < 0 then pCircle
    else
      let nv := subV.normalized sqrt
      let p := { pCircle with fallen := true, pos := pCircle.pos.add (nv.mul overlap) }
      let dotV := -(p.v.dot nv)
      if dotV < 0 then p
      else
        let tan := nv.rotated90
        let fDir := tan.mul (-Sign (p.v.dot tan - p.r * p.omega))
        p.addImpulseLocal (((nv.add (fDir.mul (5 / 10))).mul (Min dotV 50)).mul p.M)
          (nv.neg.mul p.r)

/-- The circle-wall pass: every body against every wall, in order. -/
def wallPass (sqrt : K → K) (walls : List (Line K)) (w : World K) : World K :=
  { w with circles := w.circles.map (fun o => walls.foldl (resolveWall sqrt) o) }

/-- State after both passes of a solver iteration, before dead bodies are removed. -/
def solverPasses (sqrt : K → K) (walls : List (Line K)) (w : World K) : World K :=
  wallPass sqrt walls (ccPass sqrt w)

/-- Lines 282-283: remove the dead bodies, then append the pending body, which
empties the pending-spawn slot. -/
def compact (w : World K) : World K :=
  let circles := w.circles.filter (fun o => !o.dead)
  match w.addFruit with
  | some f => { w with circles := circles ++ [f], addFruit := none }
  | none => { w with circles := circles }

/-- One solver iteration (body of `for (auto& i : step(solveNum))`). -/
def solverIteration (sqrt : K → K) (walls : List (Line K)) (w : World K) : World K :=
  compact (solverPasses sqrt walls w)

/-- Lines 206-210: integrate every body over `stepSec`, then add gravity. -/
def integrate (w : World K) : World K :=
  { w with
    circles := w.circles.map (fun o =>
      let o := o.update stepSec
      { o with v := ⟨o.v.x, o.v.y + 98 / 10⟩ }) }

/-- One fixed step: integration followed by `solveNum` solver iterations. -/
def fixedStep (sqrt : K → K) (walls : List (Line K)) (w : World K) : World K :=
  (solverIteration sqrt walls)^[solveNum] (integrate w)

/-- The loop `for (...; stepSec <= accumulatorSec; accumulatorSec -= stepSec)`,
bounded by `fuel` rounds; `none` when the fuel does not suffice. -/
def stepLoop (sqrt : K → K) (walls : List (Line K)) : Nat → World K → Option (World K)
  | 0, w => if stepSec ≤ w.accumulatorSec then none else some w
  | fuel + 1, w =>
    if stepSec ≤ w.accumulatorSec then
      let w := fixedStep sqrt walls w
      stepLoop sqrt walls fuel { w with accumulatorSec := w.accumulatorSec - stepSec }
    else some w

/-- Lines 287-289: the termination evaluation over the active set. -/
def evalGameOver (circles : List (Fruit K)) (gameOver : Bool) : Bool :=
  circles.foldl
    (fun g o => if (o.fallen = true ∧ o.pos.y - o.r < 80) ∨ 800 < o.pos.y then true else g)
    gameOver

/-- The simulation part of one frame while the game is running (lines 205-289):
add the elapsed time, run the fixed steps, evaluate termination. -/
def advance (sqrt : K → K) (walls : List (Line K)) (fuel : Nat) (delta : K) (w : World K) :
    Option (World K) :=
  if w.gameOver then some w
  else
    (stepLoop sqrt walls fuel { w with accumulatorSec := w.accumulatorSec + delta }).map
      (fun w => { w with gameOver := evalGameOver w.circles w.gameOver })

/-! ## An executable square root on the rationals -/

/-- Newton iteration for the integer square root, bounded by `fuel` rounds. -/
def sqrtIter (n : Nat) : Nat → Nat → Nat
  | 0, guess => guess
  | fuel + 1, guess =>
    let next := (guess + n / guess) / 2
    if next < guess then sqrtIter n fuel next else guess

/-- Integer square root (rounded down). -/
def sqrtNat (n : Nat) : Nat := if n ≤ 1 then n else sqrtIter n n (n / 2)

/-- Square root on the rationals: exact on the square of a rational number. -/
def sqrtQ (q : ℚ) : ℚ := mkRat (sqrtNat q.num.toNat) (sqrtNat q.den)

/-! ## Notions used in the statements -/

/-- The body scheduled by a merge of `pc1` with `pc2`. -/
def mergedFruit (sqrt : K → K) (pc1 pc2 : Fruit K) : Fruit K :=
  let subV := pc1.pos.sub pc2.pos
  let nv := subV.normalized sqrt
  let overlap := pc1.r + pc2.r - subV.length sqrt
  Fruit.new ((pc1.pos.add ((nv.mul overlap).div 2)).sub (nv.mul pc1.r)) (pc1.num + 1)

/-- Number of active bodies marked dead. -/
def deadCount (w : World K) : Nat := w.circles.countP (fun o => o.dead)

/-- Merge bookkeeping of `w` relative to the state `w0` at the start of a solver
iteration: the tiers are those of `w0`, and either nothing has merged, or exactly
one merge of two bodies of some tier `T` of `w0` has been scheduled. -/
def MergeState (w0 w : World K) : Prop :=
  w.circles.map (fun o => o.num) = w0.circles.map (fun o => o.num) ∧
  ((w.addFruit = none ∧ w.score = w0.score ∧ deadCount w = 0) ∨
    (∃ T : Int, T ∈ w0.circles.map (fun o => o.num) ∧
      (∃ f : Fruit K, w.addFruit = some f ∧ f.num = T + 1) ∧
      w.score = w0.score + mergeScore T ∧ deadCount w = 2))

/-- Overlap of the bodies at indices `i` and `j` of an active set: the sum of their
radii minus the distance of their centres, as computed at line 220. -/
def overlapAt (sqrt : K → K) (l : List (Fruit K)) (i j : Nat) : Option K :=
  match l[i]?, l[j]? with
  | some a, some b => some (a.r + b.r - (a.pos.sub b.pos).length sqrt)
  | _, _ => none

/-- Impulse of a circle-circle contact (lines 242-248), from the bodies as they are
when the pair is visited. -/
def ccImpulse (sqrt : K → K) (pc1 pc2 : Fruit K) : Vec2 K :=
  let nv := (pc1.pos.sub pc2.pos).normalized sqrt
  let dotV := (pc2.v.sub pc1.v).dot nv
  let tan := nv.rotated90
  let fDir := tan.mul (-Sign ((pc1.v.sub pc2.v).dot tan - pc1.r * pc1.omega - pc2.r * pc2.omega))
  ((((nv.add (fDir.mul (5 / 10))).mul (Min dotV 50)).mul pc1.M).mul pc2.M).div (pc1.M + pc2.M)

/-- Impulse of a circle-wall contact (lines 271-278). -/
def wallImpulse (sqrt : K → K) (pCircle : Fruit K) (wall : Line K) : Vec2 K :=
  let nv := (pCircle.pos.sub (wall.closest sqrt pCircle.pos)).normalized sqrt
  let dotV := -(pCircle.v.dot nv)
  let tan := nv.rotated90
  let fDir := tan.mul (-Sign (pCircle.v.dot tan - pCircle.r * pCircle.omega))
  ((nv.add (fDir.mul (5 / 10))).mul (Min dotV 50)).mul pCircle.M

/-- The square root is exact at `L` and on every square of a non-negative number. -/
def ExactSqrtAt (sqrt : K → K) (L : K) : Prop :=
  sqrt L * sqrt L = L ∧ ∀ x : K, 0 ≤ x → sqrt (x * x) = x

/-- The bottom wall of the container. -/
def floorWall : Line K := ⟨⟨250, 500⟩, ⟨550, 500⟩⟩

/-- The left wall of the container. -/
def leftWall : Line K := ⟨⟨250, 500⟩, ⟨250, 120⟩⟩

/-- The right wall of the container. -/
def rightWall : Line K := ⟨⟨550, 500⟩, ⟨550, 120⟩⟩

/-- A live tier-1 body of radius 14.4 and mass 1 that touches the floor at abscissa
`x`, does not spin and moves vertically with velocity `vy`. -/
def OnFloor (x vy : K) (c : Fruit K) : Prop :=
  c.pos = ⟨x, 500 - 144 / 10⟩ ∧ c.v = ⟨0, vy⟩ ∧ c.omega = 0 ∧ c.M = 1 ∧ c.r = 144 / 10 ∧
    c.num = 1 ∧ c.dead = false

/-! ## Concrete configurations -/

/-- Scenario A: two tier-1 bodies at rest on a horizontal line, `d` apart. -/
def scenarioA (x y d : K) : World K :=
  ⟨[Fruit.new ⟨x, y⟩ 1, Fruit.new ⟨x + d, y⟩ 1], none, 0, 0, false⟩

/-- A tier-1 body at (1, 0) moving away from a tier-1 body at rest at the origin. -/
def separatingPair : PairState K :=
  ⟨{ Fruit.new ⟨1, 0⟩ 1 with v := ⟨1, 0⟩ }, Fruit.new ⟨0, 0⟩ 1, none, 0⟩

/-- A tier-1 body at rest at (1, 0) and a tier-1 body at the origin that moves
towards it with speed 60. -/
def approachingPair : PairState K :=
  ⟨Fruit.new ⟨1, 0⟩ 1, { Fruit.new ⟨0, 0⟩ 1 with v := ⟨60, 0⟩ }, none, 0⟩

/-- Two overlapping tier-1 bodies next to a separate tier-2 body. -/
def clusterWorld : World ℚ :=
  ⟨[Fruit.new ⟨400, 300⟩ 1, Fruit.new ⟨380, 300⟩ 1, Fruit.new ⟨300, 200⟩ 2], none, 0, 0, false⟩

/-- Two overlapping bodies of the top tier inside the container, one above the
other, 161 apart. -/
def topTierWorld : World ℚ :=
  ⟨[Fruit.new ⟨400, 400⟩ 11, Fruit.new ⟨400, 239⟩ 11], none, 0, 0, false⟩

/-- Two overlapping bodies of tiers 1 and 2, away from the walls. -/
def duoWorld : World ℚ :=
  ⟨[Fruit.new ⟨400, 300⟩ 1, Fruit.new ⟨420, 300⟩ 2], none, 0, 0, false⟩

/-- Three bodies of tiers 1, 2 and 3 in a row, each overlapping the next, the first
and the third apart. -/
def chainWorld : World ℚ :=
  ⟨[Fruit.new ⟨400, 300⟩ 1, Fruit.new ⟨425, 300⟩ 2, Fruit.new ⟨445, 300⟩ 3], none, 0, 0, false⟩

/-! ## Further operations of the source -/

/-- Constructor `PhysicsCircle(center, radius)` with the member initialisers of
`Fruit`, for a body of tier `n`. -/
def Fruit.ofCircle (center : Vec2 K) (radius : K) (n : Int) : Fruit K :=
  { pos := center
    v := ⟨0, 0⟩
    theta := 0
    omega := 0
    M := 1
    I := 5 / 10 * 1 * radius * radius
    r := radius
    num := n
    dead := false
    fallen := false }

/-- Method `addImpulse(impulse, addPos)`. -/
def Fruit.addImpulse (o : Fruit K) (impulse addPos : Vec2 K) : Fruit K :=
  o.addImpulseLocal impulse (addPos.sub o.pos)

/-- Method `beDead()`. -/
def Fruit.beDead (o : Fruit K) : Fruit K := { o with dead := true }

/-- Method `beFallen()`. -/
def Fruit.beFallen (o : Fruit K) : Fruit K := { o with fallen := true }

/-- One round of the fixed-step loop: the body of the loop, then
`accumulatorSec -= stepSec`. -/
def stepOnce (sqrt : K → K) (walls : List (Line K)) (w : World K) : World K :=
  { fixedStep sqrt walls w with
    accumulatorSec := (fixedStep sqrt walls w).accumulatorSec - stepSec }

/-- What one pass through the main loop reads from outside the simulation: the
elapsed time `Scene::DeltaTime()`, `KeySpace.down()`, and the piece `grabFruit`
held above the container, if there is one. -/
structure FrameInput (K : Type) where
  delta : K
  keySpaceDown : Bool
  grabFruit : Option (Fruit K)

/-- The part of one pass through the main loop (lines 176-308) that reads or writes
the active set, the score, the accumulator and `gameOver`: while the game runs, a
pressed space key drops the held piece into the active set (line 178) and the
simulation advances; once the game is over, a pressed space key restarts
(lines 293-307).  The held and the next piece, the grab position and the drawing
are left out. -/
def frameUpdate (sqrt : K → K) (walls : List (Line K)) (fuel : Nat) (inp : FrameInput K)
    (w : World K) : Option (World K) :=
  if w.gameOver then
    if inp.keySpaceDown then some { w with circles := [], gameOver := false, score := 0 }
    else some w
  else
    let w1 : World K :=
      if inp.keySpaceDown then
        match inp.grabFruit with
        | some f => { w with circles := w.circles ++ [f] }
        | none => w
      else w
    advance sqrt walls fuel inp.delta w1

/-- A sequence of passes through the main loop, one input each. -/
def runFrames (sqrt : K → K) (walls : List (Line K)) (fuel : Nat) :
    List (FrameInput K) → World K → Option (World K)
  | [], w => some w
  | inp :: rest, w =>
    match frameUpdate sqrt walls fuel inp w with
    | some w1 => runFrames sqrt walls fuel rest w1
    | none => none

/-- State of `Main` before the first pass through the main loop. -/
def initialWorld : World K := ⟨[], none, 0, 0, false⟩

/-- Every active body, and the pending body if there is one, satisfies `P`. -/
def AllBodies (P : Fruit K → Prop) (w : World K) : Prop :=
  (∀ o ∈ w.circles, P o) ∧ ∀ f : Fruit K, w.addFruit = some f → P f

/-- A property of bodies that the constructor of a merged body establishes from it
and that the operations on a body keep: the visit of a pair, the visit of a wall,
and the integration with gravity. -/
def BodyInvariant (sqrt : K → K) (P : Fruit K → Prop) : Prop :=
  (∀ s : PairState K, P s.pc1 → P s.pc2 → (∀ f : Fruit K, s.addFruit = some f → P f) →
    P (resolvePair sqrt s).pc1 ∧ P (resolvePair sqrt s).pc2 ∧
      ∀ f : Fruit K, (resolvePair sqrt s).addFruit = some f → P f) ∧
  (∀ (p : Fruit K) (wall : Line K), P p → P (resolveWall sqrt p wall)) ∧
  (∀ o : Fruit K, P o →
    P { o.update stepSec with v := ⟨(o.update stepSec).v.x, (o.update stepSec).v.y + 98 / 10⟩ })

/-- Tier of a body within the range 1 to 11. -/
def TierOk (o : Fruit K) : Prop := 1 ≤ o.num ∧ o.num ≤ 11

/-- Mass 1 and moment of inertia `0.5 * M * r * r`. -/
def PhysOk (o : Fruit K) : Prop := o.M = 1 ∧ o.I = 5 / 10 * o.M * o.r * o.r

/-- Midpoint of two points. -/
def Vec2.midpoint (a b : Vec2 K) : Vec2 K := (a.add b).div 2

/-- Two passes of 1/200 each; each drops a tier-1 piece, the second onto the first. -/
def dropInputs : List (FrameInput ℚ) :=
  [⟨1 / 200, true, some (Fruit.new ⟨400, 300⟩ 1)⟩, ⟨1 / 200, true, some (Fruit.new ⟨400, 310⟩ 1)⟩]

/-! ## The accumulator in double arithmetic -/

/-- Position of the leading binary digit of `n` (0 for `n ≤ 1`), by halving at most
`fuel` times. -/
def log2Fuel : Nat → Nat → Nat
  | 0, _ => 0
  | fuel + 1, n => if 2 ≤ n then log2Fuel fuel (n / 2) + 1 else 0

/-- Rounding of a rational to the nearest integer, a tie going to the even one. -/
def roundEven (x : ℚ) : ℤ :=
  if 2 * (x - ⌊x⌋) < 1 then ⌊x⌋
  else if 1 < 2 * (x - ⌊x⌋) then ⌊x⌋ + 1
  else if ⌊x⌋ % 2 = 0 then ⌊x⌋ else ⌊x⌋ + 1

/-- Binary exponent of a rational `x ≠ 0`: the `e` with `2 ^ e ≤ |x| < 2 ^ (e + 1)`. -/
def binade (x : ℚ) : ℤ :=
  if (2 : ℚ) ^ ((log2Fuel x.num.natAbs x.num.natAbs : ℤ) - (log2Fuel x.den x.den : ℤ)) ≤ |x| then
    (log2Fuel x.num.natAbs x.num.natAbs : ℤ) - (log2Fuel x.den x.den : ℤ)
  else (log2Fuel x.num.natAbs x.num.natAbs : ℤ) - (log2Fuel x.den x.den : ℤ) - 1

/-- Spacing of the `double` values around `x`: 53 significant binary digits, the
exponent not below -1022 (subnormal range). -/
def ulp (x : ℚ) : ℚ := (2 : ℚ) ^ (max (binade x) (-1022) - 52)

/-- The `double` nearest to the rational `x`, a tie going to the even significand
(IEEE 754 binary64, default rounding); overflow to infinity is left out, so this is
the machine result for `|x| < 2 ^ 1024`. -/
def roundDouble (x : ℚ) : ℚ := roundEven (x / ulp x) * ulp x

/-- The stored value of `constexpr double stepSec = (1.0 / 200.0)` (line 154): the
quotient rounded to a `double`, which is `5764607523034235 / 2 ^ 60`, above 1/200. -/
def stepSecD : ℚ := roundDouble (1 / 200)

/-- One round of the loop of line 205 when the stored step is `s` and the result of
the subtraction is rounded by `rd`: the fixed step, then `accumulatorSec -= stepSec`. -/
def stepOnceR (rd : K → K) (s : K) (sqrt : K → K) (walls : List (Line K)) (w : World K) :
    World K :=
  { fixedStep sqrt walls w with
    accumulatorSec := rd ((fixedStep sqrt walls w).accumulatorSec - s) }

/-- The loop `for (...; stepSec <= accumulatorSec; accumulatorSec -= stepSec)` of
line 205 with stored step `s` and rounding `rd`, bounded by `fuel` rounds; `none`
when the fuel does not suffice.  With `rd = roundDouble` and `s = stepSecD` this is
the loop as the machine runs it on the accumulator; with `rd = id` and `s = 1/200`
it is `stepLoop`. -/
def stepLoopR (rd : K → K) (s : K) (sqrt : K → K) (walls : List (Line K)) :
    Nat → World K → Option (World K)
  | 0, w => if s ≤ w.accumulatorSec then none else some w
  | fuel + 1, w =>
    if s ≤ w.accumulatorSec then
      stepLoopR rd s sqrt walls fuel (stepOnceR rd s sqrt walls w)
    else some w

/-! ## A pair of bodies among others -/

/-- The visits of the circle-circle pass over `n` bodies, in their order: every
ordered pair of indices, first index outermost. -/
def ccVisits (n : Nat) : List (Nat × Nat) :=
  (List.range n).flatMap (fun i => (List.range n).map (fun j => (i, j)))

/-- The guards of lines 218 and 222: the visit of the bodies `pc1`, `pc2` writes
nothing when their separation is zero or their overlap negative. -/
def skipsPair (sqrt : K → K) (pc1 pc2 : Fruit K) : Bool :=
  (pc1.pos.sub pc2.pos).isZero ||
    decide (pc1.r + pc2.r - (pc1.pos.sub pc2.pos).length sqrt < 0)

/-- The guards of lines 259 and 263: the visit of the body and the wall writes nothing
when the separation from the closest wall point is zero or the overlap negative. -/
def skipsWall (sqrt : K → K) (pCircle : Fruit K) (wall : Line K) : Bool :=
  (pCircle.pos.sub (wall.closest sqrt pCircle.pos)).isZero ||
    decide (pCircle.r - (pCircle.pos.sub (wall.closest sqrt pCircle.pos)).length sqrt < 0)

/-- The visit of the ordered pair of indices `(k, l)` pairs exactly one of the
bodies at `i`, `j` with a third body. -/
def pairsWithThird (i j k l : Nat) : Bool :=
  (decide (k = i ∨ k = j)) != (decide (l = i ∨ l = j))

/-- The visit of the ordered pair of indices `(k, l)` in the state `w` leaves the pair
of bodies at `i`, `j` to itself: if it pairs one of the two with a third body, it is
skipped by the guards (the two visited bodies are out of contact); if it is the
visit of the two themselves, in either order, the merge condition of line 233 fails
(their tiers differ or the pending-spawn slot is taken). -/
def leavesPairAlone (sqrt : K → K) (i j k l : Nat) (w : World K) : Bool :=
  match w.circles[k]?, w.circles[l]? with
  | some pc1, some pc2 =>
    if pairsWithThird i j k l then skipsPair sqrt pc1 pc2
    else if (k = i ∧ l = j) ∨ (k = j ∧ l = i) then
      decide (pc1.num ≠ pc2.num) || w.addFruit.isSome
    else true
  | _, _ => true

/-- Runs the visits `vs` from the state `w`, in order, and tells whether every one of
them leaves the pair of bodies at `i`, `j` to itself. -/
def pairLeftAlone (sqrt : K → K) (i j : Nat) : List (Nat × Nat) → World K → Bool
  | [], _ => true
  | (k, l) :: rest, w =>
    leavesPairAlone sqrt i j k l w && pairLeftAlone sqrt i j rest (resolveCC sqrt k l w)

/-- The body at index `i` of `l`, if there is one, is skipped by the guards of every
wall of `walls`. -/
def clearOfWalls (sqrt : K → K) (walls : List (Line K)) (l : List (Fruit K)) (i : Nat) : Bool :=
  match l[i]? with
  | some p => walls.all (fun wall => skipsWall sqrt p wall)
  | none => true

/-- Two overlapping bodies of tier 1, which merge, and away from them two
overlapping bodies of tier 2, which are visited once the pending-spawn slot is taken. -/
def quartetWorld : World ℚ :=
  ⟨[Fruit.new ⟨300, 200⟩ 1, Fruit.new ⟨320, 200⟩ 1, Fruit.new ⟨400, 300⟩ 2,
    Fruit.new ⟨420, 300⟩ 2], none, 0, 0, false⟩

/-- Two overlapping bodies of tiers 1 and 2 next to the left wall, which the first
reaches once the pair has been pushed apart. -/
def wallsideWorld : World ℚ :=
  ⟨[Fruit.new ⟨265, 300⟩ 1, Fruit.new ⟨285, 300⟩ 2], none, 0, 0, false⟩

/-! ## Basic facts -/

theorem sqrtIter_eq (n : Nat) : ∀ fuel guess : Nat, guess ≤ fuel →
    sqrtIter n fuel guess = Nat.sqrt.iter n guess := by
  intro fuel
  induction fuel with
  | zero =>
    intro guess h
    obtain rfl : guess = 0 := by omega
    rw [Nat.sqrt.iter]
    simp [sqrtIter]
  | succ k ih =>
    intro guess h
    rw [Nat.sqrt.iter]
    simp only [sqrtIter]
    split_ifs with hlt
    · exact ih _ (by omega)
    · rfl

theorem sqrtNat_eq (n : Nat) : sqrtNat n = Nat.sqrt n := by
  unfold sqrtNat Nat.sqrt
  split_ifs
  · rfl
  · exact sqrtIter_eq n n (n / 2) (Nat.div_le_self n 2)

theorem sqrtQ_eq (q : ℚ) : sqrtQ q = Rat.sqrt q := by
  unfold sqrtQ Rat.sqrt Int.sqrt
  rw [sqrtNat_eq, sqrtNat_eq]

theorem sqrtQ_sq (x : ℚ) (h : 0 ≤ x) : sqrtQ (x * x) = x := by
  rw [sqrtQ_eq, Rat.sqrt_eq, abs_of_nonneg h]

theorem isSqrt_real : IsSqrt Real.sqrt :=
  ⟨fun _ hx => Real.mul_self_sqrt hx, fun x => Real.sqrt_nonneg x⟩

/-! ## Termination evaluation -/

theorem evalGameOver_eq (circles : List (Fruit K)) (g : Bool) :
    evalGameOver circles g =
      (g || circles.any (fun o =>
        decide ((o.fallen = true ∧ o.pos.y - o.r < 80) ∨ 800 < o.pos.y))) := by
  induction circles generalizing g with
  | nil => simp [evalGameOver]
  | cons o os ih =>
    simp only [evalGameOver, List.foldl_cons, List.any_cons] at ih ⊢
    rw [ih]
    by_cases hc : (o.fallen = true ∧ o.pos.y - o.r < 80) ∨ 800 < o.pos.y
    · rw [if_pos hc, decide_eq_true hc]
      simp
    · rw [if_neg hc, decide_eq_false hc]
      simp

/-- C5: run with `gameOver` false, the termination evaluation sets it exactly when
some active body is fallen with its top above 80, or lies below 800; a body below
800 sets it whatever its fallen flag, and bodies that are not fallen and not below
800 never set it. -/
theorem evalGameOver_iff (circles : List (Fruit K)) :
    (evalGameOver circles false = true ↔
      ∃ o ∈ circles, (o.fallen = true ∧ o.pos.y - o.r < 80) ∨ 800 < o.pos.y) ∧
    (∀ o ∈ circles, 800 < o.pos.y → evalGameOver circles false = true) ∧
    ((∀ o ∈ circles, o.fallen = false ∧ o.pos.y ≤ 800) →
      evalGameOver circles false = false) := by
  have key : evalGameOver circles false = true ↔
      ∃ o ∈ circles, (o.fallen = true ∧ o.pos.y - o.r < 80) ∨ 800 < o.pos.y := by
    rw [evalGameOver_eq]
    simp
  refine ⟨key, fun o ho hy => key.2 ⟨o, ho, Or.inr hy⟩, fun h => ?_⟩
  rw [← Bool.not_eq_true]
  intro hg
  obtain ⟨o, ho, hc⟩ := key.1 hg
  obtain ⟨hf, hy⟩ := h o ho
  rcases hc with ⟨hf', _⟩ | hy'
  · rw [hf] at hf'
    exact Bool.false_ne_true hf'
  · exact absurd hy' (not_lt.2 hy)

/-- Witness for C5: an unfallen tier-1 body at height 900 ends the game. -/
theorem evalGameOver_iff_witness :
    evalGameOver [Fruit.new (⟨400, 900⟩ : Vec2 ℚ) 1] false = true :=
  (evalGameOver_iff [Fruit.new (⟨400, 900⟩ : Vec2 ℚ) 1]).2.1 _
    (List.mem_singleton.2 rfl) (by norm_num [Fruit.new])

/-! ## One visit of a pair of bodies -/

theorem resolvePair_of_isZero (sqrt : K → K) (s : PairState K)
    (h : (s.pc1.pos.sub s.pc2.pos).isZero = true) : resolvePair sqrt s = s := by
  simp only [resolvePair, h, if_true]

theorem resolvePair_of_apart (sqrt : K → K) (s : PairState K)
    (h : s.pc1.r + s.pc2.r - (s.pc1.pos.sub s.pc2.pos).length sqrt < 0) :
    resolvePair sqrt s = s := by
  simp only [resolvePair, h, if_true, ite_self]

theorem resolvePair_num (sqrt : K → K) (s : PairState K) :
    (resolvePair sqrt s).pc1.num = s.pc1.num ∧ (resolvePair sqrt s).pc2.num = s.pc2.num := by
  simp only [resolvePair, Fruit.addImpulseLocal]
  split_ifs <;> simp

theorem resolvePair_pending (sqrt : K → K) (s : PairState K) (h : s.addFruit ≠ none) :
    (resolvePair sqrt s).addFruit = s.addFruit ∧ (resolvePair sqrt s).score = s.score ∧
    (resolvePair sqrt s).pc1.dead = s.pc1.dead ∧ (resolvePair sqrt s).pc2.dead = s.pc2.dead := by
  simp only [resolvePair, Fruit.addImpulseLocal]
  split_ifs <;> simp_all


theorem resolvePair_merge (sqrt : K → K) (s : PairState K)
    (hz : (s.pc1.pos.sub s.pc2.pos).isZero = false)
    (hov : 0 ≤ s.pc1.r + s.pc2.r - (s.pc1.pos.sub s.pc2.pos).length sqrt)
    (hnum : s.pc1.num = s.pc2.num) (hslot : s.addFruit = none) :
    (resolvePair sqrt s).pc1.dead = true ∧ (resolvePair sqrt s).pc2.dead = true ∧
    (resolvePair sqrt s).score = s.score + mergeScore s.pc1.num ∧
    (resolvePair sqrt s).addFruit =
      if s.pc1.num ≤ 10 then some (mergedFruit sqrt s.pc1 s.pc2) else none := by
  have hov' : ¬ s.pc1.r + s.pc2.r - (s.pc1.pos.sub s.pc2.pos).length sqrt < 0 := not_lt.2 hov
  simp only [resolvePair, Fruit.addImpulseLocal, mergedFruit, hz, hov', hnum, hslot]
  split_ifs <;> simp_all

theorem resolvePair_no_merge (sqrt : K → K) (s : PairState K)
    (h : s.pc1.num ≠ s.pc2.num) :
    (resolvePair sqrt s).addFruit = s.addFruit ∧ (resolvePair sqrt s).score = s.score ∧
    (resolvePair sqrt s).pc1.dead = s.pc1.dead ∧ (resolvePair sqrt s).pc2.dead = s.pc2.dead := by
  simp only [resolvePair, Fruit.addImpulseLocal]
  split_ifs <;> simp_all


/-! ## Lists of bodies -/

theorem set_of_getElem? {α : Type} : ∀ (l : List α) (i : Nat) (a : α),
    l[i]? = some a → l.set i a = l := by
  intro l
  induction l with
  | nil => intro i a h; simp
  | cons x xs ih =>
    intro i a h
    cases i with
    | zero => simp at h; simp [h]
    | succ k => simp at h; simp [ih k a h]

theorem map_set_set {α β : Type} (f : α → β) (l : List α) (i j : Nat) (a b a1 b1 : α)
    (hi : l[i]? = some a) (hj : l[j]? = some b) (ha : f a1 = f a) (hb : f b1 = f b) :
    ((l.set i a1).set j b1).map f = l.map f := by
  rw [List.map_set, List.map_set, ha, hb]
  have h1 : (l.map f).set i (f a) = l.map f :=
    set_of_getElem? _ _ _ (by rw [List.getElem?_map, hi]; rfl)
  rw [h1]
  exact set_of_getElem? _ _ _ (by rw [List.getElem?_map, hj]; rfl)

theorem foldl_invariant {σ α : Type} (P : σ → Prop) (f : σ → α → σ)
    (hf : ∀ s a, P s → P (f s a)) : ∀ (l : List α) (s : σ), P s → P (l.foldl f s) := by
  intro l
  induction l with
  | nil => intro s hs; exact hs
  | cons a as ih => intro s hs; exact ih _ (hf s a hs)

/-! ## One visit of an ordered pair of indices -/

theorem resolveCC_self (sqrt : K → K) (i : Nat) (w : World K) : resolveCC sqrt i i w = w := by
  unfold resolveCC
  cases h : w.circles[i]? with
  | none => rfl
  | some a =>
    have hz : ((⟨a, a, w.addFruit, w.score⟩ : PairState K).pc1.pos.sub
        (⟨a, a, w.addFruit, w.score⟩ : PairState K).pc2.pos).isZero = true := by
      simp [Vec2.sub, Vec2.isZero]
    simp only [resolvePair_of_isZero sqrt _ hz, set_of_getElem? _ _ _ h]

theorem resolveCC_length (sqrt : K → K) (i j : Nat) (w : World K) :
    (resolveCC sqrt i j w).circles.length = w.circles.length := by
  unfold resolveCC
  split <;> simp

theorem resolveCC_frame (sqrt : K → K) (i j : Nat) (w : World K) :
    (resolveCC sqrt i j w).accumulatorSec = w.accumulatorSec ∧
    (resolveCC sqrt i j w).gameOver = w.gameOver := by
  unfold resolveCC
  split <;> simp

theorem resolveCC_num (sqrt : K → K) (i j : Nat) (w : World K) :
    (resolveCC sqrt i j w).circles.map (fun o => o.num) = w.circles.map (fun o => o.num) := by
  unfold resolveCC
  split
  · next pc1 pc2 h1 h2 =>
    obtain ⟨e1, e2⟩ := resolvePair_num sqrt ⟨pc1, pc2, w.addFruit, w.score⟩
    exact map_set_set _ _ _ _ pc1 pc2 _ _ h1 h2 e1 e2
  · rfl

theorem resolveCC_pending (sqrt : K → K) (i j : Nat) (w : World K) (h : w.addFruit ≠ none) :
    (resolveCC sqrt i j w).addFruit = w.addFruit ∧ (resolveCC sqrt i j w).score = w.score ∧
    (resolveCC sqrt i j w).circles.map (fun o => o.dead) = w.circles.map (fun o => o.dead) := by
  unfold resolveCC
  split
  · next pc1 pc2 h1 h2 =>
    obtain ⟨e1, e2, e3, e4⟩ := resolvePair_pending sqrt ⟨pc1, pc2, w.addFruit, w.score⟩ h
    exact ⟨e1, e2, map_set_set _ _ _ _ pc1 pc2 _ _ h1 h2 e3 e4⟩
  · exact ⟨rfl, rfl, rfl⟩


theorem resolvePair_free (sqrt : K → K) (s : PairState K) (h : s.addFruit = none) :
    ((resolvePair sqrt s).addFruit = none ∧ (resolvePair sqrt s).score = s.score ∧
      (resolvePair sqrt s).pc1.dead = s.pc1.dead ∧ (resolvePair sqrt s).pc2.dead = s.pc2.dead) ∨
    ((s.pc1.pos.sub s.pc2.pos).isZero = false ∧
      (resolvePair sqrt s).pc1.dead = true ∧ (resolvePair sqrt s).pc2.dead = true ∧
      (resolvePair sqrt s).score = s.score + mergeScore s.pc1.num ∧
      (resolvePair sqrt s).addFruit =
        if s.pc1.num ≤ 10 then some (mergedFruit sqrt s.pc1 s.pc2) else none) := by
  by_cases hz : (s.pc1.pos.sub s.pc2.pos).isZero = true
  · rw [resolvePair_of_isZero sqrt s hz]
    exact Or.inl ⟨h, rfl, rfl, rfl⟩
  · rw [Bool.not_eq_true] at hz
    by_cases hov : s.pc1.r + s.pc2.r - (s.pc1.pos.sub s.pc2.pos).length sqrt < 0
    · rw [resolvePair_of_apart sqrt s hov]
      exact Or.inl ⟨h, rfl, rfl, rfl⟩
    · by_cases hnum : s.pc1.num = s.pc2.num
      · exact Or.inr ⟨hz, resolvePair_merge sqrt s hz (not_lt.1 hov) hnum h⟩
      · obtain ⟨e1, e2, e3, e4⟩ := resolvePair_no_merge sqrt s hnum
        exact Or.inl ⟨e1.trans h, e2, e3, e4⟩

theorem countP_dead_congr {F : Type} (l1 l2 : List (Fruit F))
    (h : l1.map (fun o => o.dead) = l2.map (fun o => o.dead)) :
    l1.countP (fun o => o.dead) = l2.countP (fun o => o.dead) := by
  have e : ∀ l : List (Fruit F),
      l.countP (fun o => o.dead) = (l.map (fun o => o.dead)).countP id := by
    intro l
    rw [List.countP_map]
    rfl
  rw [e l1, e l2, h]

theorem countP_dead_set_set {F : Type} (l : List (Fruit F)) (i j : Nat) (a b a1 b1 : Fruit F)
    (hi : l[i]? = some a) (hj : l[j]? = some b) (hij : i ≠ j)
    (h0 : l.countP (fun o => o.dead) = 0) (ha : a1.dead = true) (hb : b1.dead = true) :
    ((l.set i a1).set j b1).countP (fun o => o.dead) = 2 := by
  obtain ⟨hi', hia⟩ := List.getElem?_eq_some.1 hi
  obtain ⟨hj', hjb⟩ := List.getElem?_eq_some.1 hj
  have hall : ∀ o ∈ l, ¬ (o.dead = true) := List.countP_eq_zero.1 h0
  have hj1 : j < (l.set i a1).length := by rw [List.length_set]; exact hj'
  rw [List.countP_set _ _ _ _ hj1, List.countP_set _ _ _ _ hi', h0]
  have e1 : (l.set i a1)[j] = l[j] := List.getElem_set_ne hij _
  have hd : ¬ (l[j].dead = true) := hall _ (List.getElem_mem _)
  rw [e1]
  simp [ha, hb, hd, hall _ (List.getElem_mem hi')]


theorem mergedFruit_num (sqrt : K → K) (a b : Fruit K) :
    (mergedFruit sqrt a b).num = a.num + 1 := rfl

theorem resolveCC_mergeState (sqrt : K → K) (w0 : World K)
    (htier : ∀ T ∈ w0.circles.map (fun o => o.num), T ≤ 10) (i j : Nat) (w : World K)
    (h : MergeState w0 w) : MergeState w0 (resolveCC sqrt i j w) := by
  obtain ⟨hnum, hcase⟩ := h
  refine ⟨(resolveCC_num sqrt i j w).trans hnum, ?_⟩
  rcases hcase with ⟨hslot, hscore, hcount⟩ | ⟨T, hT, ⟨f, hf, hfn⟩, hscore, hcount⟩
  · by_cases hij : i = j
    · subst hij
      rw [resolveCC_self]
      exact Or.inl ⟨hslot, hscore, hcount⟩
    · unfold resolveCC deadCount
      split
      · next pc1 pc2 h1 h2 =>
        rcases resolvePair_free sqrt ⟨pc1, pc2, w.addFruit, w.score⟩ hslot with
          ⟨e1, e2, e3, e4⟩ | ⟨_, e1, e2, e3, e4⟩
        · refine Or.inl ⟨e1, e2.trans hscore, ?_⟩
          rw [countP_dead_congr _ w.circles
            (map_set_set (fun o => o.dead) _ _ _ pc1 pc2 _ _ h1 h2 e3 e4)]
          exact hcount
        · have hmem : pc1.num ∈ w0.circles.map (fun o => o.num) := by
            rw [← hnum]
            obtain ⟨hi, hia⟩ := List.getElem?_eq_some.1 h1
            exact List.mem_map.2 ⟨pc1, hia ▸ List.getElem_mem hi, rfl⟩
          refine Or.inr ⟨pc1.num, hmem, ⟨mergedFruit sqrt pc1 pc2, ?_, rfl⟩, ?_, ?_⟩
          · have h10 : pc1.num ≤ 10 := htier _ hmem
            simp only [e4, if_pos h10]
          · exact e3.trans (congrArg (fun z => z + mergeScore pc1.num) hscore)
          · exact countP_dead_set_set _ _ _ pc1 pc2 _ _ h1 h2 hij hcount e1 e2
      · exact Or.inl ⟨hslot, hscore, hcount⟩
  · have hne : w.addFruit ≠ none := by rw [hf]; exact Option.some_ne_none f
    obtain ⟨e1, e2, e3⟩ := resolveCC_pending sqrt i j w hne
    refine Or.inr ⟨T, hT, ⟨f, e1.trans hf, hfn⟩, e2.trans hscore, ?_⟩
    unfold deadCount at hcount ⊢
    rw [countP_dead_congr _ _ e3]
    exact hcount

theorem ccPass_mergeState (sqrt : K → K) (w0 : World K)
    (htier : ∀ T ∈ w0.circles.map (fun o => o.num), T ≤ 10) (w : World K)
    (h : MergeState w0 w) : MergeState w0 (ccPass sqrt w) := by
  unfold ccPass
  refine foldl_invariant (MergeState w0) _ (fun s i hs => ?_) _ w h
  exact foldl_invariant (MergeState w0) _
    (fun s j hs => resolveCC_mergeState sqrt w0 htier i j s hs) _ s hs

/-! ## Wall pass and compaction -/

theorem resolveWall_flags (sqrt : K → K) (p : Fruit K) (wall : Line K) :
    (resolveWall sqrt p wall).num = p.num ∧ (resolveWall sqrt p wall).dead = p.dead := by
  simp only [resolveWall, Fruit.addImpulseLocal]
  split_ifs <;> simp

theorem foldl_resolveWall_flags (sqrt : K → K) (walls : List (Line K)) (p : Fruit K) :
    (walls.foldl (resolveWall sqrt) p).num = p.num ∧
    (walls.foldl (resolveWall sqrt) p).dead = p.dead :=
  foldl_invariant (fun q : Fruit K => q.num = p.num ∧ q.dead = p.dead) (resolveWall sqrt)
    (fun q wall hq =>
      ⟨(resolveWall_flags sqrt q wall).1.trans hq.1, (resolveWall_flags sqrt q wall).2.trans hq.2⟩)
    walls p ⟨rfl, rfl⟩

theorem wallPass_flags (sqrt : K → K) (walls : List (Line K)) (w : World K) :
    (wallPass sqrt walls w).circles.map (fun o => o.num) = w.circles.map (fun o => o.num) ∧
    (wallPass sqrt walls w).circles.map (fun o => o.dead) = w.circles.map (fun o => o.dead) ∧
    (wallPass sqrt walls w).addFruit = w.addFruit ∧ (wallPass sqrt walls w).score = w.score := by
  refine ⟨?_, ?_, rfl, rfl⟩
  · simp only [wallPass, List.map_map]
    exact List.map_congr_left (fun o _ => (foldl_resolveWall_flags sqrt walls o).1)
  · simp only [wallPass, List.map_map]
    exact List.map_congr_left (fun o _ => (foldl_resolveWall_flags sqrt walls o).2)

theorem wallPass_mergeState (sqrt : K → K) (walls : List (Line K)) (w0 w : World K)
    (h : MergeState w0 w) : MergeState w0 (wallPass sqrt walls w) := by
  obtain ⟨e1, e2, e3, e4⟩ := wallPass_flags sqrt walls w
  have ec : deadCount (wallPass sqrt walls w) = deadCount w := countP_dead_congr _ _ e2
  obtain ⟨hnum, hcase⟩ := h
  refine ⟨e1.trans hnum, ?_⟩
  rw [e3, e4, ec]
  exact hcase

theorem length_filter_alive {F : Type} (l : List (Fruit F)) :
    (l.filter (fun o => !o.dead)).length + l.countP (fun o => o.dead) = l.length := by
  induction l with
  | nil => rfl
  | cons o os ih =>
    cases hd : o.dead <;> simp [List.filter_cons, List.countP_cons, hd] <;> omega

theorem compact_circles {F : Type} (w : World F) :
    (compact w).circles = w.circles.filter (fun o => !o.dead) ++ w.addFruit.toList ∧
    (compact w).addFruit = none ∧ (compact w).score = w.score := by
  unfold compact
  cases h : w.addFruit <;> simp [h]

theorem mergeScore_eq (T : Int) (h : 0 ≤ T) : mergeScore T = T * (T + 1) / 2 := by
  unfold mergeScore
  exact Int.tdiv_eq_ediv (by positivity) (by norm_num)

theorem mergeState_refl {F : Type} (w : World F) (hslot : w.addFruit = none)
    (halive : ∀ o ∈ w.circles, o.dead = false) : MergeState w w := by
  refine ⟨rfl, Or.inl ⟨hslot, rfl, ?_⟩⟩
  unfold deadCount
  rw [List.countP_eq_zero]
  intro o ho
  rw [halive o ho]
  exact Bool.false_ne_true


/-! ## At most one merge in a solver iteration -/

theorem solverPasses_mergeState (sqrt : K → K) (walls : List (Line K)) (w : World K)
    (hslot : w.addFruit = none) (htier : ∀ o ∈ w.circles, 1 ≤ o.num ∧ o.num ≤ 10)
    (halive : ∀ o ∈ w.circles, o.dead = false) :
    MergeState w (solverPasses sqrt walls w) := by
  have htier' : ∀ T ∈ w.circles.map (fun o => o.num), T ≤ 10 := by
    intro T hT
    obtain ⟨o, ho, rfl⟩ := List.mem_map.1 hT
    exact (htier o ho).2
  exact wallPass_mergeState sqrt walls w _
    (ccPass_mergeState sqrt w htier' w (mergeState_refl w hslot halive))

/-- C3: started with an empty pending-spawn slot on live bodies of tiers 1 to 10,
one solver iteration performs at most one merge.  With `m` the state after both
passes and `w1` the state after the iteration: the active set of `w1` is that of
`m` without its dead bodies, followed by the pending body if there is one; and
either no body is dead, nothing is pending, the score and the number of bodies are
unchanged, or exactly two bodies are dead, one body of tier `T + 1` is pending, the
score has grown by `T * (T + 1) / 2` for one tier `T`, and the active set has one
body less.  -/
theorem solverIteration_at_most_one_merge (sqrt : K → K) (walls : List (Line K))
    (w : World K) (hslot : w.addFruit = none)
    (htier : ∀ o ∈ w.circles, 1 ≤ o.num ∧ o.num ≤ 10)
    (halive : ∀ o ∈ w.circles, o.dead = false) :
    (solverIteration sqrt walls w).circles =
        (solverPasses sqrt walls w).circles.filter (fun o => !o.dead) ++
          (solverPasses sqrt walls w).addFruit.toList ∧
    (solverIteration sqrt walls w).addFruit = none ∧
    ((deadCount (solverPasses sqrt walls w) = 0 ∧
        (solverPasses sqrt walls w).addFruit = none ∧
        (solverIteration sqrt walls w).score = w.score ∧
        (solverIteration sqrt walls w).circles.length = w.circles.length) ∨
      (∃ T : Int, 1 ≤ T ∧ T ≤ 10 ∧
        deadCount (solverPasses sqrt walls w) = 2 ∧
        (∃ f : Fruit K, (solverPasses sqrt walls w).addFruit = some f ∧ f.num = T + 1) ∧
        (solverIteration sqrt walls w).score = w.score + T * (T + 1) / 2 ∧
        (solverIteration sqrt walls w).circles.length + 1 = w.circles.length)) := by
  obtain ⟨hnum, hcase⟩ := solverPasses_mergeState sqrt walls w hslot htier halive
  obtain ⟨hc, hs, hsc⟩ := compact_circles (solverPasses sqrt walls w)
  have hlen : (solverPasses sqrt walls w).circles.length = w.circles.length := by
    have := congrArg List.length hnum
    simpa using this
  have hfl := length_filter_alive (solverPasses sqrt walls w).circles
  refine ⟨hc, hs, ?_⟩
  unfold solverIteration
  rcases hcase with ⟨h1, h2, h3⟩ | ⟨T, hT, ⟨f, hf, hfn⟩, h2, h3⟩
  · refine Or.inl ⟨h3, h1, hsc.trans h2, ?_⟩
    unfold deadCount at h3
    rw [hc, h1, List.length_append, ← hlen]
    simp only [Option.toList, List.length_nil]
    omega
  · obtain ⟨o, ho, rfl⟩ := List.mem_map.1 hT
    obtain ⟨ht1, ht10⟩ := htier o ho
    refine Or.inr ⟨o.num, ht1, ht10, h3, ⟨f, hf, hfn⟩, ?_, ?_⟩
    · rw [hsc, h2, mergeScore_eq _ (by omega)]
    · unfold deadCount at h3
      rw [hc, hf, List.length_append, ← hlen]
      simp only [Option.toList, List.length_singleton]
      omega

/-! ## Merge of two bodies of equal tier -/

theorem ccPass_two (sqrt : K → K) (w : World K) (h : w.circles.length = 2) :
    ccPass sqrt w = resolveCC sqrt 1 0 (resolveCC sqrt 0 1 w) := by
  have hr : List.range 2 = [0, 1] := rfl
  have h1 : (resolveCC sqrt 0 1 w).circles.length = 2 := by rw [resolveCC_length, h]
  simp only [ccPass, h, hr, List.foldl_cons, List.foldl_nil, resolveCC_self, h1]

theorem mergedFruit_collinear (sqrt : K → K) (a b : Fruit K) :
    ((mergedFruit sqrt a b).pos.sub a.pos).cross (b.pos.sub a.pos) = 0 := by
  simp only [mergedFruit, Fruit.new, Vec2.sub, Vec2.add, Vec2.mul, Vec2.div, Vec2.cross,
    Vec2.normalized]
  ring

theorem filter_alive_of_all_dead {F : Type} (l : List (Fruit F))
    (h : ∀ o ∈ l, o.dead = true) : l.filter (fun o => !o.dead) = [] := by
  rw [List.filter_eq_nil_iff]
  intro o ho
  simp [h o ho]

theorem all_dead_of_map {F : Type} (l l0 : List (Fruit F))
    (h : l.map (fun o => o.dead) = l0.map (fun o => o.dead))
    (h0 : ∀ o ∈ l0, o.dead = true) : ∀ o ∈ l, o.dead = true := by
  intro o ho
  have hm : o.dead ∈ l0.map (fun o => o.dead) := h ▸ List.mem_map.2 ⟨o, ho, rfl⟩
  obtain ⟨o0, ho0, e⟩ := List.mem_map.1 hm
  rw [← e]
  exact h0 o0 ho0

theorem resolveCC_merge_two (sqrt : K → K) (a b : Fruit K)
    (w : World K) (hc : w.circles = [a, b]) (hnum : a.num = b.num)
    (hslot : w.addFruit = none) (hsep : (a.pos.sub b.pos).isZero = false)
    (hov : 0 ≤ a.r + b.r - (a.pos.sub b.pos).length sqrt) :
    (resolveCC sqrt 0 1 w).score = w.score + mergeScore a.num ∧
    (resolveCC sqrt 0 1 w).addFruit =
      (if a.num ≤ 10 then some (mergedFruit sqrt a b) else none) ∧
    (∀ o ∈ (resolveCC sqrt 0 1 w).circles, o.dead = true) := by
  obtain ⟨e1, e2, e3, e4⟩ :=
    resolvePair_merge sqrt ⟨a, b, w.addFruit, w.score⟩ hsep hov hnum hslot
  simp only [resolveCC, hc, List.getElem?_cons_zero, List.getElem?_cons_succ, List.set_cons_zero,
    List.set_cons_succ]
  refine ⟨e3, e4, ?_⟩
  intro o ho
  simp only [List.mem_cons, List.mem_singleton, List.not_mem_nil, or_false] at ho
  rcases ho with rfl | rfl
  · exact e1
  · exact e2

theorem solverIteration_merge_two (sqrt : K → K) (walls : List (Line K)) (a b : Fruit K)
    (w : World K) (hc : w.circles = [a, b]) (hnum : a.num = b.num) (h10 : a.num ≤ 10)
    (hslot : w.addFruit = none) (hsep : (a.pos.sub b.pos).isZero = false)
    (hov : 0 ≤ a.r + b.r - (a.pos.sub b.pos).length sqrt) :
    (solverIteration sqrt walls w).score = w.score + mergeScore a.num ∧
    (solverIteration sqrt walls w).circles = [mergedFruit sqrt a b] ∧
    (solverIteration sqrt walls w).addFruit = none := by
  obtain ⟨e1, e2, e3⟩ := resolveCC_merge_two sqrt a b w hc hnum hslot hsep hov
  rw [if_pos h10] at e2
  have hne : (resolveCC sqrt 0 1 w).addFruit ≠ none := by
    rw [e2]; exact Option.some_ne_none _
  obtain ⟨p1, p2, p3⟩ := resolveCC_pending sqrt 1 0 (resolveCC sqrt 0 1 w) hne
  obtain ⟨_, q2, q3, q4⟩ :=
    wallPass_flags sqrt walls (resolveCC sqrt 1 0 (resolveCC sqrt 0 1 w))
  have hcc : ccPass sqrt w = resolveCC sqrt 1 0 (resolveCC sqrt 0 1 w) :=
    ccPass_two sqrt w (by rw [hc]; rfl)
  obtain ⟨c1, c2, c3⟩ := compact_circles (solverPasses sqrt walls w)
  have hdead : ∀ o ∈ (solverPasses sqrt walls w).circles, o.dead = true := by
    unfold solverPasses
    rw [hcc]
    exact all_dead_of_map _ _ (q2.trans p3) e3
  have hadd : (solverPasses sqrt walls w).addFruit = some (mergedFruit sqrt a b) := by
    unfold solverPasses
    rw [hcc, q3, p1, e2]
  have hscore : (solverPasses sqrt walls w).score = w.score + mergeScore a.num := by
    unfold solverPasses
    rw [hcc, q4, p2, e1]
  unfold solverIteration
  refine ⟨c3.trans hscore, ?_, c2⟩
  rw [c1, filter_alive_of_all_dead _ hdead, hadd]
  rfl

/-- C1: for a tier `T` from 1 to 10 and an active set of exactly two non-coincident
overlapping bodies of tier `T`, with the pending-spawn slot empty, one solver
iteration leaves exactly one body; its tier is `T + 1`, its centre lies on the line
through the two centres before the merge, and the score has grown by
`T * (T + 1) / 2`. -/
theorem solverIteration_merge_below_max (sqrt : K → K) (walls : List (Line K)) (T : Int)
    (hT1 : 1 ≤ T) (hT10 : T ≤ 10) (a b : Fruit K) (w : World K) (hc : w.circles = [a, b])
    (ha : a.num = T) (hb : b.num = T) (hslot : w.addFruit = none)
    (hsep : (a.pos.sub b.pos).isZero = false)
    (hov : 0 ≤ a.r + b.r - (a.pos.sub b.pos).length sqrt) :
    ∃ c : Fruit K, (solverIteration sqrt walls w).circles = [c] ∧ c.num = T + 1 ∧
      ((c.pos.sub a.pos).cross (b.pos.sub a.pos) = 0) ∧
      (solverIteration sqrt walls w).score = w.score + T * (T + 1) / 2 := by
  obtain ⟨e1, e2, _⟩ := solverIteration_merge_two sqrt walls a b w hc (ha.trans hb.symm)
    (ha ▸ hT10) hslot hsep hov
  refine ⟨mergedFruit sqrt a b, e2, ?_, mergedFruit_collinear sqrt a b, ?_⟩
  · rw [mergedFruit_num, ha]
  · rw [e1, ha, mergeScore_eq T (by omega)]

/-- Witness for C1: two tier-1 bodies 20 apart. -/
theorem solverIteration_merge_below_max_witness :
    ∃ c : Fruit ℚ,
      (solverIteration sqrtQ gameWalls
        ⟨[Fruit.new ⟨400, 300⟩ 1, Fruit.new ⟨380, 300⟩ 1], none, 0, 0, false⟩).circles = [c] ∧
      c.num = 1 + 1 ∧
      ((c.pos.sub (Fruit.new (⟨400, 300⟩ : Vec2 ℚ) 1).pos).cross
        ((Fruit.new (⟨380, 300⟩ : Vec2 ℚ) 1).pos.sub (Fruit.new (⟨400, 300⟩ : Vec2 ℚ) 1).pos)
          = 0) ∧
      (solverIteration sqrtQ gameWalls
        ⟨[Fruit.new ⟨400, 300⟩ 1, Fruit.new ⟨380, 300⟩ 1], none, 0, 0, false⟩).score
        = 0 + 1 * (1 + 1) / 2 :=
  solverIteration_merge_below_max sqrtQ gameWalls 1 (by decide) (by decide)
    (Fruit.new ⟨400, 300⟩ 1) (Fruit.new ⟨380, 300⟩ 1)
    ⟨[Fruit.new ⟨400, 300⟩ 1, Fruit.new ⟨380, 300⟩ 1], none, 0, 0, false⟩
    rfl rfl rfl rfl (by decide!) (by decide!)

/-- Witness for C3: in `clusterWorld` the two tier-1 bodies merge and the tier-2
body stays. -/
theorem solverIteration_at_most_one_merge_witness :
    (solverIteration sqrtQ gameWalls clusterWorld).circles =
        (solverPasses sqrtQ gameWalls clusterWorld).circles.filter (fun o => !o.dead) ++
          (solverPasses sqrtQ gameWalls clusterWorld).addFruit.toList ∧
    (solverIteration sqrtQ gameWalls clusterWorld).addFruit = none ∧
    ((deadCount (solverPasses sqrtQ gameWalls clusterWorld) = 0 ∧
        (solverPasses sqrtQ gameWalls clusterWorld).addFruit = none ∧
        (solverIteration sqrtQ gameWalls clusterWorld).score = clusterWorld.score ∧
        (solverIteration sqrtQ gameWalls clusterWorld).circles.length
          = clusterWorld.circles.length) ∨
      (∃ T : Int, 1 ≤ T ∧ T ≤ 10 ∧
        deadCount (solverPasses sqrtQ gameWalls clusterWorld) = 2 ∧
        (∃ f : Fruit ℚ,
          (solverPasses sqrtQ gameWalls clusterWorld).addFruit = some f ∧ f.num = T + 1) ∧
        (solverIteration sqrtQ gameWalls clusterWorld).score
          = clusterWorld.score + T * (T + 1) / 2 ∧
        (solverIteration sqrtQ gameWalls clusterWorld).circles.length + 1
          = clusterWorld.circles.length)) :=
  solverIteration_at_most_one_merge sqrtQ gameWalls clusterWorld rfl (by decide!) (by decide!)

/-! ## Merge at the top tier -/

/-- C2, evaluated: on two overlapping tier-11 bodies one solver iteration removes
both and inserts nothing, but the score grows by 132, twice the 66 of one merge:
the reversed ordered pair is visited with the slot still empty and merges again. -/
theorem topTier_merge_scores_twice :
    (solverIteration sqrtQ gameWalls topTierWorld).circles = [] ∧
    (solverIteration sqrtQ gameWalls topTierWorld).score = topTierWorld.score + 132 ∧
    (resolveCC sqrtQ 0 1 topTierWorld).score = topTierWorld.score + 66 ∧
    (resolveCC sqrtQ 1 0 (resolveCC sqrtQ 0 1 topTierWorld)).score
      = topTierWorld.score + 66 + 66 := by
  decide!

/-! ## Frame update -/

theorem ccPass_frame (sqrt : K → K) (w : World K) :
    (ccPass sqrt w).accumulatorSec = w.accumulatorSec ∧ (ccPass sqrt w).gameOver = w.gameOver := by
  unfold ccPass
  refine foldl_invariant
    (fun s : World K => s.accumulatorSec = w.accumulatorSec ∧ s.gameOver = w.gameOver) _
    (fun s i hs => ?_) _ w ⟨rfl, rfl⟩
  refine foldl_invariant
    (fun s : World K => s.accumulatorSec = w.accumulatorSec ∧ s.gameOver = w.gameOver) _
    (fun t j ht => ?_) _ s hs
  exact ⟨(resolveCC_frame sqrt i j t).1.trans ht.1, (resolveCC_frame sqrt i j t).2.trans ht.2⟩

theorem compact_frame {F : Type} (w : World F) :
    (compact w).accumulatorSec = w.accumulatorSec ∧ (compact w).gameOver = w.gameOver := by
  unfold compact
  cases w.addFruit <;> exact ⟨rfl, rfl⟩

theorem solverIteration_frame (sqrt : K → K) (walls : List (Line K)) (w : World K) :
    (solverIteration sqrt walls w).accumulatorSec = w.accumulatorSec ∧
    (solverIteration sqrt walls w).gameOver = w.gameOver := by
  obtain ⟨h1, h2⟩ := compact_frame (solverPasses sqrt walls w)
  obtain ⟨h3, h4⟩ := ccPass_frame sqrt w
  exact ⟨h1.trans h3, h2.trans h4⟩

theorem ccPass_single (sqrt : K → K) (w : World K) (h : w.circles.length = 1) :
    ccPass sqrt w = w := by
  have hr : List.range 1 = [0] := rfl
  simp only [ccPass, h, hr, List.foldl_cons, List.foldl_nil, resolveCC_self]

theorem solverIteration_single (sqrt : K → K) (walls : List (Line K)) (c : Fruit K)
    (w : World K) (hc : w.circles = [c]) (hslot : w.addFruit = none) (hal : c.dead = false) :
    solverIteration sqrt walls w =
      { w with circles := [walls.foldl (resolveWall sqrt) c] } := by
  have hd : (walls.foldl (resolveWall sqrt) c).dead = false :=
    (foldl_resolveWall_flags sqrt walls c).2.trans hal
  unfold solverIteration solverPasses
  rw [ccPass_single sqrt w (by rw [hc]; rfl)]
  simp [wallPass, compact, hc, hslot, hd]

theorem iterate_solverIteration_single (sqrt : K → K) (walls : List (Line K)) (n : Nat) :
    ∀ (c : Fruit K) (w : World K), w.circles = [c] → w.addFruit = none → c.dead = false →
    ∃ c1 : Fruit K, c1.num = c.num ∧ c1.dead = false ∧
      (solverIteration sqrt walls)^[n] w = { w with circles := [c1] } := by
  induction n with
  | zero =>
    intro c w hc _ hal
    exact ⟨c, rfl, hal, by simp only [Function.iterate_zero, id_eq, ← hc]⟩
  | succ k ih =>
    intro c w hc hslot hal
    obtain ⟨hn, hd⟩ := foldl_resolveWall_flags sqrt walls c
    obtain ⟨c1, h1, h2, h3⟩ := ih (walls.foldl (resolveWall sqrt) c)
      { w with circles := [walls.foldl (resolveWall sqrt) c] } rfl hslot (hd.trans hal)
    refine ⟨c1, h1.trans hn, h2, ?_⟩
    rw [Function.iterate_succ_apply, solverIteration_single sqrt walls c w hc hslot hal, h3]

theorem stepLoop_done (sqrt : K → K) (walls : List (Line K)) (fuel : Nat) (w : World K)
    (h : ¬ stepSec ≤ w.accumulatorSec) : stepLoop sqrt walls fuel w = some w := by
  cases fuel <;> simp [stepLoop, h]

theorem fruitR_one : (fruitR 1 : K) = 144 / 10 := by
  unfold fruitR
  rw [zpow_one]
  norm_num

theorem mergeScore_one : mergeScore 1 = 1 := by decide

theorem fixedStep_scenarioA (sqrt : K → K) (hs : ∀ x : K, 0 ≤ x → sqrt (x * x) = x)
    (walls : List (Line K)) (x y d t : K) (hd : d = 268 / 10 ∨ d = -(268 / 10)) :
    ∃ c : Fruit K, c.num = 2 ∧ c.dead = false ∧
      fixedStep sqrt walls { scenarioA x y d with accumulatorSec := t } =
        ⟨[c], none, 1, t, false⟩ := by
  have hlen : sqrt (d * d) = 268 / 10 := by
    rcases hd with rfl | rfl
    · exact hs _ (by norm_num)
    · rw [neg_mul_neg]; exact hs _ (by norm_num)
  obtain ⟨a, b, hw, hna, hnb, hpa, hpb, hra, hrb⟩ : ∃ a b : Fruit K,
      (integrate { scenarioA x y d with accumulatorSec := t }).circles = [a, b] ∧
      a.num = 1 ∧ b.num = 1 ∧ a.pos = ⟨x, y⟩ ∧ b.pos = ⟨x + d, y⟩ ∧
      a.r = 144 / 10 ∧ b.r = 144 / 10 := by
    refine ⟨_, _, rfl, rfl, rfl, ?_, ?_, fruitR_one, fruitR_one⟩
    · simp [Fruit.update, Fruit.new, Vec2.add, Vec2.mul]
    · simp [Fruit.update, Fruit.new, Vec2.add, Vec2.mul]
  have hsub : a.pos.sub b.pos = ⟨-d, 0⟩ := by
    rw [hpa, hpb]
    simp [Vec2.sub]
  have hd0 : d ≠ 0 := by
    rcases hd with rfl | rfl <;> norm_num
  have hsep : (a.pos.sub b.pos).isZero = false := by
    rw [hsub]
    simp [Vec2.isZero, hd0]
  have hov : 0 ≤ a.r + b.r - (a.pos.sub b.pos).length sqrt := by
    rw [hsub, hra, hrb]
    simp only [Vec2.length, Vec2.lengthSq, neg_mul_neg, mul_zero, add_zero, hlen]
    norm_num
  obtain ⟨e1, e2, e3⟩ := solverIteration_merge_two sqrt walls a b
    (integrate { scenarioA x y d with accumulatorSec := t }) hw (hna.trans hnb.symm)
    (by rw [hna]; decide) rfl hsep hov
  obtain ⟨f1, f2⟩ := solverIteration_frame sqrt walls
    (integrate { scenarioA x y d with accumulatorSec := t })
  obtain ⟨c, hc1, hc2, hc3⟩ := iterate_solverIteration_single sqrt walls 4
    (mergedFruit sqrt a b) _ e2 e3 rfl
  refine ⟨c, ?_, hc2, ?_⟩
  · rw [hc1, mergedFruit_num, hna]; rfl
  · unfold fixedStep solveNum
    rw [Function.iterate_succ_apply, hc3]
    rw [hna, mergeScore_one] at e1
    simp only [e1, e3, f1, f2]
    simp [integrate, scenarioA]

/-- C4 (scenario A): from score 0, accumulator 0 and two tier-1 bodies (radius 14.4)
at rest on one horizontal line, 26.8 apart, one frame update with elapsed time 1/200
runs exactly one fixed step (of `solveNum = 5` solver iterations) and ends with
exactly one body, of tier 2, and score 1; the two bodies overlap by 2 at the start.
No assumption on the walls is needed. -/
theorem advance_scenarioA (sqrt : K → K) (hs : ∀ x : K, 0 ≤ x → sqrt (x * x) = x)
    (walls : List (Line K)) (x y d : K) (hd : d = 268 / 10 ∨ d = -(268 / 10)) (fuel : Nat) :
    (fruitR 1 : K) = 144 / 10 ∧ solveNum = 5 ∧
    overlapAt sqrt (scenarioA x y d).circles 0 1 = some 2 ∧
    ∃ c : Fruit K, c.num = 2 ∧
      fixedStep sqrt walls { scenarioA x y d with accumulatorSec := 0 + 1 / 200 } =
        ⟨[c], none, 1, 0 + 1 / 200, false⟩ ∧
      advance sqrt walls (fuel + 1) (1 / 200) (scenarioA x y d) =
        some ⟨[c], none, 1, 0, evalGameOver [c] false⟩ := by
  have hlen : sqrt (d * d) = 268 / 10 := by
    rcases hd with rfl | rfl
    · exact hs _ (by norm_num)
    · rw [neg_mul_neg]; exact hs _ (by norm_num)
  have hgap : overlapAt sqrt (scenarioA x y d).circles 0 1 = some 2 := by
    simp only [overlapAt, scenarioA, List.getElem?_cons_zero, List.getElem?_cons_succ,
      Fruit.new, fruitR_one, Vec2.sub, Vec2.length, Vec2.lengthSq, sub_self, mul_zero,
      add_zero, sub_add_cancel_left, neg_mul_neg, hlen]
    norm_num
  refine ⟨fruitR_one, rfl, hgap, ?_⟩
  obtain ⟨c, hc1, _, hc3⟩ := fixedStep_scenarioA sqrt hs walls x y d (0 + 1 / 200) hd
  refine ⟨c, hc1, hc3, ?_⟩
  have h1 : (stepSec : K) ≤ 0 + 1 / 200 := by unfold stepSec; norm_num
  have h2 : ¬ (stepSec : K) ≤ 0 + 1 / 200 - stepSec := by unfold stepSec; norm_num
  have e : ({ scenarioA x y d with
      accumulatorSec := (scenarioA x y d).accumulatorSec + 1 / 200 } : World K)
      = { scenarioA x y d with accumulatorSec := 0 + 1 / 200 } := rfl
  unfold advance
  rw [e]
  simp only [scenarioA, Bool.false_eq_true, if_false, stepLoop, h1, if_true]
  have hc3' := hc3
  simp only [scenarioA] at hc3'
  rw [hc3', stepLoop_done sqrt walls fuel _ h2]
  simp [stepSec]

/-- Witness for C4: the two bodies at (400, 300) and (426.8, 300) in the game's box. -/
theorem advance_scenarioA_witness :
    (fruitR 1 : ℚ) = 144 / 10 ∧ solveNum = 5 ∧
    overlapAt sqrtQ (scenarioA 400 300 (268 / 10)).circles 0 1 = some 2 ∧
    ∃ c : Fruit ℚ, c.num = 2 ∧
      fixedStep sqrtQ gameWalls { scenarioA 400 300 (268 / 10) with accumulatorSec := 0 + 1 / 200 } =
        ⟨[c], none, 1, 0 + 1 / 200, false⟩ ∧
      advance sqrtQ gameWalls (0 + 1) (1 / 200) (scenarioA 400 300 (268 / 10)) =
        some ⟨[c], none, 1, 0, evalGameOver [c] false⟩ :=
  advance_scenarioA sqrtQ sqrtQ_sq gameWalls 400 300 (268 / 10) (Or.inl rfl) 0

/-! ## Lengths and unit vectors under a real square root -/

theorem lengthSq_nonneg (v : Vec2 K) : 0 ≤ v.lengthSq := by
  unfold Vec2.lengthSq
  exact add_nonneg (mul_self_nonneg _) (mul_self_nonneg _)

theorem isZero_eq_false_iff (v : Vec2 K) : v.isZero = false ↔ v.lengthSq ≠ 0 := by
  unfold Vec2.isZero Vec2.lengthSq
  constructor
  · intro h hz
    have hx : v.x = 0 := by nlinarith [mul_self_nonneg v.x, mul_self_nonneg v.y]
    have hy : v.y = 0 := by nlinarith [mul_self_nonneg v.x, mul_self_nonneg v.y]
    simp [hx, hy] at h
  · intro h
    by_contra hc
    rw [Bool.not_eq_false, Bool.and_eq_true, decide_eq_true_eq, decide_eq_true_eq] at hc
    exact h (by rw [hc.1, hc.2]; ring)

theorem length_mul_self (sqrt : K → K) (hS : IsSqrt sqrt) (v : Vec2 K) :
    v.length sqrt * v.length sqrt = v.lengthSq :=
  hS.1 _ (lengthSq_nonneg v)

theorem length_ne_zero (sqrt : K → K) (hS : IsSqrt sqrt) (v : Vec2 K)
    (h : v.isZero = false) : v.length sqrt ≠ 0 := by
  intro h0
  have := length_mul_self sqrt hS v
  rw [h0, mul_zero] at this
  exact (isZero_eq_false_iff v).1 h this.symm

theorem normalized_lengthSq (sqrt : K → K) (hS : IsSqrt sqrt) (v : Vec2 K)
    (h : v.isZero = false) : (v.normalized sqrt).lengthSq = 1 := by
  have h0 := length_ne_zero sqrt hS v h
  have h1 := length_mul_self sqrt hS v
  unfold Vec2.normalized Vec2.mul
  unfold Vec2.lengthSq at h1 ⊢
  simp only
  field_simp
  linarith

theorem sqrt_mul_self_of_isSqrt (sqrt : K → K) (hS : IsSqrt sqrt) (x : K) (hx : 0 ≤ x) :
    sqrt (x * x) = x := by
  have h1 := hS.1 (x * x) (mul_self_nonneg x)
  have h2 := hS.2 (x * x)
  nlinarith [mul_self_nonneg (sqrt (x * x) - x)]

/-! ## Separating bodies receive no impulse -/

/-- C6 (scenario D): for an ordered pair of non-coincident overlapping bodies whose
closing velocity `(v2 - v1) · n` is negative, `n` being the unit vector from the
second centre to the first, the visit moves the first body by `overlap / 2` along
`n`, the second by the same amount against `n`, and leaves both linear and both
angular velocities unchanged. -/
theorem resolvePair_separating (sqrt : K → K) (hS : IsSqrt sqrt) (s : PairState K)
    (hsep : (s.pc1.pos.sub s.pc2.pos).isZero = false)
    (hov : 0 ≤ s.pc1.r + s.pc2.r - (s.pc1.pos.sub s.pc2.pos).length sqrt)
    (hclose : (s.pc2.v.sub s.pc1.v).dot ((s.pc1.pos.sub s.pc2.pos).normalized sqrt) < 0) :
    ((s.pc1.pos.sub s.pc2.pos).normalized sqrt).lengthSq = 1 ∧
    (resolvePair sqrt s).pc1.pos = s.pc1.pos.add
      (((s.pc1.pos.sub s.pc2.pos).normalized sqrt).mul
        ((s.pc1.r + s.pc2.r - (s.pc1.pos.sub s.pc2.pos).length sqrt) / 2)) ∧
    (resolvePair sqrt s).pc2.pos = s.pc2.pos.sub
      (((s.pc1.pos.sub s.pc2.pos).normalized sqrt).mul
        ((s.pc1.r + s.pc2.r - (s.pc1.pos.sub s.pc2.pos).length sqrt) / 2)) ∧
    (resolvePair sqrt s).pc1.v = s.pc1.v ∧ (resolvePair sqrt s).pc2.v = s.pc2.v ∧
    (resolvePair sqrt s).pc1.omega = s.pc1.omega ∧
    (resolvePair sqrt s).pc2.omega = s.pc2.omega := by
  have hov' : ¬ s.pc1.r + s.pc2.r - (s.pc1.pos.sub s.pc2.pos).length sqrt < 0 := not_lt.2 hov
  refine ⟨normalized_lengthSq sqrt hS _ hsep, ?_⟩
  simp only [resolvePair, hsep, hov', Bool.false_eq_true, if_false]
  split_ifs <;>
    first
      | exact absurd hclose (by assumption)
      | (simp only [Vec2.add, Vec2.sub, Vec2.mul, Vec2.div, Vec2.mk.injEq, and_self, and_true]
         constructor <;> constructor <;> ring)

theorem separatingPair_sub :
    (separatingPair : PairState K).pc1.pos.sub separatingPair.pc2.pos = ⟨1, 0⟩ := by
  simp [separatingPair, Fruit.new, Vec2.sub]

theorem length_unit_x : (⟨1, 0⟩ : Vec2 ℝ).length Real.sqrt = 1 := by
  simp [Vec2.length, Vec2.lengthSq]

/-- Witness for C6: `separatingPair`. -/
theorem resolvePair_separating_witness :
    (resolvePair Real.sqrt separatingPair).pc1.v = (separatingPair : PairState ℝ).pc1.v ∧
    (resolvePair Real.sqrt separatingPair).pc2.v = (separatingPair : PairState ℝ).pc2.v :=
  have h := resolvePair_separating Real.sqrt isSqrt_real separatingPair
    (by rw [separatingPair_sub]; simp [Vec2.isZero])
    (by
      rw [separatingPair_sub, length_unit_x]
      simp only [separatingPair, Fruit.new]
      rw [fruitR_one]
      norm_num)
    (by
      rw [separatingPair_sub]
      simp only [Vec2.normalized, length_unit_x]
      simp [separatingPair, Fruit.new, Vec2.sub, Vec2.dot, Vec2.mul])
  ⟨h.2.2.2.1, h.2.2.2.2.1⟩

/-! ## Zero separation -/

theorem resolveCC_same_pos (sqrt : K → K) (i j : Nat) (w : World K) (a b : Fruit K)
    (ha : w.circles[i]? = some a) (hb : w.circles[j]? = some b) (hpos : a.pos = b.pos) :
    resolveCC sqrt i j w = w := by
  have hz : ((⟨a, b, w.addFruit, w.score⟩ : PairState K).pc1.pos.sub
      (⟨a, b, w.addFruit, w.score⟩ : PairState K).pc2.pos).isZero = true := by
    simp [Vec2.sub, Vec2.isZero, hpos]
  unfold resolveCC
  simp only [ha, hb, resolvePair_of_isZero sqrt _ hz, set_of_getElem? _ _ _ ha,
    set_of_getElem? _ _ _ hb]

theorem resolveWall_of_isZero (sqrt : K → K) (p : Fruit K) (wall : Line K)
    (h : (p.pos.sub (wall.closest sqrt p.pos)).isZero = true) : resolveWall sqrt p wall = p := by
  simp only [resolveWall, h, if_true]

theorem closest_on_segment (sqrt : K → K) (hS : IsSqrt sqrt) (wall : Line K) (t : K)
    (h0 : 0 ≤ t) (h1 : t ≤ 1) :
    wall.closest sqrt (wall.begin.add ((wall.end_.sub wall.begin).mul t)) =
      wall.begin.add ((wall.end_.sub wall.begin).mul t) := by
  have hd := length_mul_self sqrt hS (wall.end_.sub wall.begin)
  have hd0 : 0 ≤ (wall.end_.sub wall.begin).length sqrt := hS.2 _
  unfold Line.closest
  simp only
  generalize (wall.end_.sub wall.begin).length sqrt = d at hd hd0 ⊢
  by_cases hz : d = 0
  · have hl : (wall.end_.sub wall.begin).lengthSq = 0 := by rw [← hd, hz, mul_zero]
    have hv : (wall.end_.sub wall.begin).isZero = true := by
      by_contra hc
      rw [Bool.not_eq_true] at hc
      exact (isZero_eq_false_iff _).1 hc hl
    simp only [Vec2.isZero, Bool.and_eq_true, decide_eq_true_eq] at hv
    simp [Vec2.add, Vec2.mul, hv.1, hv.2, hz]
  · have ht : ((wall.end_.sub wall.begin).div d).dot
        ((wall.begin.add ((wall.end_.sub wall.begin).mul t)).sub wall.begin) = t * d := by
      simp only [Vec2.dot, Vec2.div, Vec2.mul, Vec2.add, Vec2.sub, Vec2.lengthSq] at hd ⊢
      field_simp
      linear_combination (-t) * hd
    have hpos : 0 < d := lt_of_le_of_ne hd0 (Ne.symm hz)
    have hn : ¬ t * d < 0 := not_lt.2 (mul_nonneg h0 hd0)
    have hb : ¬ d < t * d := not_lt.2 (by nlinarith)
    rw [ht, if_neg hz, if_neg hn, if_neg hb]
    simp only [Vec2.div, Vec2.mul, Vec2.add, Vec2.sub, Vec2.mk.injEq]
    constructor <;> field_simp <;> ring

/-- C8: a pair whose separation vector is exactly zero is skipped and nothing
changes (positions, velocities, flags, pending-spawn slot, score), whatever the
tiers: for the bodies of a circle-circle visit, for a body paired with itself, for
two bodies at one position, for a body against a wall whose closest point is the
centre, and so for a centre on the wall segment.  A vector that passes the guard has
non-zero length, so normalisation never divides by zero. -/
theorem zero_separation_skipped (sqrt : K → K) :
    (∀ s : PairState K, (s.pc1.pos.sub s.pc2.pos).isZero = true → resolvePair sqrt s = s) ∧
    (∀ (i : Nat) (w : World K), resolveCC sqrt i i w = w) ∧
    (∀ (i j : Nat) (w : World K) (a b : Fruit K), w.circles[i]? = some a →
      w.circles[j]? = some b → a.pos = b.pos → resolveCC sqrt i j w = w) ∧
    (∀ (p : Fruit K) (wall : Line K),
      (p.pos.sub (wall.closest sqrt p.pos)).isZero = true → resolveWall sqrt p wall = p) ∧
    (IsSqrt sqrt → ∀ (p : Fruit K) (wall : Line K) (t : K), 0 ≤ t → t ≤ 1 →
      p.pos = wall.begin.add ((wall.end_.sub wall.begin).mul t) →
      resolveWall sqrt p wall = p) ∧
    (IsSqrt sqrt → ∀ v : Vec2 K, v.isZero = false → v.length sqrt ≠ 0) := by
  refine ⟨resolvePair_of_isZero sqrt, resolveCC_self sqrt, resolveCC_same_pos sqrt,
    resolveWall_of_isZero sqrt, ?_, fun hS v hv => length_ne_zero sqrt hS v hv⟩
  intro hS p wall t h0 h1 hp
  apply resolveWall_of_isZero
  rw [hp, closest_on_segment sqrt hS wall t h0 h1]
  simp [Vec2.sub, Vec2.isZero]

/-- Witness for C8: two tier-1 bodies at one position, slot empty. -/
theorem zero_separation_skipped_witness :
    resolvePair sqrtQ ⟨Fruit.new ⟨400, 300⟩ 1, Fruit.new ⟨400, 300⟩ 1, none, 0⟩ =
      ⟨Fruit.new ⟨400, 300⟩ 1, Fruit.new ⟨400, 300⟩ 1, none, 0⟩ :=
  (zero_separation_skipped sqrtQ).1
    ⟨Fruit.new ⟨400, 300⟩ 1, Fruit.new ⟨400, 300⟩ 1, none, 0⟩ (by decide!)

/-! ## The impulse of a contact -/

theorem Min_le_right (a b : K) : Min a b ≤ b := by
  unfold Min
  split_ifs with h
  · exact le_rfl
  · exact not_lt.1 h

theorem Min_eq_min (a b : K) : Min a b = min a b := by
  unfold Min
  split_ifs with h
  · exact (min_eq_right (le_of_lt h)).symm
  · exact (min_eq_left (not_lt.1 h)).symm

theorem ccImpulse_dot (sqrt : K → K) (hS : IsSqrt sqrt) (pc1 pc2 : Fruit K)
    (hsep : (pc1.pos.sub pc2.pos).isZero = false) :
    (ccImpulse sqrt pc1 pc2).dot ((pc1.pos.sub pc2.pos).normalized sqrt) =
      Min ((pc2.v.sub pc1.v).dot ((pc1.pos.sub pc2.pos).normalized sqrt)) 50 *
        (pc1.M * pc2.M) / (pc1.M + pc2.M) := by
  have h1 := normalized_lengthSq sqrt hS _ hsep
  unfold ccImpulse
  simp only
  generalize (pc1.pos.sub pc2.pos).normalized sqrt = n at h1 ⊢
  generalize Min ((pc2.v.sub pc1.v).dot n) 50 = m
  generalize Sign ((pc1.v.sub pc2.v).dot n.rotated90 - pc1.r * pc1.omega - pc2.r * pc2.omega) = k
  simp only [Vec2.dot, Vec2.div, Vec2.mul, Vec2.add, Vec2.rotated90, Vec2.lengthSq] at h1 ⊢
  linear_combination (m * pc1.M * pc2.M * (1 / (pc1.M + pc2.M))) * h1

theorem wallImpulse_dot (sqrt : K → K) (hS : IsSqrt sqrt) (p : Fruit K) (wall : Line K)
    (hsep : (p.pos.sub (wall.closest sqrt p.pos)).isZero = false) :
    (wallImpulse sqrt p wall).dot ((p.pos.sub (wall.closest sqrt p.pos)).normalized sqrt) =
      Min (-(p.v.dot ((p.pos.sub (wall.closest sqrt p.pos)).normalized sqrt))) 50 * p.M := by
  have h1 := normalized_lengthSq sqrt hS _ hsep
  unfold wallImpulse
  simp only
  generalize (p.pos.sub (wall.closest sqrt p.pos)).normalized sqrt = n at h1 ⊢
  generalize Min (-(p.v.dot n)) 50 = m
  generalize Sign (p.v.dot n.rotated90 - p.r * p.omega) = k
  simp only [Vec2.dot, Vec2.div, Vec2.mul, Vec2.add, Vec2.rotated90, Vec2.lengthSq] at h1 ⊢
  linear_combination (m * p.M) * h1

theorem resolvePair_velocity (sqrt : K → K) (s : PairState K)
    (hsep : (s.pc1.pos.sub s.pc2.pos).isZero = false)
    (hov : 0 ≤ s.pc1.r + s.pc2.r - (s.pc1.pos.sub s.pc2.pos).length sqrt)
    (hc : 0 ≤ (s.pc2.v.sub s.pc1.v).dot ((s.pc1.pos.sub s.pc2.pos).normalized sqrt)) :
    (resolvePair sqrt s).pc1.v = s.pc1.v.add ((ccImpulse sqrt s.pc1 s.pc2).div s.pc1.M) ∧
    (resolvePair sqrt s).pc2.v =
      s.pc2.v.add ((ccImpulse sqrt s.pc1 s.pc2).neg.div s.pc2.M) := by
  have hov' : ¬ s.pc1.r + s.pc2.r - (s.pc1.pos.sub s.pc2.pos).length sqrt < 0 := not_lt.2 hov
  have hc' : ¬ (s.pc2.v.sub s.pc1.v).dot ((s.pc1.pos.sub s.pc2.pos).normalized sqrt) < 0 :=
    not_lt.2 hc
  simp only [resolvePair, hsep, hov', Bool.false_eq_true, if_false, ccImpulse,
    Fruit.addImpulseLocal]
  split_ifs <;> exact ⟨rfl, rfl⟩

theorem resolveWall_velocity (sqrt : K → K) (p : Fruit K) (wall : Line K)
    (hsep : (p.pos.sub (wall.closest sqrt p.pos)).isZero = false)
    (hov : 0 ≤ p.r - (p.pos.sub (wall.closest sqrt p.pos)).length sqrt)
    (hc : 0 ≤ -(p.v.dot ((p.pos.sub (wall.closest sqrt p.pos)).normalized sqrt))) :
    (resolveWall sqrt p wall).v = p.v.add ((wallImpulse sqrt p wall).div p.M) := by
  have hov' : ¬ p.r - (p.pos.sub (wall.closest sqrt p.pos)).length sqrt < 0 := not_lt.2 hov
  have hc' : ¬ -(p.v.dot ((p.pos.sub (wall.closest sqrt p.pos)).normalized sqrt)) < 0 :=
    not_lt.2 hc
  simp only [resolveWall, hsep, hov', hc', Bool.false_eq_true, if_false, wallImpulse,
    Fruit.addImpulseLocal]

/-- C9: for a resolved contact with closing velocity `c ≥ 0`, the velocity of each
body changes by the impulse over its mass (with opposite signs for the two bodies
of a pair), and the component of the impulse along the contact normal is
`min(c, 50) * (m1 * m2) / (m1 + m2)` for two bodies and `min(c, 50) * m` against a
wall; with masses 1 it is at most 25, respectively 50. -/
theorem impulse_normal_component (sqrt : K → K) (hS : IsSqrt sqrt) :
    (∀ s : PairState K, (s.pc1.pos.sub s.pc2.pos).isZero = false →
      0 ≤ s.pc1.r + s.pc2.r - (s.pc1.pos.sub s.pc2.pos).length sqrt →
      0 ≤ (s.pc2.v.sub s.pc1.v).dot ((s.pc1.pos.sub s.pc2.pos).normalized sqrt) →
      (resolvePair sqrt s).pc1.v = s.pc1.v.add ((ccImpulse sqrt s.pc1 s.pc2).div s.pc1.M) ∧
      (resolvePair sqrt s).pc2.v =
        s.pc2.v.add ((ccImpulse sqrt s.pc1 s.pc2).neg.div s.pc2.M) ∧
      (ccImpulse sqrt s.pc1 s.pc2).dot ((s.pc1.pos.sub s.pc2.pos).normalized sqrt) =
        min ((s.pc2.v.sub s.pc1.v).dot ((s.pc1.pos.sub s.pc2.pos).normalized sqrt)) 50 *
          (s.pc1.M * s.pc2.M) / (s.pc1.M + s.pc2.M) ∧
      (s.pc1.M = 1 → s.pc2.M = 1 →
        (ccImpulse sqrt s.pc1 s.pc2).dot ((s.pc1.pos.sub s.pc2.pos).normalized sqrt) ≤ 25)) ∧
    (∀ (p : Fruit K) (wall : Line K), (p.pos.sub (wall.closest sqrt p.pos)).isZero = false →
      0 ≤ p.r - (p.pos.sub (wall.closest sqrt p.pos)).length sqrt →
      0 ≤ -(p.v.dot ((p.pos.sub (wall.closest sqrt p.pos)).normalized sqrt)) →
      (resolveWall sqrt p wall).v = p.v.add ((wallImpulse sqrt p wall).div p.M) ∧
      (wallImpulse sqrt p wall).dot ((p.pos.sub (wall.closest sqrt p.pos)).normalized sqrt) =
        min (-(p.v.dot ((p.pos.sub (wall.closest sqrt p.pos)).normalized sqrt))) 50 * p.M ∧
      (p.M = 1 →
        (wallImpulse sqrt p wall).dot ((p.pos.sub (wall.closest sqrt p.pos)).normalized sqrt)
          ≤ 50)) := by
  constructor
  · intro s hsep hov hc
    obtain ⟨e1, e2⟩ := resolvePair_velocity sqrt s hsep hov hc
    have e3 := ccImpulse_dot sqrt hS s.pc1 s.pc2 hsep
    refine ⟨e1, e2, by rw [e3, Min_eq_min], fun h1 h2 => ?_⟩
    rw [e3, h1, h2]
    have := Min_le_right ((s.pc2.v.sub s.pc1.v).dot ((s.pc1.pos.sub s.pc2.pos).normalized sqrt))
      (50 : K)
    norm_num
    linarith
  · intro p wall hsep hov hc
    have e3 := wallImpulse_dot sqrt hS p wall hsep
    refine ⟨resolveWall_velocity sqrt p wall hsep hov hc, by rw [e3, Min_eq_min], fun h1 => ?_⟩
    rw [e3, h1, mul_one]
    exact Min_le_right _ _

theorem approachingPair_sub :
    (approachingPair : PairState K).pc1.pos.sub approachingPair.pc2.pos = ⟨1, 0⟩ := by
  simp [approachingPair, Fruit.new, Vec2.sub]

/-- Witness for C9: `approachingPair`, whose closing velocity 60 is capped at 50. -/
theorem impulse_normal_component_witness :
    (ccImpulse Real.sqrt (approachingPair : PairState ℝ).pc1 approachingPair.pc2).dot
      ((approachingPair.pc1.pos.sub approachingPair.pc2.pos).normalized Real.sqrt) ≤ 25 :=
  ((impulse_normal_component Real.sqrt isSqrt_real).1 approachingPair
    (by rw [approachingPair_sub]; simp [Vec2.isZero])
    (by
      rw [approachingPair_sub, length_unit_x]
      simp only [approachingPair, Fruit.new]
      rw [fruitR_one]
      norm_num)
    (by
      rw [approachingPair_sub]
      simp only [Vec2.normalized, length_unit_x]
      simp [approachingPair, Fruit.new, Vec2.sub, Vec2.dot, Vec2.mul])).2.2.2 rfl rfl

/-! ## A body resting on the floor -/

theorem gameWalls_eq : (gameWalls : List (Line K)) = [floorWall, leftWall, rightWall] := rfl

theorem length_axis_x (sqrt : K → K) (hs : ∀ x : K, 0 ≤ x → sqrt (x * x) = x) (a : K) :
    (⟨a, 0⟩ : Vec2 K).length sqrt = |a| := by
  unfold Vec2.length Vec2.lengthSq
  simp only [mul_zero, add_zero]
  rw [← abs_mul_abs_self a]
  exact hs _ (abs_nonneg a)

theorem length_axis_y (sqrt : K → K) (hs : ∀ x : K, 0 ≤ x → sqrt (x * x) = x) (a : K) :
    (⟨0, a⟩ : Vec2 K).length sqrt = |a| := by
  unfold Vec2.length Vec2.lengthSq
  simp only [mul_zero, zero_add]
  rw [← abs_mul_abs_self a]
  exact hs _ (abs_nonneg a)

theorem closest_floorWall (sqrt : K → K) (hs : ∀ x : K, 0 ≤ x → sqrt (x * x) = x) (x y : K)
    (h1 : 250 ≤ x) (h2 : x ≤ 550) : floorWall.closest sqrt ⟨x, y⟩ = ⟨x, 500⟩ := by
  have e : (floorWall : Line K).end_.sub floorWall.begin = ⟨300, 0⟩ := by
    norm_num [floorWall, Vec2.sub]
  have hl : (⟨300, 0⟩ : Vec2 K).length sqrt = 300 := by
    rw [length_axis_x sqrt hs, abs_of_nonneg (by norm_num)]
  have h3 : ¬ x - 250 < 0 := not_lt.2 (by linarith)
  have h4 : ¬ (300 : K) < x - 250 := not_lt.2 (by linarith)
  unfold Line.closest
  simp only [e, hl]
  norm_num [floorWall, Vec2.div, Vec2.dot, Vec2.sub, Vec2.mul, Vec2.add, h3, h4]

theorem closest_leftWall (sqrt : K → K) (hs : ∀ x : K, 0 ≤ x → sqrt (x * x) = x) (x y : K)
    (h1 : 120 ≤ y) (h2 : y ≤ 500) : leftWall.closest sqrt ⟨x, y⟩ = ⟨250, y⟩ := by
  have e : (leftWall : Line K).end_.sub leftWall.begin = ⟨0, -380⟩ := by
    norm_num [leftWall, Vec2.sub]
  have hl : (⟨0, -380⟩ : Vec2 K).length sqrt = 380 := by
    rw [length_axis_y sqrt hs, abs_neg, abs_of_nonneg (by norm_num)]
  have h3 : ¬ 500 - y < 0 := not_lt.2 (by linarith)
  have h4 : ¬ (380 : K) < 500 - y := not_lt.2 (by linarith)
  unfold Line.closest
  simp only [e, hl]
  norm_num [leftWall, Vec2.div, Vec2.dot, Vec2.sub, Vec2.mul, Vec2.add, h3, h4]

theorem closest_rightWall (sqrt : K → K) (hs : ∀ x : K, 0 ≤ x → sqrt (x * x) = x) (x y : K)
    (h1 : 120 ≤ y) (h2 : y ≤ 500) : rightWall.closest sqrt ⟨x, y⟩ = ⟨550, y⟩ := by
  have e : (rightWall : Line K).end_.sub rightWall.begin = ⟨0, -380⟩ := by
    norm_num [rightWall, Vec2.sub]
  have hl : (⟨0, -380⟩ : Vec2 K).length sqrt = 380 := by
    rw [length_axis_y sqrt hs, abs_neg, abs_of_nonneg (by norm_num)]
  have h3 : ¬ 500 - y < 0 := not_lt.2 (by linarith)
  have h4 : ¬ (380 : K) < 500 - y := not_lt.2 (by linarith)
  unfold Line.closest
  simp only [e, hl]
  norm_num [rightWall, Vec2.div, Vec2.dot, Vec2.sub, Vec2.mul, Vec2.add, h3, h4]

theorem resolveWall_floor (sqrt : K → K) (hs : ∀ x : K, 0 ≤ x → sqrt (x * x) = x)
    (x vy : K) (c : Fruit K) (h : OnFloor x vy c) (hx1 : 250 ≤ x) (hx2 : x ≤ 550)
    (hv0 : 0 ≤ vy) (hv1 : vy ≤ 50) : OnFloor x 0 (resolveWall sqrt c floorWall) := by
  obtain ⟨hp, hv, ho, hM, hr, hn, hd⟩ := h
  have hsub : c.pos.sub (floorWall.closest sqrt c.pos) = ⟨0, -(144 / 10)⟩ := by
    rw [hp, closest_floorWall sqrt hs x _ hx1 hx2]
    norm_num [Vec2.sub]
  have hl : (⟨0, -(144 / 10)⟩ : Vec2 K).length sqrt = 144 / 10 := by
    rw [length_axis_y sqrt hs, abs_neg, abs_of_nonneg (by norm_num)]
  have hn1 : (⟨0, -(144 / 10)⟩ : Vec2 K).normalized sqrt = ⟨0, -1⟩ := by
    unfold Vec2.normalized
    rw [hl]
    norm_num [Vec2.mul]
  have hvy : ¬ vy < 0 := not_lt.2 hv0
  have hmin : Min vy 50 = vy := by
    unfold Min
    rw [if_neg (not_lt.2 hv1)]
  unfold resolveWall
  simp only [hsub, hl, hn1]
  norm_num [Vec2.isZero, Vec2.dot, Vec2.rotated90, Vec2.mul, Vec2.add, Vec2.neg, Vec2.div,
    Vec2.cross, Sign, Fruit.addImpulseLocal, OnFloor, hvy, hmin, hv, ho, hM, hp, hr, hn, hd]

theorem resolveWall_left (sqrt : K → K) (hs : ∀ x : K, 0 ≤ x → sqrt (x * x) = x)
    (x vy : K) (c : Fruit K) (h : OnFloor x vy c) (hx : 250 + 144 / 10 < x) :
    resolveWall sqrt c leftWall = c := by
  obtain ⟨hp, _, _, _, hr, _, _⟩ := h
  have hsub : c.pos.sub (leftWall.closest sqrt c.pos) = ⟨x - 250, 0⟩ := by
    rw [hp, closest_leftWall sqrt hs x _ (by norm_num) (by norm_num)]
    norm_num [Vec2.sub]
  have hl : (⟨x - 250, 0⟩ : Vec2 K).length sqrt = x - 250 := by
    rw [length_axis_x sqrt hs, abs_of_nonneg (by linarith)]
  have hov : c.r - (x - 250) < 0 := by rw [hr]; linarith
  unfold resolveWall
  simp only [hsub, hl, hov, if_true, ite_self]

theorem resolveWall_right (sqrt : K → K) (hs : ∀ x : K, 0 ≤ x → sqrt (x * x) = x)
    (x vy : K) (c : Fruit K) (h : OnFloor x vy c) (hx : x < 550 - 144 / 10) :
    resolveWall sqrt c rightWall = c := by
  obtain ⟨hp, _, _, _, hr, _, _⟩ := h
  have hsub : c.pos.sub (rightWall.closest sqrt c.pos) = ⟨x - 550, 0⟩ := by
    rw [hp, closest_rightWall sqrt hs x _ (by norm_num) (by norm_num)]
    norm_num [Vec2.sub]
  have hl : (⟨x - 550, 0⟩ : Vec2 K).length sqrt = 550 - x := by
    rw [length_axis_x sqrt hs, abs_of_nonpos (by linarith)]
    ring
  have hov : c.r - (550 - x) < 0 := by rw [hr]; linarith
  unfold resolveWall
  simp only [hsub, hl, hov, if_true, ite_self]

theorem foldl_gameWalls_onFloor (sqrt : K → K) (hs : ∀ x : K, 0 ≤ x → sqrt (x * x) = x)
    (x vy : K) (c : Fruit K) (h : OnFloor x vy c) (hx1 : 250 + 144 / 10 < x)
    (hx2 : x < 550 - 144 / 10) (hv0 : 0 ≤ vy) (hv1 : vy ≤ 50) :
    OnFloor x 0 (gameWalls.foldl (resolveWall sqrt) c) := by
  have h1 := resolveWall_floor sqrt hs x vy c h (by linarith) (by linarith) hv0 hv1
  rw [gameWalls_eq]
  simp only [List.foldl_cons, List.foldl_nil]
  rw [resolveWall_left sqrt hs x 0 _ h1 hx1, resolveWall_right sqrt hs x 0 _ h1 hx2]
  exact h1

theorem iterate_solverIteration_onFloor (sqrt : K → K)
    (hs : ∀ x : K, 0 ≤ x → sqrt (x * x) = x) (x : K) (hx1 : 250 + 144 / 10 < x)
    (hx2 : x < 550 - 144 / 10) (n : Nat) :
    ∀ (vy : K) (c : Fruit K) (w : World K), 0 ≤ vy → vy ≤ 50 → OnFloor x vy c →
      w.circles = [c] → w.addFruit = none →
      ∃ c1 : Fruit K, OnFloor x 0 c1 ∧
        (solverIteration sqrt gameWalls)^[n + 1] w = { w with circles := [c1] } := by
  induction n with
  | zero =>
    intro vy c w hv0 hv1 h hc hslot
    refine ⟨_, foldl_gameWalls_onFloor sqrt hs x vy c h hx1 hx2 hv0 hv1, ?_⟩
    rw [Function.iterate_succ_apply, Function.iterate_zero, id_eq,
      solverIteration_single sqrt gameWalls c w hc hslot h.2.2.2.2.2.2]
  | succ k ih =>
    intro vy c w hv0 hv1 h hc hslot
    have h1 := foldl_gameWalls_onFloor sqrt hs x vy c h hx1 hx2 hv0 hv1
    obtain ⟨c1, hc1, e⟩ := ih 0 _ { w with circles := [gameWalls.foldl (resolveWall sqrt) c] }
      le_rfl (by norm_num) h1 rfl hslot
    refine ⟨c1, hc1, ?_⟩
    rw [Function.iterate_succ_apply,
      solverIteration_single sqrt gameWalls c w hc hslot h.2.2.2.2.2.2, e]

theorem fixedStep_onFloor (sqrt : K → K) (hs : ∀ x : K, 0 ≤ x → sqrt (x * x) = x) (x : K)
    (hx1 : 250 + 144 / 10 < x) (hx2 : x < 550 - 144 / 10) (c : Fruit K) (w : World K)
    (h : OnFloor x 0 c) (hc : w.circles = [c]) (hslot : w.addFruit = none) :
    ∃ c1 : Fruit K, OnFloor x 0 c1 ∧
      fixedStep sqrt gameWalls w = { w with circles := [c1] } := by
  obtain ⟨hp, hv, ho, hM, hr, hn, hd⟩ := h
  have hi : OnFloor x (98 / 10)
      ({ c.update stepSec with v := ⟨(c.update stepSec).v.x, (c.update stepSec).v.y + 98 / 10⟩ }) := by
    refine ⟨?_, ?_, ho, hM, hr, hn, hd⟩
    · simp [Fruit.update, hp, hv, Vec2.add, Vec2.mul]
    · simp [Fruit.update, hv]
  obtain ⟨c1, hc1, e⟩ := iterate_solverIteration_onFloor sqrt hs x hx1 hx2 4 (98 / 10) _
    (integrate w) (by norm_num) (by norm_num) hi (by simp [integrate, hc]) hslot
  refine ⟨c1, hc1, ?_⟩
  unfold fixedStep solveNum
  rw [e]
  simp [integrate]

theorem iterate_fixedStep_onFloor (sqrt : K → K) (hs : ∀ x : K, 0 ≤ x → sqrt (x * x) = x)
    (x : K) (hx1 : 250 + 144 / 10 < x) (hx2 : x < 550 - 144 / 10) (c : Fruit K) (w : World K)
    (h : OnFloor x 0 c) (hc : w.circles = [c]) (hslot : w.addFruit = none) (n : Nat) :
    ∃ c1 : Fruit K, OnFloor x 0 c1 ∧
      (fixedStep sqrt gameWalls)^[n] w = { w with circles := [c1] } := by
  induction n with
  | zero => exact ⟨c, h, by simp only [Function.iterate_zero, id_eq, ← hc]⟩
  | succ k ih =>
    obtain ⟨c1, h1, e1⟩ := ih
    obtain ⟨c2, h2, e2⟩ := fixedStep_onFloor sqrt hs x hx1 hx2 c1
      { w with circles := [c1] } h1 rfl hslot
    exact ⟨c2, h2, by rw [Function.iterate_succ_apply', e1, e2]⟩

/-- C10 (scenario B): in the game's container, a single live tier-1 body that does
not move or spin, with its centre 14.4 above the floor `y = 500` and more than 14.4
away from both side walls, stays where it is: after any number `n` of fixed steps
it is the only body, at the same place and at rest, and the termination evaluation
leaves `gameOver` false. -/
theorem resting_body_no_gameOver (sqrt : K → K) (hs : ∀ x : K, 0 ≤ x → sqrt (x * x) = x)
    (x : K) (hx1 : 250 + 144 / 10 < x) (hx2 : x < 550 - 144 / 10) (c : Fruit K) (w : World K)
    (h : OnFloor x 0 c) (hc : w.circles = [c]) (hslot : w.addFruit = none) (n : Nat) :
    (∃ c1 : Fruit K, ((fixedStep sqrt gameWalls)^[n] w).circles = [c1] ∧
      c1.pos = c.pos ∧ c1.v = ⟨0, 0⟩ ∧ c1.omega = 0) ∧
    evalGameOver ((fixedStep sqrt gameWalls)^[n] w).circles false = false := by
  obtain ⟨c1, h1, e1⟩ := iterate_fixedStep_onFloor sqrt hs x hx1 hx2 c w h hc hslot n
  rw [e1]
  obtain ⟨hp, hv, ho, _, hr, _, _⟩ := h1
  refine ⟨⟨c1, rfl, hp.trans h.1.symm, hv, ho⟩, ?_⟩
  rw [evalGameOver_eq]
  simp only [List.any_cons, List.any_nil, Bool.or_false, Bool.false_or, hp, hr,
    decide_eq_false_iff_not, not_or, not_and, not_lt]
  constructor
  · intro _
    norm_num
  · norm_num

/-- Witness for C10: the body at abscissa 400, after three fixed steps. -/
theorem resting_body_no_gameOver_witness :
    (∃ c1 : Fruit ℚ,
      ((fixedStep sqrtQ gameWalls)^[3]
        ⟨[Fruit.new ⟨400, 500 - 144 / 10⟩ 1], none, 0, 0, false⟩).circles = [c1] ∧
      c1.pos = (Fruit.new (⟨400, 500 - 144 / 10⟩ : Vec2 ℚ) 1).pos ∧ c1.v = ⟨0, 0⟩ ∧
      c1.omega = 0) ∧
    evalGameOver ((fixedStep sqrtQ gameWalls)^[3]
      ⟨[Fruit.new ⟨400, 500 - 144 / 10⟩ 1], none, 0, 0, false⟩).circles false = false :=
  resting_body_no_gameOver sqrtQ sqrtQ_sq 400 (by norm_num) (by norm_num)
    (Fruit.new ⟨400, 500 - 144 / 10⟩ 1) ⟨[Fruit.new ⟨400, 500 - 144 / 10⟩ 1], none, 0, 0, false⟩
    ⟨rfl, rfl, rfl, rfl, fruitR_one, rfl, rfl⟩ rfl rfl 3

/-! ## Distance after a solver iteration -/

theorem exactSqrtAt_of_isSqrt (sqrt : K → K) (hS : IsSqrt sqrt) (L : K) (hL : 0 ≤ L) :
    ExactSqrtAt sqrt L :=
  ⟨hS.1 L hL, sqrt_mul_self_of_isSqrt sqrt hS⟩

theorem ExactSqrtAt.nonneg {sqrt : K → K} {L : K} (h : ExactSqrtAt sqrt L) : 0 ≤ sqrt L := by
  by_contra hneg
  rw [not_le] at hneg
  have h1 : sqrt (-sqrt L * -sqrt L) = -sqrt L := h.2 _ (by linarith)
  rw [neg_mul_neg, h.1] at h1
  linarith

theorem resolvePair_r (sqrt : K → K) (s : PairState K) :
    (resolvePair sqrt s).pc1.r = s.pc1.r ∧ (resolvePair sqrt s).pc2.r = s.pc2.r := by
  simp only [resolvePair, Fruit.addImpulseLocal]
  split_ifs <;> simp

theorem resolvePair_pos (sqrt : K → K) (s : PairState K)
    (hsep : (s.pc1.pos.sub s.pc2.pos).isZero = false)
    (hov : 0 ≤ s.pc1.r + s.pc2.r - (s.pc1.pos.sub s.pc2.pos).length sqrt) :
    (resolvePair sqrt s).pc1.pos = s.pc1.pos.add
      ((((s.pc1.pos.sub s.pc2.pos).normalized sqrt).mul
        (s.pc1.r + s.pc2.r - (s.pc1.pos.sub s.pc2.pos).length sqrt)).div 2) ∧
    (resolvePair sqrt s).pc2.pos = s.pc2.pos.sub
      ((((s.pc1.pos.sub s.pc2.pos).normalized sqrt).mul
        (s.pc1.r + s.pc2.r - (s.pc1.pos.sub s.pc2.pos).length sqrt)).div 2) := by
  have hov' : ¬ s.pc1.r + s.pc2.r - (s.pc1.pos.sub s.pc2.pos).length sqrt < 0 := not_lt.2 hov
  simp only [resolvePair, hsep, hov', Bool.false_eq_true, if_false, Fruit.addImpulseLocal]
  split_ifs <;> exact ⟨rfl, rfl⟩

theorem corrected_lengthSq (p1 p2 : Vec2 K) (r1 r2 len : K)
    (hlen : len * len = (p1.sub p2).lengthSq) (h0 : len ≠ 0) :
    ((p1.add ((((p1.sub p2).mul (1 / len)).mul (r1 + r2 - len)).div 2)).sub
      (p2.sub ((((p1.sub p2).mul (1 / len)).mul (r1 + r2 - len)).div 2))).lengthSq
      = (r1 + r2) * (r1 + r2) := by
  simp only [Vec2.lengthSq, Vec2.sub, Vec2.add, Vec2.mul, Vec2.div] at hlen ⊢
  field_simp
  linear_combination (-(r1 + r2) ^ 2 * 4) * hlen

theorem lengthSq_sub_comm (p q : Vec2 K) : (p.sub q).lengthSq = (q.sub p).lengthSq := by
  simp only [Vec2.lengthSq, Vec2.sub]
  ring

theorem resolvePair_distance (sqrt : K → K) (s : PairState K)
    (hex : ExactSqrtAt sqrt (s.pc1.pos.sub s.pc2.pos).lengthSq)
    (hsep : (s.pc1.pos.sub s.pc2.pos).isZero = false)
    (hov : 0 ≤ s.pc1.r + s.pc2.r - (s.pc1.pos.sub s.pc2.pos).length sqrt) :
    ((resolvePair sqrt s).pc1.pos.sub (resolvePair sqrt s).pc2.pos).lengthSq
      = (s.pc1.r + s.pc2.r) * (s.pc1.r + s.pc2.r) ∧
    ((resolvePair sqrt s).pc1.pos.sub (resolvePair sqrt s).pc2.pos).length sqrt
      = s.pc1.r + s.pc2.r ∧
    ((resolvePair sqrt s).pc2.pos.sub (resolvePair sqrt s).pc1.pos).length sqrt
      = s.pc1.r + s.pc2.r := by
  obtain ⟨e1, e2⟩ := resolvePair_pos sqrt s hsep hov
  have h0 : (s.pc1.pos.sub s.pc2.pos).length sqrt ≠ 0 := by
    intro hz
    have := hex.1
    unfold Vec2.length at hz
    rw [hz, mul_zero] at this
    exact (isZero_eq_false_iff _).1 hsep this.symm
  have hnn : 0 ≤ (s.pc1.pos.sub s.pc2.pos).length sqrt := hex.nonneg
  have hsq := corrected_lengthSq s.pc1.pos s.pc2.pos s.pc1.r s.pc2.r
    ((s.pc1.pos.sub s.pc2.pos).length sqrt) hex.1 h0
  have hsq' : ((resolvePair sqrt s).pc1.pos.sub (resolvePair sqrt s).pc2.pos).lengthSq
      = (s.pc1.r + s.pc2.r) * (s.pc1.r + s.pc2.r) := by
    rw [e1, e2]
    exact hsq
  have hr : 0 ≤ s.pc1.r + s.pc2.r := by linarith
  refine ⟨hsq', ?_, ?_⟩
  · unfold Vec2.length
    rw [hsq']
    exact hex.2 _ hr
  · unfold Vec2.length
    rw [lengthSq_sub_comm, hsq']
    exact hex.2 _ hr

theorem resolvePair_touching (sqrt : K → K) (s : PairState K)
    (h : (s.pc1.pos.sub s.pc2.pos).length sqrt = s.pc1.r + s.pc2.r) :
    (resolvePair sqrt s).pc1.pos = s.pc1.pos ∧ (resolvePair sqrt s).pc2.pos = s.pc2.pos := by
  by_cases hz : (s.pc1.pos.sub s.pc2.pos).isZero = true
  · rw [resolvePair_of_isZero sqrt s hz]
    exact ⟨rfl, rfl⟩
  · rw [Bool.not_eq_true] at hz
    have hov : s.pc1.r + s.pc2.r - (s.pc1.pos.sub s.pc2.pos).length sqrt = 0 := by
      rw [h, sub_self]
    obtain ⟨e1, e2⟩ := resolvePair_pos sqrt s hz (le_of_eq hov.symm)
    rw [e1, e2, hov]
    simp [Vec2.add, Vec2.sub, Vec2.mul, Vec2.div]

theorem resolveWall_of_far (sqrt : K → K) (p : Fruit K) (wall : Line K)
    (h : p.r - (p.pos.sub (wall.closest sqrt p.pos)).length sqrt < 0) :
    resolveWall sqrt p wall = p := by
  simp only [resolveWall, h, if_true, ite_self]

theorem foldl_resolveWall_far (sqrt : K → K) (p : Fruit K) (walls : List (Line K))
    (h : ∀ wall ∈ walls, p.r - (p.pos.sub (wall.closest sqrt p.pos)).length sqrt < 0) :
    walls.foldl (resolveWall sqrt) p = p := by
  induction walls with
  | nil => rfl
  | cons wall rest ih =>
    rw [List.foldl_cons, resolveWall_of_far sqrt p wall (h wall (List.mem_cons_self _ _))]
    exact ih (fun w hw => h w (List.mem_cons_of_mem _ hw))

theorem wallPass_far (sqrt : K → K) (walls : List (Line K)) (w : World K)
    (h : ∀ p ∈ w.circles, ∀ wall ∈ walls,
      p.r - (p.pos.sub (wall.closest sqrt p.pos)).length sqrt < 0) :
    wallPass sqrt walls w = w := by
  unfold wallPass
  have e : w.circles.map (fun o => walls.foldl (resolveWall sqrt) o) = w.circles := by
    conv_rhs => rw [← List.map_id w.circles]
    exact List.map_congr_left (fun o ho => foldl_resolveWall_far sqrt o walls (h o ho))
  rw [e]

/-- The case of two bodies alone: for an active set of exactly two live bodies of
different tiers that overlap without coinciding, with the slot empty, and with no
wall within reach of a body once the circle-circle pass is over, both bodies survive
the solver iteration and afterwards the distance of their centres equals the sum of
their radii.  The square root is assumed exact at the squared distance of the two centres
and on squares, as the real square root is. -/
theorem two_body_iteration_separates (sqrt : K → K) (walls : List (Line K)) (a b : Fruit K)
    (w : World K) (hex : ExactSqrtAt sqrt (a.pos.sub b.pos).lengthSq)
    (hc : w.circles = [a, b]) (hslot : w.addFruit = none) (hnum : a.num ≠ b.num)
    (ha : a.dead = false) (hb : b.dead = false)
    (hsep : (a.pos.sub b.pos).isZero = false)
    (hov : 0 ≤ a.r + b.r - (a.pos.sub b.pos).length sqrt)
    (hwalls : ∀ p ∈ (ccPass sqrt w).circles, ∀ wall ∈ walls,
      p.r - (p.pos.sub (wall.closest sqrt p.pos)).length sqrt < 0) :
    ∃ a1 b1 : Fruit K, (solverIteration sqrt walls w).circles = [a1, b1] ∧
      a1.num = a.num ∧ b1.num = b.num ∧ a1.r = a.r ∧ b1.r = b.r ∧
      (a1.pos.sub b1.pos).length sqrt = a.r + b.r := by
  -- first visit: the ordered pair (0, 1)
  obtain ⟨s1, hs1⟩ : ∃ s1, resolvePair sqrt ⟨a, b, w.addFruit, w.score⟩ = s1 := ⟨_, rfl⟩
  obtain ⟨n1, n2⟩ := resolvePair_num sqrt ⟨a, b, w.addFruit, w.score⟩
  obtain ⟨r1, r2⟩ := resolvePair_r sqrt ⟨a, b, w.addFruit, w.score⟩
  obtain ⟨m1, _, m3, m4⟩ := resolvePair_no_merge sqrt ⟨a, b, w.addFruit, w.score⟩ hnum
  obtain ⟨_, d2, d3⟩ := resolvePair_distance sqrt ⟨a, b, w.addFruit, w.score⟩ hex hsep hov
  rw [hs1] at n1 n2 r1 r2 m1 m3 m4 d2 d3
  simp only at n1 n2 r1 r2 m1 m3 m4 d2 d3
  have e1 : resolveCC sqrt 0 1 w =
      ⟨[s1.pc1, s1.pc2], s1.addFruit, s1.score, w.accumulatorSec, w.gameOver⟩ := by
    simp only [resolveCC, hc, List.getElem?_cons_zero, List.getElem?_cons_succ,
      List.set_cons_zero, List.set_cons_succ, hs1]
  -- second visit: the ordered pair (1, 0), now touching
  obtain ⟨s2, hs2⟩ :
      ∃ s2, resolvePair sqrt ⟨s1.pc2, s1.pc1, s1.addFruit, s1.score⟩ = s2 := ⟨_, rfl⟩
  obtain ⟨k1, k2⟩ := resolvePair_num sqrt ⟨s1.pc2, s1.pc1, s1.addFruit, s1.score⟩
  obtain ⟨q1, q2⟩ := resolvePair_r sqrt ⟨s1.pc2, s1.pc1, s1.addFruit, s1.score⟩
  obtain ⟨l1, _, l3, l4⟩ := resolvePair_no_merge sqrt ⟨s1.pc2, s1.pc1, s1.addFruit, s1.score⟩
    (by rw [n1, n2]; exact fun h => hnum h.symm)
  obtain ⟨t1, t2⟩ := resolvePair_touching sqrt ⟨s1.pc2, s1.pc1, s1.addFruit, s1.score⟩
    (by rw [d3, r1, r2]; exact add_comm _ _)
  rw [hs2] at k1 k2 q1 q2 l1 l3 l4 t1 t2
  simp only at k1 k2 q1 q2 l1 l3 l4 t1 t2
  have e2 : ccPass sqrt w =
      ⟨[s2.pc2, s2.pc1], s2.addFruit, s2.score, w.accumulatorSec, w.gameOver⟩ := by
    rw [ccPass_two sqrt w (by rw [hc]; rfl), e1]
    simp only [resolveCC, List.getElem?_cons_zero, List.getElem?_cons_succ,
      List.set_cons_zero, List.set_cons_succ, hs2]
  rw [e2] at hwalls
  have e3 : solverPasses sqrt walls w =
      ⟨[s2.pc2, s2.pc1], s2.addFruit, s2.score, w.accumulatorSec, w.gameOver⟩ := by
    unfold solverPasses
    rw [e2, wallPass_far sqrt walls _ hwalls]
  have hslot2 : s2.addFruit = none := by rw [l1, m1]; exact hslot
  have hd1 : s2.pc2.dead = false := by rw [l4, m3]; exact ha
  have hd2 : s2.pc1.dead = false := by rw [l3, m4]; exact hb
  refine ⟨s2.pc2, s2.pc1, ?_, k2.trans n1, k1.trans n2, q2.trans r1, q1.trans r2, ?_⟩
  · unfold solverIteration
    rw [e3]
    simp [compact, hslot2, hd1, hd2]
  · rw [t1, t2]
    exact d2

/-- The case of two bodies alone, on `duoWorld` in the game's container. -/
theorem two_body_iteration_separates_witness :
    ∃ a1 b1 : Fruit ℚ, (solverIteration sqrtQ gameWalls duoWorld).circles = [a1, b1] ∧
      a1.num = (Fruit.new (⟨400, 300⟩ : Vec2 ℚ) 1).num ∧
      b1.num = (Fruit.new (⟨420, 300⟩ : Vec2 ℚ) 2).num ∧
      a1.r = (Fruit.new (⟨400, 300⟩ : Vec2 ℚ) 1).r ∧
      b1.r = (Fruit.new (⟨420, 300⟩ : Vec2 ℚ) 2).r ∧
      (a1.pos.sub b1.pos).length sqrtQ =
        (Fruit.new (⟨400, 300⟩ : Vec2 ℚ) 1).r + (Fruit.new (⟨420, 300⟩ : Vec2 ℚ) 2).r :=
  two_body_iteration_separates sqrtQ gameWalls (Fruit.new ⟨400, 300⟩ 1) (Fruit.new ⟨420, 300⟩ 2)
    duoWorld ⟨by decide!, sqrtQ_sq⟩ rfl rfl (by decide) rfl rfl (by decide!) (by decide!)
    (by decide!)

theorem topTier_merge_twice (sqrt : K → K) (walls : List (Line K)) (a b : Fruit K)
    (w : World K) (hex : ExactSqrtAt sqrt (a.pos.sub b.pos).lengthSq)
    (hc : w.circles = [a, b]) (hslot : w.addFruit = none) (ha : a.num = 11) (hb : b.num = 11)
    (hr : 0 < a.r + b.r) (hsep : (a.pos.sub b.pos).isZero = false)
    (hov : 0 ≤ a.r + b.r - (a.pos.sub b.pos).length sqrt) :
    (solverIteration sqrt walls w).circles = [] ∧
    (solverIteration sqrt walls w).score = w.score + 66 + 66 := by
  have hnum : a.num = b.num := ha.trans hb.symm
  have h11 : mergeScore 11 = 66 := by decide
  have hbig : ¬ (11 : Int) ≤ 10 := by decide
  -- first visit: the ordered pair (0, 1)
  obtain ⟨s1, hs1⟩ : ∃ s1, resolvePair sqrt ⟨a, b, w.addFruit, w.score⟩ = s1 := ⟨_, rfl⟩
  obtain ⟨n1, n2⟩ := resolvePair_num sqrt ⟨a, b, w.addFruit, w.score⟩
  obtain ⟨r1, r2⟩ := resolvePair_r sqrt ⟨a, b, w.addFruit, w.score⟩
  obtain ⟨m1, m2, m3, m4⟩ := resolvePair_merge sqrt ⟨a, b, w.addFruit, w.score⟩ hsep hov hnum hslot
  obtain ⟨d1, _, d3⟩ := resolvePair_distance sqrt ⟨a, b, w.addFruit, w.score⟩ hex hsep hov
  rw [hs1] at n1 n2 r1 r2 m1 m2 m3 m4 d1 d3
  simp only [ha, hbig, if_false, h11] at n1 n2 r1 r2 m1 m2 m3 m4 d1 d3
  have e1 : resolveCC sqrt 0 1 w =
      ⟨[s1.pc1, s1.pc2], s1.addFruit, s1.score, w.accumulatorSec, w.gameOver⟩ := by
    simp only [resolveCC, hc, List.getElem?_cons_zero, List.getElem?_cons_succ,
      List.set_cons_zero, List.set_cons_succ, hs1]
  -- second visit: the ordered pair (1, 0), touching, slot still empty
  have hsep2 : (s1.pc2.pos.sub s1.pc1.pos).isZero = false := by
    rw [isZero_eq_false_iff, lengthSq_sub_comm, d1]
    exact ne_of_gt (mul_pos hr hr)
  have hov2 : 0 ≤ s1.pc2.r + s1.pc1.r - (s1.pc2.pos.sub s1.pc1.pos).length sqrt := by
    rw [d3, r1, r2]
    linarith
  obtain ⟨s2, hs2⟩ :
      ∃ s2, resolvePair sqrt ⟨s1.pc2, s1.pc1, s1.addFruit, s1.score⟩ = s2 := ⟨_, rfl⟩
  obtain ⟨l1, l2, l3, l4⟩ := resolvePair_merge sqrt ⟨s1.pc2, s1.pc1, s1.addFruit, s1.score⟩
    hsep2 hov2 ((n2.trans hb).trans n1.symm) m4
  rw [hs2] at l1 l2 l3 l4
  simp only [n2, hb, hbig, if_false, h11, m3] at l1 l2 l3 l4
  have e2 : ccPass sqrt w =
      ⟨[s2.pc2, s2.pc1], s2.addFruit, s2.score, w.accumulatorSec, w.gameOver⟩ := by
    rw [ccPass_two sqrt w (by rw [hc]; rfl), e1]
    simp only [resolveCC, List.getElem?_cons_zero, List.getElem?_cons_succ,
      List.set_cons_zero, List.set_cons_succ, hs2]
  obtain ⟨_, q2, q3, q4⟩ := wallPass_flags sqrt walls (ccPass sqrt w)
  obtain ⟨c1, _, c3⟩ := compact_circles (solverPasses sqrt walls w)
  have hdead : ∀ o ∈ (solverPasses sqrt walls w).circles, o.dead = true := by
    unfold solverPasses
    refine all_dead_of_map _ _ q2 ?_
    rw [e2]
    intro o ho
    simp only [List.mem_cons, List.mem_singleton, List.not_mem_nil, or_false] at ho
    rcases ho with rfl | rfl
    · exact l2
    · exact l1
  have hadd : (solverPasses sqrt walls w).addFruit = none := by
    unfold solverPasses
    rw [q3, e2]
    exact l4
  have hscore : (solverPasses sqrt walls w).score = w.score + 66 + 66 := by
    unfold solverPasses
    rw [q4, e2]
    exact l3
  unfold solverIteration
  refine ⟨?_, c3.trans hscore⟩
  rw [c1, filter_alive_of_all_dead _ hdead, hadd]
  rfl

/-! ## Invariants of bodies through the simulation -/

theorem resolveCC_allBodies (sqrt : K → K) (P : Fruit K → Prop) (hP : BodyInvariant sqrt P)
    (i j : Nat) (w : World K) (h : AllBodies P w) : AllBodies P (resolveCC sqrt i j w) := by
  unfold resolveCC
  split
  · next pc1 pc2 h1 h2 =>
    obtain ⟨hi, hia⟩ := List.getElem?_eq_some.1 h1
    obtain ⟨hj, hjb⟩ := List.getElem?_eq_some.1 h2
    have p1 : P pc1 := h.1 pc1 (hia ▸ List.getElem_mem hi)
    have p2 : P pc2 := h.1 pc2 (hjb ▸ List.getElem_mem hj)
    obtain ⟨q1, q2, q3⟩ := hP.1 ⟨pc1, pc2, w.addFruit, w.score⟩ p1 p2 h.2
    refine ⟨?_, q3⟩
    intro o ho
    rcases List.mem_or_eq_of_mem_set ho with ho1 | rfl
    · rcases List.mem_or_eq_of_mem_set ho1 with ho2 | rfl
      · exact h.1 o ho2
      · exact q1
    · exact q2
  · exact h

theorem ccPass_allBodies (sqrt : K → K) (P : Fruit K → Prop) (hP : BodyInvariant sqrt P)
    (w : World K) (h : AllBodies P w) : AllBodies P (ccPass sqrt w) := by
  unfold ccPass
  refine foldl_invariant (AllBodies P) _ (fun s i hs => ?_) _ w h
  exact foldl_invariant (AllBodies P) _
    (fun t j ht => resolveCC_allBodies sqrt P hP i j t ht) _ s hs

theorem wallPass_allBodies (sqrt : K → K) (P : Fruit K → Prop) (hP : BodyInvariant sqrt P)
    (walls : List (Line K)) (w : World K) (h : AllBodies P w) :
    AllBodies P (wallPass sqrt walls w) := by
  refine ⟨?_, h.2⟩
  intro o ho
  simp only [wallPass, List.mem_map] at ho
  obtain ⟨o0, ho0, rfl⟩ := ho
  exact foldl_invariant P (resolveWall sqrt) (fun q wall hq => hP.2.1 q wall hq) walls o0
    (h.1 o0 ho0)

theorem compact_allBodies {F : Type} (P : Fruit F → Prop) (w : World F)
    (h : (∀ o ∈ w.circles, P o) ∧ ∀ f : Fruit F, w.addFruit = some f → P f) :
    (∀ o ∈ (compact w).circles, P o) ∧ ∀ f : Fruit F, (compact w).addFruit = some f → P f := by
  obtain ⟨c1, c2, _⟩ := compact_circles w
  rw [c1, c2]
  refine ⟨?_, fun f hf => absurd hf (Option.noConfusion)⟩
  intro o ho
  rcases List.mem_append.1 ho with h1 | h1
  · exact h.1 o (List.mem_of_mem_filter h1)
  · rw [Option.mem_toList] at h1
    exact h.2 o h1

theorem solverIteration_allBodies (sqrt : K → K) (P : Fruit K → Prop)
    (hP : BodyInvariant sqrt P) (walls : List (Line K)) (w : World K) (h : AllBodies P w) :
    AllBodies P (solverIteration sqrt walls w) :=
  compact_allBodies P _ (wallPass_allBodies sqrt P hP walls _ (ccPass_allBodies sqrt P hP w h))

theorem fixedStep_allBodies (sqrt : K → K) (P : Fruit K → Prop)
    (hP : BodyInvariant sqrt P) (walls : List (Line K)) (w : World K) (h : AllBodies P w) :
    AllBodies P (fixedStep sqrt walls w) := by
  have hi : AllBodies P (integrate w) := by
    refine ⟨?_, h.2⟩
    intro o ho
    simp only [integrate, List.mem_map] at ho
    obtain ⟨o0, ho0, rfl⟩ := ho
    exact hP.2.2 o0 (h.1 o0 ho0)
  unfold fixedStep
  exact Function.Iterate.rec (AllBodies P)
    (fun s hs => solverIteration_allBodies sqrt P hP walls s hs) hi solveNum

theorem allBodies_setAcc {F : Type} (P : Fruit F → Prop) (w : World F) (t : F)
    (h : (∀ o ∈ w.circles, P o) ∧ ∀ f : Fruit F, w.addFruit = some f → P f) :
    (∀ o ∈ ({ w with accumulatorSec := t } : World F).circles, P o) ∧
    ∀ f : Fruit F, ({ w with accumulatorSec := t } : World F).addFruit = some f → P f := h

theorem allBodies_setGameOver {F : Type} (P : Fruit F → Prop) (w : World F) (g : Bool)
    (h : (∀ o ∈ w.circles, P o) ∧ ∀ f : Fruit F, w.addFruit = some f → P f) :
    (∀ o ∈ ({ w with gameOver := g } : World F).circles, P o) ∧
    ∀ f : Fruit F, ({ w with gameOver := g } : World F).addFruit = some f → P f := h

theorem stepLoop_allBodies (sqrt : K → K) (P : Fruit K → Prop)
    (hP : BodyInvariant sqrt P) (walls : List (Line K)) (fuel : Nat) :
    ∀ w w1 : World K, AllBodies P w → stepLoop sqrt walls fuel w = some w1 →
      AllBodies P w1 := by
  induction fuel with
  | zero =>
    intro w w1 h e
    simp only [stepLoop] at e
    split_ifs at e
    rw [← Option.some.inj e]
    exact h
  | succ k ih =>
    intro w w1 h e
    simp only [stepLoop] at e
    split_ifs at e
    · exact ih _ w1
        (allBodies_setAcc P (fixedStep sqrt walls w) _ (fixedStep_allBodies sqrt P hP walls w h))
        e
    · rw [← Option.some.inj e]
      exact h

theorem advance_allBodies (sqrt : K → K) (P : Fruit K → Prop)
    (hP : BodyInvariant sqrt P) (walls : List (Line K)) (fuel : Nat) (delta : K)
    (w w1 : World K) (h : AllBodies P w) (e : advance sqrt walls fuel delta w = some w1) :
    AllBodies P w1 := by
  unfold advance at e
  split_ifs at e
  · rw [← Option.some.inj e]
    exact h
  · rw [Option.map_eq_some'] at e
    obtain ⟨w2, e2, rfl⟩ := e
    exact allBodies_setGameOver P w2 _
      (stepLoop_allBodies sqrt P hP walls fuel _ w2 (allBodies_setAcc P w _ h) e2)

theorem frameUpdate_allBodies (sqrt : K → K) (P : Fruit K → Prop)
    (hP : BodyInvariant sqrt P) (walls : List (Line K)) (fuel : Nat) (inp : FrameInput K)
    (hin : ∀ f : Fruit K, inp.grabFruit = some f → P f)
    (w w1 : World K) (h : AllBodies P w) (e : frameUpdate sqrt walls fuel inp w = some w1) :
    AllBodies P w1 := by
  unfold frameUpdate at e
  split_ifs at e with hg hk hk
  · rw [← Option.some.inj e]
    exact ⟨fun o ho => absurd ho (List.not_mem_nil o), h.2⟩
  · rw [← Option.some.inj e]
    exact h
  · refine advance_allBodies sqrt P hP walls fuel inp.delta _ w1 ?_ e
    cases hf : inp.grabFruit with
    | none => exact h
    | some f =>
      refine ⟨fun o ho => ?_, h.2⟩
      rcases List.mem_append.1 ho with h1 | h1
      · exact h.1 o h1
      · rw [List.mem_singleton] at h1
        exact h1 ▸ hin f hf
  · exact advance_allBodies sqrt P hP walls fuel inp.delta _ w1 h e

theorem runFrames_allBodies (sqrt : K → K) (P : Fruit K → Prop)
    (hP : BodyInvariant sqrt P) (walls : List (Line K)) (fuel : Nat) :
    ∀ (inputs : List (FrameInput K)) (w w1 : World K),
      (∀ inp ∈ inputs, ∀ f : Fruit K, inp.grabFruit = some f → P f) →
      AllBodies P w → runFrames sqrt walls fuel inputs w = some w1 → AllBodies P w1 := by
  intro inputs
  induction inputs with
  | nil =>
    intro w w1 _ h e
    rw [← Option.some.inj e]
    exact h
  | cons inp rest ih =>
    intro w w1 hin h e
    simp only [runFrames] at e
    cases e1 : frameUpdate sqrt walls fuel inp w with
    | none => rw [e1] at e; exact absurd e (Option.noConfusion)
    | some w2 =>
      rw [e1] at e
      exact ih w2 w1 (fun i hi => hin i (List.mem_cons_of_mem _ hi))
        (frameUpdate_allBodies sqrt P hP walls fuel inp (hin inp (List.mem_cons_self _ _))
          w w2 h e1) e

theorem resolvePair_slot (sqrt : K → K) (s : PairState K) :
    (resolvePair sqrt s).addFruit = s.addFruit ∨
    (s.pc1.num ≤ 10 ∧ (resolvePair sqrt s).addFruit = some (mergedFruit sqrt s.pc1 s.pc2)) := by
  by_cases h : s.addFruit = none
  · rcases resolvePair_free sqrt s h with ⟨e, _⟩ | ⟨_, _, _, _, e⟩
    · exact Or.inl (e.trans h.symm)
    · by_cases h10 : s.pc1.num ≤ 10
      · exact Or.inr ⟨h10, by rw [e, if_pos h10]⟩
      · exact Or.inl (by rw [e, if_neg h10, h])
  · exact Or.inl (resolvePair_pending sqrt s h).1

/-! ## Tiers stay between 1 and 11 -/

theorem tierOk_invariant (sqrt : K → K) : BodyInvariant sqrt (TierOk : Fruit K → Prop) := by
  refine ⟨?_, ?_, ?_⟩
  · intro s h1 h2 h3
    obtain ⟨n1, n2⟩ := resolvePair_num sqrt s
    refine ⟨?_, ?_, ?_⟩
    · unfold TierOk at h1 ⊢
      rw [n1]
      exact h1
    · unfold TierOk at h2 ⊢
      rw [n2]
      exact h2
    · intro f hf
      rcases resolvePair_slot sqrt s with e | ⟨h10, e⟩
      · exact h3 f (e ▸ hf)
      · rw [e] at hf
        rw [← Option.some.inj hf]
        unfold TierOk at h1 ⊢
        rw [mergedFruit_num]
        omega
  · intro p wall h
    unfold TierOk at h ⊢
    rw [(resolveWall_flags sqrt p wall).1]
    exact h
  · intro o h
    exact h

/-- C12: if every active body has a tier from 1 to 11 and the pending-spawn slot is
empty, the same holds after a fixed step, and after any sequence of passes through
the main loop whose dropped pieces have tiers from 1 to 11.  No visit of a pair or
of a wall changes the tier of a body, and a body scheduled by a merge has the tier
of its parents plus one, at most 11. -/
theorem tiers_stay_in_range (sqrt : K → K) (walls : List (Line K)) :
    (∀ w : World K, w.addFruit = none → (∀ o ∈ w.circles, 1 ≤ o.num ∧ o.num ≤ 11) →
      ∀ o ∈ (fixedStep sqrt walls w).circles, 1 ≤ o.num ∧ o.num ≤ 11) ∧
    (∀ (fuel : Nat) (inputs : List (FrameInput K)) (w w1 : World K), w.addFruit = none →
      (∀ o ∈ w.circles, 1 ≤ o.num ∧ o.num ≤ 11) →
      (∀ inp ∈ inputs, ∀ f : Fruit K, inp.grabFruit = some f → 1 ≤ f.num ∧ f.num ≤ 11) →
      runFrames sqrt walls fuel inputs w = some w1 →
      ∀ o ∈ w1.circles, 1 ≤ o.num ∧ o.num ≤ 11) ∧
    (∀ s : PairState K, (resolvePair sqrt s).pc1.num = s.pc1.num ∧
      (resolvePair sqrt s).pc2.num = s.pc2.num) ∧
    (∀ (p : Fruit K) (wall : Line K), (resolveWall sqrt p wall).num = p.num) ∧
    (∀ (s : PairState K) (f : Fruit K), s.addFruit = none →
      (resolvePair sqrt s).addFruit = some f → f.num = s.pc1.num + 1 ∧ f.num ≤ 11) := by
  refine ⟨?_, ?_, resolvePair_num sqrt, fun p wall => (resolveWall_flags sqrt p wall).1, ?_⟩
  · intro w hslot h
    exact (fixedStep_allBodies sqrt TierOk (tierOk_invariant sqrt) walls w
      ⟨h, fun f hf => absurd (hslot ▸ hf) (Option.noConfusion)⟩).1
  · intro fuel inputs w w1 hslot h hin e
    exact (runFrames_allBodies sqrt TierOk (tierOk_invariant sqrt) walls fuel inputs w w1 hin
      ⟨h, fun f hf => absurd (hslot ▸ hf) (Option.noConfusion)⟩ e).1
  · intro s f hslot hf
    rcases resolvePair_slot sqrt s with e | ⟨h10, e⟩
    · rw [e, hslot] at hf
      exact absurd hf (Option.noConfusion)
    · rw [e] at hf
      rw [← Option.some.inj hf, mergedFruit_num]
      exact ⟨rfl, by omega⟩

/-- Witness for C12: a fixed step on `clusterWorld`. -/
theorem tiers_stay_in_range_witness :
    ∀ o ∈ (fixedStep sqrtQ gameWalls clusterWorld).circles, 1 ≤ o.num ∧ o.num ≤ 11 :=
  (tiers_stay_in_range sqrtQ gameWalls).1 clusterWorld rfl (by decide!)

/-! ## Mass, radius and moment of inertia -/

theorem resolvePair_phys (sqrt : K → K) (s : PairState K) :
    ((resolvePair sqrt s).pc1.M = s.pc1.M ∧ (resolvePair sqrt s).pc1.r = s.pc1.r ∧
      (resolvePair sqrt s).pc1.I = s.pc1.I) ∧
    ((resolvePair sqrt s).pc2.M = s.pc2.M ∧ (resolvePair sqrt s).pc2.r = s.pc2.r ∧
      (resolvePair sqrt s).pc2.I = s.pc2.I) := by
  simp only [resolvePair, Fruit.addImpulseLocal]
  split_ifs <;> simp

theorem resolveWall_phys (sqrt : K → K) (p : Fruit K) (wall : Line K) :
    (resolveWall sqrt p wall).M = p.M ∧ (resolveWall sqrt p wall).r = p.r ∧
    (resolveWall sqrt p wall).I = p.I := by
  simp only [resolveWall, Fruit.addImpulseLocal]
  split_ifs <;> simp

theorem physOk_new (pos : Vec2 K) (n : Int) : PhysOk (Fruit.new pos n) :=
  ⟨rfl, rfl⟩

theorem physOk_invariant (sqrt : K → K) : BodyInvariant sqrt (PhysOk : Fruit K → Prop) := by
  refine ⟨?_, ?_, ?_⟩
  · intro s h1 h2 h3
    obtain ⟨⟨a1, a2, a3⟩, b1, b2, b3⟩ := resolvePair_phys sqrt s
    refine ⟨?_, ?_, ?_⟩
    · unfold PhysOk at h1 ⊢
      rw [a1, a2, a3]
      exact h1
    · unfold PhysOk at h2 ⊢
      rw [b1, b2, b3]
      exact h2
    · intro f hf
      rcases resolvePair_slot sqrt s with e | ⟨_, e⟩
      · exact h3 f (e ▸ hf)
      · rw [e] at hf
        rw [← Option.some.inj hf]
        exact physOk_new _ _
  · intro p wall h
    obtain ⟨a1, a2, a3⟩ := resolveWall_phys sqrt p wall
    unfold PhysOk at h ⊢
    rw [a1, a2, a3]
    exact h
  · intro o h
    exact h

/-- C15: a body built by `PhysicsCircle(center, radius)`, and so by `Fruit(pos, n)`,
has mass 1 and moment of inertia `0.5 * M * r * r`; `update`, `addImpulseLocal`,
`addImpulse`, `beFallen`, `beDead`, the visit of a pair (positional correction,
merge marking, impulse) and the visit of a wall leave mass, radius and moment of
inertia as they are; hence in every state reached from the initial one by passes
through the main loop that drop constructed pieces, and after every solver
iteration, every active body has mass 1 and `I = 0.5 * M * r * r`. -/
theorem inertia_invariant (sqrt : K → K) (walls : List (Line K)) :
    (∀ (center : Vec2 K) (radius : K) (n : Int),
      (Fruit.ofCircle center radius n).M = 1 ∧
      (Fruit.ofCircle center radius n).I =
        5 / 10 * (Fruit.ofCircle center radius n).M * (Fruit.ofCircle center radius n).r
          * (Fruit.ofCircle center radius n).r) ∧
    (∀ (pos : Vec2 K) (n : Int), Fruit.new pos n = Fruit.ofCircle pos (fruitR n) n) ∧
    (∀ (o : Fruit K) (delta : K),
      (o.update delta).M = o.M ∧ (o.update delta).r = o.r ∧ (o.update delta).I = o.I) ∧
    (∀ (o : Fruit K) (impulse p : Vec2 K),
      (o.addImpulseLocal impulse p).M = o.M ∧ (o.addImpulseLocal impulse p).r = o.r ∧
      (o.addImpulseLocal impulse p).I = o.I) ∧
    (∀ (o : Fruit K) (impulse p : Vec2 K),
      (o.addImpulse impulse p).M = o.M ∧ (o.addImpulse impulse p).r = o.r ∧
      (o.addImpulse impulse p).I = o.I) ∧
    (∀ o : Fruit K, (o.beFallen.M = o.M ∧ o.beFallen.r = o.r ∧ o.beFallen.I = o.I) ∧
      (o.beDead.M = o.M ∧ o.beDead.r = o.r ∧ o.beDead.I = o.I)) ∧
    (∀ s : PairState K,
      ((resolvePair sqrt s).pc1.M = s.pc1.M ∧ (resolvePair sqrt s).pc1.r = s.pc1.r ∧
        (resolvePair sqrt s).pc1.I = s.pc1.I) ∧
      ((resolvePair sqrt s).pc2.M = s.pc2.M ∧ (resolvePair sqrt s).pc2.r = s.pc2.r ∧
        (resolvePair sqrt s).pc2.I = s.pc2.I)) ∧
    (∀ (p : Fruit K) (wall : Line K),
      (resolveWall sqrt p wall).M = p.M ∧ (resolveWall sqrt p wall).r = p.r ∧
      (resolveWall sqrt p wall).I = p.I) ∧
    (∀ w : World K, AllBodies PhysOk w → AllBodies PhysOk (solverIteration sqrt walls w)) ∧
    (∀ (fuel : Nat) (inputs : List (FrameInput K)) (w1 : World K),
      (∀ inp ∈ inputs, ∀ f : Fruit K, inp.grabFruit = some f →
        f.M = 1 ∧ f.I = 5 / 10 * f.M * f.r * f.r) →
      runFrames sqrt walls fuel inputs initialWorld = some w1 →
      ∀ o ∈ w1.circles, o.M = 1 ∧ o.I = 5 / 10 * o.M * o.r * o.r) := by
  refine ⟨fun _ _ _ => ⟨rfl, rfl⟩, fun _ _ => rfl, fun _ _ => ⟨rfl, rfl, rfl⟩,
    fun _ _ _ => ⟨rfl, rfl, rfl⟩, fun _ _ _ => ⟨rfl, rfl, rfl⟩,
    fun _ => ⟨⟨rfl, rfl, rfl⟩, rfl, rfl, rfl⟩, resolvePair_phys sqrt, resolveWall_phys sqrt,
    solverIteration_allBodies sqrt PhysOk (physOk_invariant sqrt) walls, ?_⟩
  intro fuel inputs w1 hin e
  exact (runFrames_allBodies sqrt PhysOk (physOk_invariant sqrt) walls fuel inputs
    initialWorld w1 hin
    ⟨fun o ho => absurd ho (List.not_mem_nil o), fun f hf => absurd hf (Option.noConfusion)⟩
    e).1

theorem dropInputs_constructed :
    ∀ inp ∈ dropInputs, ∀ f : Fruit ℚ, inp.grabFruit = some f →
      f.M = 1 ∧ f.I = 5 / 10 * f.M * f.r * f.r := by
  intro inp hinp f hf
  simp only [dropInputs, List.mem_cons, List.mem_singleton, List.not_mem_nil, or_false] at hinp
  rcases hinp with rfl | rfl
  · rw [← Option.some.inj hf]
    exact ⟨rfl, rfl⟩
  · rw [← Option.some.inj hf]
    exact ⟨rfl, rfl⟩

/-- Witness for C15: the state after the two passes of `dropInputs`. -/
theorem inertia_invariant_witness :
    ∀ o ∈ ((runFrames sqrtQ gameWalls 1 dropInputs initialWorld).getD initialWorld).circles,
      o.M = 1 ∧ o.I = 5 / 10 * o.M * o.r * o.r :=
  (inertia_invariant sqrtQ gameWalls).2.2.2.2.2.2.2.2.2 1 dropInputs _
    dropInputs_constructed (by decide!)

/-! ## Radius of a tier -/

/-- C16: `fruitR n` is `12 * 1.2 ^ n` for every tier `n`; it grows strictly with the
tier between 1 and 11; a body constructed at tier `n` has radius `fruitR n`. -/
theorem fruitR_spec :
    (∀ n : Int, (fruitR n : K) = 12 * (12 / 10 : K) ^ n) ∧
    (∀ T1 T2 : Int, 1 ≤ T1 → T1 < T2 → T2 ≤ 11 → (fruitR T1 : K) < fruitR T2) ∧
    (∀ (pos : Vec2 K) (n : Int), (Fruit.new pos n).r = fruitR n) := by
  refine ⟨fun n => mul_comm _ _, ?_, fun _ _ => rfl⟩
  intro T1 T2 _ h _
  unfold fruitR
  have h1 : (1 : K) < 12 / 10 := by norm_num
  have := zpow_lt_zpow_right₀ h1 h
  linarith

/-- Witness for C16: tiers 3 and 7. -/
theorem fruitR_spec_witness : (fruitR 3 : ℚ) < fruitR 7 :=
  (fruitR_spec (K := ℚ)).2.1 3 7 (by decide) (by decide) (by decide)

/-! ## The active set after a solver iteration -/

theorem mergedFruit_alive (sqrt : K → K) (a b : Fruit K) :
    (mergedFruit sqrt a b).dead = false := rfl

theorem resolveCC_slot_alive (sqrt : K → K) (i j : Nat) (w : World K)
    (h : ∀ f : Fruit K, w.addFruit = some f → f.dead = false) :
    ∀ f : Fruit K, (resolveCC sqrt i j w).addFruit = some f → f.dead = false := by
  unfold resolveCC
  split
  · next pc1 pc2 _ _ =>
    intro f hf
    rcases resolvePair_slot sqrt ⟨pc1, pc2, w.addFruit, w.score⟩ with e | ⟨_, e⟩
    · exact h f (e.symm.trans hf)
    · have hf' : some (mergedFruit sqrt pc1 pc2) = some f := e.symm.trans hf
      rw [← Option.some.inj hf']
      exact mergedFruit_alive sqrt pc1 pc2
  · exact h

theorem solverPasses_slot_alive (sqrt : K → K) (walls : List (Line K)) (w : World K)
    (hslot : w.addFruit = none) :
    ∀ f : Fruit K, (solverPasses sqrt walls w).addFruit = some f → f.dead = false := by
  have h0 : ∀ f : Fruit K, w.addFruit = some f → f.dead = false :=
    fun f hf => absurd (hslot ▸ hf) (Option.noConfusion)
  have h1 : ∀ f : Fruit K, (ccPass sqrt w).addFruit = some f → f.dead = false := by
    unfold ccPass
    refine foldl_invariant
      (fun s : World K => ∀ f : Fruit K, s.addFruit = some f → f.dead = false) _
      (fun s i hs => ?_) _ w h0
    exact foldl_invariant
      (fun s : World K => ∀ f : Fruit K, s.addFruit = some f → f.dead = false) _
      (fun t j ht => resolveCC_slot_alive sqrt i j t ht) _ s hs
  exact h1

/-- C11: started with an empty pending-spawn slot, a solver iteration ends with no
active body marked dead and with the slot empty again; the active set is then the
bodies that were not marked dead, in their order, followed by the body scheduled
during the iteration, if there is one, which is therefore the last active body and
is visited by the next iteration. -/
theorem solverIteration_compacts (sqrt : K → K) (walls : List (Line K)) (w : World K)
    (hslot : w.addFruit = none) :
    (∀ o ∈ (solverIteration sqrt walls w).circles, o.dead = false) ∧
    (solverIteration sqrt walls w).addFruit = none ∧
    (solverIteration sqrt walls w).circles =
      (solverPasses sqrt walls w).circles.filter (fun o => !o.dead) ++
        (solverPasses sqrt walls w).addFruit.toList ∧
    ((solverPasses sqrt walls w).circles.filter (fun o => !o.dead)).Sublist
      (solverPasses sqrt walls w).circles ∧
    (∀ f : Fruit K, (solverPasses sqrt walls w).addFruit = some f →
      f ∈ (solverIteration sqrt walls w).circles ∧
      (solverIteration sqrt walls w).circles.getLast? = some f ∧
      (solverIteration sqrt walls w).circles.length =
        ((solverPasses sqrt walls w).circles.filter (fun o => !o.dead)).length + 1) := by
  obtain ⟨c1, c2, _⟩ := compact_circles (solverPasses sqrt walls w)
  have halive := solverPasses_slot_alive sqrt walls w hslot
  unfold solverIteration
  refine ⟨?_, c2, c1, List.filter_sublist _, ?_⟩
  · intro o ho
    rw [c1] at ho
    rcases List.mem_append.1 ho with h1 | h1
    · have := (List.mem_filter.1 h1).2
      simpa using this
    · rw [Option.mem_toList] at h1
      exact halive o h1
  · intro f hf
    rw [c1, hf]
    simp [Option.toList]

/-- Witness for C11: the iteration on `clusterWorld`, which merges two bodies. -/
theorem solverIteration_compacts_witness :
    (∀ o ∈ (solverIteration sqrtQ gameWalls clusterWorld).circles, o.dead = false) ∧
    (solverIteration sqrtQ gameWalls clusterWorld).addFruit = none :=
  ⟨(solverIteration_compacts sqrtQ gameWalls clusterWorld rfl).1,
    (solverIteration_compacts sqrtQ gameWalls clusterWorld rfl).2.1⟩

/-! ## Game over -/

theorem evalGameOver_true (circles : List (Fruit K)) : evalGameOver circles true = true := by
  rw [evalGameOver_eq]
  rfl

/-- C13: once `gameOver` is true, a pass through the main loop without the restart
key returns the state as it is (no fixed step runs: active set, bodies, score and
accumulator are unchanged, and `gameOver` stays true); with the restart key it
empties the active set, sets the score to 0 and sets `gameOver` to false; so a pass
that ends with `gameOver` false had the restart key pressed.  The termination
evaluation itself never sets `gameOver` back to false. -/
theorem gameOver_is_absorbing (sqrt : K → K) (walls : List (Line K)) (fuel : Nat)
    (inp : FrameInput K) (w : World K) (h : w.gameOver = true) :
    (inp.keySpaceDown = false → frameUpdate sqrt walls fuel inp w = some w) ∧
    (inp.keySpaceDown = true → frameUpdate sqrt walls fuel inp w =
      some { w with circles := [], gameOver := false, score := 0 }) ∧
    (∀ w1 : World K, frameUpdate sqrt walls fuel inp w = some w1 → w1.gameOver = false →
      inp.keySpaceDown = true ∧ w1.circles = [] ∧ w1.score = 0) ∧
    advance sqrt walls fuel inp.delta w = some w ∧
    (∀ circles : List (Fruit K), evalGameOver circles true = true) := by
  refine ⟨?_, ?_, ?_, ?_, evalGameOver_true⟩
  · intro hk
    simp [frameUpdate, h, hk]
  · intro hk
    simp [frameUpdate, h, hk]
  · intro w1 e hg
    cases hk : inp.keySpaceDown with
    | false =>
      simp only [frameUpdate, h, hk, if_true, Bool.false_eq_true, if_false] at e
      rw [← Option.some.inj e, h] at hg
      exact absurd hg (by decide)
    | true =>
      simp only [frameUpdate, h, hk, if_true] at e
      rw [← Option.some.inj e]
      exact ⟨rfl, rfl, rfl⟩
  · simp [advance, h]

/-- Witness for C13: a finished game with one body and score 7, 0.1 s later. -/
theorem gameOver_is_absorbing_witness :
    frameUpdate sqrtQ gameWalls 0 ⟨1 / 10, false, none⟩
      ⟨[Fruit.new ⟨400, 900⟩ 1], none, 7, 0, true⟩ =
        some ⟨[Fruit.new ⟨400, 900⟩ 1], none, 7, 0, true⟩ :=
  (gameOver_is_absorbing sqrtQ gameWalls 0 ⟨1 / 10, false, none⟩
    ⟨[Fruit.new ⟨400, 900⟩ 1], none, 7, 0, true⟩ rfl).1 rfl

/-! ## Number of fixed steps in a pass -/

theorem iterate_solverIteration_frame (sqrt : K → K) (walls : List (Line K)) (n : Nat) :
    ∀ w : World K, ((solverIteration sqrt walls)^[n] w).accumulatorSec = w.accumulatorSec ∧
      ((solverIteration sqrt walls)^[n] w).gameOver = w.gameOver := by
  induction n with
  | zero => intro w; exact ⟨rfl, rfl⟩
  | succ m ih =>
    intro w
    rw [Function.iterate_succ_apply]
    obtain ⟨h1, h2⟩ := ih (solverIteration sqrt walls w)
    obtain ⟨h3, h4⟩ := solverIteration_frame sqrt walls w
    exact ⟨h1.trans h3, h2.trans h4⟩

theorem integrate_frame {F : Type} [LinearOrderedField F] (w : World F) :
    (integrate w).accumulatorSec = w.accumulatorSec ∧ (integrate w).gameOver = w.gameOver :=
  ⟨rfl, rfl⟩

theorem fixedStep_frame (sqrt : K → K) (walls : List (Line K)) (w : World K) :
    (fixedStep sqrt walls w).accumulatorSec = w.accumulatorSec ∧
    (fixedStep sqrt walls w).gameOver = w.gameOver := by
  obtain ⟨h1, h2⟩ := iterate_solverIteration_frame sqrt walls solveNum (integrate w)
  obtain ⟨h3, h4⟩ := integrate_frame w
  unfold fixedStep
  exact ⟨h1.trans h3, h2.trans h4⟩

theorem stepOnce_accumulator (sqrt : K → K) (walls : List (Line K)) (w : World K) :
    (stepOnce sqrt walls w).accumulatorSec = w.accumulatorSec - stepSec := by
  unfold stepOnce
  simp only
  rw [(fixedStep_frame sqrt walls w).1]

theorem stepLoop_iterate (sqrt : K → K) (walls : List (Line K)) (n : Nat) :
    ∀ w : World K, (n : K) * stepSec ≤ w.accumulatorSec →
      w.accumulatorSec < ((n : K) + 1) * stepSec → ∀ k : Nat,
      stepLoop sqrt walls (n + k) w = some ((stepOnce sqrt walls)^[n] w) ∧
      ((stepOnce sqrt walls)^[n] w).accumulatorSec = w.accumulatorSec - (n : K) * stepSec := by
  have hpos : (0 : K) < stepSec := by unfold stepSec; norm_num
  induction n with
  | zero =>
    intro w _ h1 k
    rw [Nat.cast_zero, zero_add, one_mul] at h1
    refine ⟨?_, by simp⟩
    rw [Nat.zero_add, Function.iterate_zero, id_eq]
    exact stepLoop_done sqrt walls k w (not_le.2 h1)
  | succ m ih =>
    intro w h0 h1 k
    rw [Nat.cast_succ] at h0 h1
    have hge : stepSec ≤ w.accumulatorSec := by nlinarith
    have hacc := stepOnce_accumulator sqrt walls w
    obtain ⟨e1, e2⟩ := ih (stepOnce sqrt walls w) (by rw [hacc]; linarith)
      (by rw [hacc]; linarith) k
    rw [Function.iterate_succ_apply]
    refine ⟨?_, ?_⟩
    · rw [show m + 1 + k = (m + k) + 1 by omega]
      simp only [stepLoop, hge, if_true]
      exact e1
    · rw [e2, hacc, Nat.cast_succ]
      ring

/-- Without rounding (`stepLoop`: exact arithmetic, step 1/200): with the accumulator
at `a`, `0 ≤ a < 1/200`, and elapsed time `d ≥ 0`, the fixed-step loop of a pass
returns (with any fuel of at least the number of
rounds) after exactly `floor ((a + d) * 200)` rounds, each a fixed step followed by
the decrement, and leaves the accumulator at `a + d` minus that many steps of
1/200, a value in `[0, 1/200)`. -/
theorem stepLoop_runs_floor_steps [FloorRing K] (sqrt : K → K) (walls : List (Line K))
    (w : World K) (a d : K) (ha0 : 0 ≤ a) (ha1 : a < 1 / 200) (hd : 0 ≤ d)
    (hacc : w.accumulatorSec = a) (hg : w.gameOver = false) (k : Nat) :
    stepLoop sqrt walls (⌊(a + d) * 200⌋₊ + k) { w with accumulatorSec := a + d } =
      some ((stepOnce sqrt walls)^[⌊(a + d) * 200⌋₊] { w with accumulatorSec := a + d }) ∧
    ((stepOnce sqrt walls)^[⌊(a + d) * 200⌋₊] { w with accumulatorSec := a + d }).accumulatorSec
      = a + d - (⌊(a + d) * 200⌋₊ : K) * (1 / 200) ∧
    0 ≤ a + d - (⌊(a + d) * 200⌋₊ : K) * (1 / 200) ∧
    a + d - (⌊(a + d) * 200⌋₊ : K) * (1 / 200) < 1 / 200 ∧
    (advance sqrt walls (⌊(a + d) * 200⌋₊ + k) d w).map (fun w1 => w1.accumulatorSec) =
      some (a + d - (⌊(a + d) * 200⌋₊ : K) * (1 / 200)) := by
  obtain ⟨circles, slot, score, acc, g⟩ := w
  simp only at hacc hg
  subst hacc hg
  have hnn : 0 ≤ (acc + d) * 200 := by nlinarith
  have hfl : (⌊(acc + d) * 200⌋₊ : K) ≤ (acc + d) * 200 := Nat.floor_le hnn
  have hlt : (acc + d) * 200 < (⌊(acc + d) * 200⌋₊ : K) + 1 := Nat.lt_floor_add_one _
  obtain ⟨e1, e2⟩ := stepLoop_iterate sqrt walls ⌊(acc + d) * 200⌋₊
    ⟨circles, slot, score, acc + d, false⟩
    (by show _ ≤ acc + d; unfold stepSec; linarith)
    (by show acc + d < _; unfold stepSec; linarith) k
  have e2' : ((stepOnce sqrt walls)^[⌊(acc + d) * 200⌋₊]
      ⟨circles, slot, score, acc + d, false⟩).accumulatorSec
      = acc + d - (⌊(acc + d) * 200⌋₊ : K) * (1 / 200) := e2
  refine ⟨e1, e2', by linarith, by linarith, ?_⟩
  unfold advance
  simp only [Bool.false_eq_true, if_false, e1, Option.map_some']
  exact congrArg some e2'

/-- Without rounding: accumulator 1/400, elapsed time 1/80, which gives 3 rounds. -/
theorem stepLoop_runs_floor_steps_witness :
    (advance sqrtQ gameWalls (⌊((1 / 400 : ℚ) + 1 / 80) * 200⌋₊ + 0) (1 / 80)
      ⟨[Fruit.new ⟨400, 300⟩ 1], none, 0, 1 / 400, false⟩).map (fun w1 => w1.accumulatorSec) =
      some ((1 / 400 : ℚ) + 1 / 80 - (⌊((1 / 400 : ℚ) + 1 / 80) * 200⌋₊ : ℚ) * (1 / 200)) :=
  (stepLoop_runs_floor_steps sqrtQ gameWalls ⟨[Fruit.new ⟨400, 300⟩ 1], none, 0, 1 / 400, false⟩
    (1 / 400) (1 / 80) (by norm_num) (by norm_num) (by norm_num) rfl rfl 0).2.2.2.2

/-! ## Linear momentum -/

theorem vec_add_zero_div (v : Vec2 K) (m : K) :
    v.add ((⟨0, 0⟩ : Vec2 K).div m) = v ∧ v.add ((⟨0, 0⟩ : Vec2 K).neg.div m) = v := by
  cases v
  simp [Vec2.add, Vec2.div, Vec2.mul, Vec2.neg]

theorem resolvePair_velocity_separating (sqrt : K → K) (s : PairState K)
    (hc : (s.pc2.v.sub s.pc1.v).dot ((s.pc1.pos.sub s.pc2.pos).normalized sqrt) < 0) :
    (resolvePair sqrt s).pc1.v = s.pc1.v ∧ (resolvePair sqrt s).pc2.v = s.pc2.v ∧
    (resolvePair sqrt s).pc1.omega = s.pc1.omega ∧
    (resolvePair sqrt s).pc2.omega = s.pc2.omega := by
  simp only [resolvePair]
  split_ifs <;> exact ⟨rfl, rfl, rfl, rfl⟩

theorem resolvePair_impulse (sqrt : K → K) (s : PairState K) :
    ∃ J : Vec2 K,
      (resolvePair sqrt s).pc1.v = s.pc1.v.add (J.div s.pc1.M) ∧
      (resolvePair sqrt s).pc2.v = s.pc2.v.add (J.neg.div s.pc2.M) := by
  by_cases hz : (s.pc1.pos.sub s.pc2.pos).isZero = true
  · rw [resolvePair_of_isZero sqrt s hz]
    exact ⟨⟨0, 0⟩, (vec_add_zero_div _ _).1.symm, (vec_add_zero_div _ _).2.symm⟩
  · rw [Bool.not_eq_true] at hz
    by_cases hov : s.pc1.r + s.pc2.r - (s.pc1.pos.sub s.pc2.pos).length sqrt < 0
    · rw [resolvePair_of_apart sqrt s hov]
      exact ⟨⟨0, 0⟩, (vec_add_zero_div _ _).1.symm, (vec_add_zero_div _ _).2.symm⟩
    · by_cases hc : (s.pc2.v.sub s.pc1.v).dot ((s.pc1.pos.sub s.pc2.pos).normalized sqrt) < 0
      · obtain ⟨e1, e2, _, _⟩ := resolvePair_velocity_separating sqrt s hc
        rw [e1, e2]
        exact ⟨⟨0, 0⟩, (vec_add_zero_div _ _).1.symm, (vec_add_zero_div _ _).2.symm⟩
      · exact ⟨ccImpulse sqrt s.pc1 s.pc2,
          resolvePair_velocity sqrt s hz (not_lt.1 hov) (not_lt.1 hc)⟩

/-- C20: every visit of an ordered pair of bodies (of non-zero mass, as every
constructed body is) changes the two velocities by `J / M1` and `-J / M2` for one
impulse `J`, and so leaves `M1 * v1 + M2 * v2` as it is, whether the pair is
skipped, corrected only, or merged. -/
theorem resolvePair_conserves_momentum (sqrt : K → K) (s : PairState K)
    (h1 : s.pc1.M ≠ 0) (h2 : s.pc2.M ≠ 0) :
    (∃ J : Vec2 K,
      (resolvePair sqrt s).pc1.v = s.pc1.v.add (J.div s.pc1.M) ∧
      (resolvePair sqrt s).pc2.v = s.pc2.v.add (J.neg.div s.pc2.M)) ∧
    ((resolvePair sqrt s).pc1.v.mul (resolvePair sqrt s).pc1.M).add
        ((resolvePair sqrt s).pc2.v.mul (resolvePair sqrt s).pc2.M) =
      (s.pc1.v.mul s.pc1.M).add (s.pc2.v.mul s.pc2.M) := by
  refine ⟨resolvePair_impulse sqrt s, ?_⟩
  obtain ⟨J, e1, e2⟩ := resolvePair_impulse sqrt s
  obtain ⟨⟨m1, _, _⟩, m2, _, _⟩ := resolvePair_phys sqrt s
  rw [e1, e2, m1, m2]
  simp only [Vec2.add, Vec2.mul, Vec2.div, Vec2.neg, Vec2.mk.injEq]
  constructor <;> field_simp <;> ring

/-- Witness for C20: `approachingPair` over the rationals. -/
theorem resolvePair_conserves_momentum_witness :
    ((resolvePair sqrtQ approachingPair).pc1.v.mul (resolvePair sqrtQ approachingPair).pc1.M).add
        ((resolvePair sqrtQ approachingPair).pc2.v.mul
          (resolvePair sqrtQ approachingPair).pc2.M) =
      ((approachingPair : PairState ℚ).pc1.v.mul approachingPair.pc1.M).add
        (approachingPair.pc2.v.mul approachingPair.pc2.M) :=
  (resolvePair_conserves_momentum sqrtQ approachingPair (by decide!) (by decide!)).2

/-! ## Exactness of the positional correction -/

theorem resolvePair_midpoint (sqrt : K → K) (s : PairState K) :
    Vec2.midpoint (resolvePair sqrt s).pc1.pos (resolvePair sqrt s).pc2.pos =
      Vec2.midpoint s.pc1.pos s.pc2.pos := by
  by_cases hz : (s.pc1.pos.sub s.pc2.pos).isZero = true
  · rw [resolvePair_of_isZero sqrt s hz]
  · rw [Bool.not_eq_true] at hz
    by_cases hov : s.pc1.r + s.pc2.r - (s.pc1.pos.sub s.pc2.pos).length sqrt < 0
    · rw [resolvePair_of_apart sqrt s hov]
    · obtain ⟨e1, e2⟩ := resolvePair_pos sqrt s hz (not_lt.1 hov)
      rw [e1, e2]
      simp only [Vec2.midpoint, Vec2.add, Vec2.sub, Vec2.mul, Vec2.div, Vec2.mk.injEq]
      constructor <;> ring

theorem resolveWall_pos (sqrt : K → K) (p : Fruit K) (wall : Line K)
    (hsep : (p.pos.sub (wall.closest sqrt p.pos)).isZero = false)
    (hov : 0 ≤ p.r - (p.pos.sub (wall.closest sqrt p.pos)).length sqrt) :
    (resolveWall sqrt p wall).pos = p.pos.add
      (((p.pos.sub (wall.closest sqrt p.pos)).normalized sqrt).mul
        (p.r - (p.pos.sub (wall.closest sqrt p.pos)).length sqrt)) := by
  have hov' : ¬ p.r - (p.pos.sub (wall.closest sqrt p.pos)).length sqrt < 0 := not_lt.2 hov
  simp only [resolveWall, hsep, hov', Bool.false_eq_true, if_false, Fruit.addImpulseLocal]
  split_ifs <;> rfl

theorem pushed_lengthSq (p c : Vec2 K) (r len : K)
    (hlen : len * len = (p.sub c).lengthSq) (h0 : len ≠ 0) :
    ((p.add (((p.sub c).mul (1 / len)).mul (r - len))).sub c).lengthSq = r * r := by
  simp only [Vec2.lengthSq, Vec2.sub, Vec2.add, Vec2.mul] at hlen ⊢
  field_simp
  linear_combination (-(r ^ 2)) * hlen

theorem resolveWall_distance (sqrt : K → K) (p : Fruit K) (wall : Line K)
    (hex : ExactSqrtAt sqrt (p.pos.sub (wall.closest sqrt p.pos)).lengthSq)
    (hsep : (p.pos.sub (wall.closest sqrt p.pos)).isZero = false)
    (hov : 0 ≤ p.r - (p.pos.sub (wall.closest sqrt p.pos)).length sqrt) :
    ((resolveWall sqrt p wall).pos.sub (wall.closest sqrt p.pos)).length sqrt = p.r := by
  have h0 : (p.pos.sub (wall.closest sqrt p.pos)).length sqrt ≠ 0 := by
    intro hz
    have := hex.1
    unfold Vec2.length at hz
    rw [hz, mul_zero] at this
    exact (isZero_eq_false_iff _).1 hsep this.symm
  have hnn : 0 ≤ (p.pos.sub (wall.closest sqrt p.pos)).length sqrt := hex.nonneg
  have hsq := pushed_lengthSq p.pos (wall.closest sqrt p.pos) p.r
    ((p.pos.sub (wall.closest sqrt p.pos)).length sqrt) hex.1 h0
  rw [resolveWall_pos sqrt p wall hsep hov]
  simp only [Vec2.length, Vec2.normalized] at hsq hov hnn ⊢
  rw [hsq]
  exact hex.2 _ (by linarith)

/-- C17: for an ordered pair of non-coincident bodies with overlap `≥ 0`, after the
visit the distance of the two centres is the sum of the radii and their midpoint is
where it was; for a body against a wall with non-zero separation and overlap `≥ 0`,
after the visit the distance of the centre from the wall point that was closest
before is the radius.  The square root is assumed exact at the squared separation
and on squares, as the real square root is. -/
theorem positional_correction_exact (sqrt : K → K) :
    (∀ s : PairState K, ExactSqrtAt sqrt (s.pc1.pos.sub s.pc2.pos).lengthSq →
      (s.pc1.pos.sub s.pc2.pos).isZero = false →
      0 ≤ s.pc1.r + s.pc2.r - (s.pc1.pos.sub s.pc2.pos).length sqrt →
      ((resolvePair sqrt s).pc1.pos.sub (resolvePair sqrt s).pc2.pos).length sqrt
        = s.pc1.r + s.pc2.r ∧
      Vec2.midpoint (resolvePair sqrt s).pc1.pos (resolvePair sqrt s).pc2.pos =
        Vec2.midpoint s.pc1.pos s.pc2.pos) ∧
    (∀ (p : Fruit K) (wall : Line K),
      ExactSqrtAt sqrt (p.pos.sub (wall.closest sqrt p.pos)).lengthSq →
      (p.pos.sub (wall.closest sqrt p.pos)).isZero = false →
      0 ≤ p.r - (p.pos.sub (wall.closest sqrt p.pos)).length sqrt →
      ((resolveWall sqrt p wall).pos.sub (wall.closest sqrt p.pos)).length sqrt = p.r) :=
  ⟨fun s hex hsep hov =>
      ⟨(resolvePair_distance sqrt s hex hsep hov).2.1, resolvePair_midpoint sqrt s⟩,
    fun p wall hex hsep hov => resolveWall_distance sqrt p wall hex hsep hov⟩

/-- Witness for C17: the two bodies of `duoWorld`, 20 apart. -/
theorem positional_correction_exact_witness :
    ((resolvePair sqrtQ
        ⟨Fruit.new ⟨400, 300⟩ 1, Fruit.new ⟨420, 300⟩ 2, none, 0⟩).pc1.pos.sub
      (resolvePair sqrtQ
        ⟨Fruit.new ⟨400, 300⟩ 1, Fruit.new ⟨420, 300⟩ 2, none, 0⟩).pc2.pos).length sqrtQ
      = (Fruit.new (⟨400, 300⟩ : Vec2 ℚ) 1).r + (Fruit.new (⟨420, 300⟩ : Vec2 ℚ) 2).r :=
  ((positional_correction_exact sqrtQ).1
    ⟨Fruit.new ⟨400, 300⟩ 1, Fruit.new ⟨420, 300⟩ 2, none, 0⟩
    ⟨by decide!, sqrtQ_sq⟩ (by decide!) (by decide!)).1

/-! ## Where the merged body is placed -/

theorem length_ne_zero_of_exact (sqrt : K → K) (v : Vec2 K)
    (hex : ExactSqrtAt sqrt v.lengthSq) (hsep : v.isZero = false) : v.length sqrt ≠ 0 := by
  intro hz
  have := hex.1
  unfold Vec2.length at hz
  rw [hz, mul_zero] at this
  exact (isZero_eq_false_iff _).1 hsep this.symm

theorem mergedFruit_pos_midpoint (sqrt : K → K) (a b : Fruit K)
    (h0 : (a.pos.sub b.pos).length sqrt ≠ 0) (hr : a.r = b.r) :
    (mergedFruit sqrt a b).pos = Vec2.midpoint a.pos b.pos := by
  simp only [mergedFruit, Vec2.normalized]
  generalize (a.pos.sub b.pos).length sqrt = len at h0 ⊢
  simp only [Fruit.new, Vec2.midpoint, Vec2.add, Vec2.sub, Vec2.mul, Vec2.div, Vec2.mk.injEq, hr]
  constructor <;> field_simp <;> ring

/-- C18: when the visit of two bodies of one tier `T ≤ 10`, with radii `fruitR T`,
schedules a new body, its centre `pc1.pos - n * pc1.r`, taken after the positional
correction, is the midpoint of the two centres before the correction, which is also
their midpoint after it. -/
theorem merged_centre_is_midpoint (sqrt : K → K) (s : PairState K)
    (hex : ExactSqrtAt sqrt (s.pc1.pos.sub s.pc2.pos).lengthSq)
    (hsep : (s.pc1.pos.sub s.pc2.pos).isZero = false)
    (hov : 0 ≤ s.pc1.r + s.pc2.r - (s.pc1.pos.sub s.pc2.pos).length sqrt)
    (hnum : s.pc1.num = s.pc2.num) (h10 : s.pc1.num ≤ 10) (hslot : s.addFruit = none)
    (hr1 : s.pc1.r = fruitR s.pc1.num) (hr2 : s.pc2.r = fruitR s.pc2.num) :
    ∃ f : Fruit K, (resolvePair sqrt s).addFruit = some f ∧ f.num = s.pc1.num + 1 ∧
      f.pos = (resolvePair sqrt s).pc1.pos.sub
        (((s.pc1.pos.sub s.pc2.pos).normalized sqrt).mul (resolvePair sqrt s).pc1.r) ∧
      f.pos = Vec2.midpoint s.pc1.pos s.pc2.pos ∧
      f.pos = Vec2.midpoint (resolvePair sqrt s).pc1.pos (resolvePair sqrt s).pc2.pos := by
  obtain ⟨_, _, _, e⟩ := resolvePair_merge sqrt s hsep hov hnum hslot
  rw [if_pos h10] at e
  obtain ⟨p1, _⟩ := resolvePair_pos sqrt s hsep hov
  have hr : s.pc1.r = s.pc2.r := by rw [hr1, hr2, hnum]
  have hmid := mergedFruit_pos_midpoint sqrt s.pc1 s.pc2
    (length_ne_zero_of_exact sqrt _ hex hsep) hr
  refine ⟨mergedFruit sqrt s.pc1 s.pc2, e, rfl, ?_, hmid, ?_⟩
  · rw [p1, (resolvePair_r sqrt s).1]
    rfl
  · rw [resolvePair_midpoint]
    exact hmid

/-- Witness for C18: two tier-1 bodies 20 apart. -/
theorem merged_centre_is_midpoint_witness :
    ∃ f : Fruit ℚ,
      (resolvePair sqrtQ ⟨Fruit.new ⟨400, 300⟩ 1, Fruit.new ⟨380, 300⟩ 1, none, 0⟩).addFruit
        = some f ∧
      f.pos = Vec2.midpoint (Fruit.new (⟨400, 300⟩ : Vec2 ℚ) 1).pos
        (Fruit.new (⟨380, 300⟩ : Vec2 ℚ) 1).pos :=
  have h := merged_centre_is_midpoint sqrtQ
    ⟨Fruit.new ⟨400, 300⟩ 1, Fruit.new ⟨380, 300⟩ 1, none, 0⟩
    ⟨by decide!, sqrtQ_sq⟩ (by decide!) (by decide!) rfl (by decide) rfl rfl rfl
  h.elim fun f hf => ⟨f, hf.1, hf.2.2.2.1⟩

/-! ## The second visit of a pair -/

theorem resolvePair_fallen (sqrt : K → K) (s : PairState K)
    (hsep : (s.pc1.pos.sub s.pc2.pos).isZero = false)
    (hov : 0 ≤ s.pc1.r + s.pc2.r - (s.pc1.pos.sub s.pc2.pos).length sqrt) :
    (resolvePair sqrt s).pc1.fallen = true ∧ (resolvePair sqrt s).pc2.fallen = true := by
  have hov' : ¬ s.pc1.r + s.pc2.r - (s.pc1.pos.sub s.pc2.pos).length sqrt < 0 := not_lt.2 hov
  simp only [resolvePair, hsep, hov', Bool.false_eq_true, if_false, Fruit.addImpulseLocal]
  split_ifs <;> exact ⟨rfl, rfl⟩

theorem normalized_lengthSq_of_exact (sqrt : K → K) (v : Vec2 K)
    (hex : ExactSqrtAt sqrt v.lengthSq) (hsep : v.isZero = false) :
    (v.normalized sqrt).lengthSq = 1 := by
  have h0 := length_ne_zero_of_exact sqrt v hex hsep
  have h1 : v.length sqrt * v.length sqrt = v.lengthSq := hex.1
  unfold Vec2.normalized Vec2.mul
  unfold Vec2.lengthSq at h1 ⊢
  simp only
  field_simp
  linarith

theorem corrected_normal (p1 p2 : Vec2 K) (r1 r2 len : K) (h0 : len ≠ 0)
    (hr : r1 + r2 ≠ 0) :
    ((p2.sub ((((p1.sub p2).mul (1 / len)).mul (r1 + r2 - len)).div 2)).sub
      (p1.add ((((p1.sub p2).mul (1 / len)).mul (r1 + r2 - len)).div 2))).mul (1 / (r1 + r2))
      = ((p1.sub p2).mul (1 / len)).neg := by
  simp only [Vec2.sub, Vec2.add, Vec2.mul, Vec2.div, Vec2.neg, Vec2.mk.injEq]
  constructor <;> field_simp <;> ring

theorem resolvePair_reversed_normal (sqrt : K → K) (s : PairState K)
    (hex : ExactSqrtAt sqrt (s.pc1.pos.sub s.pc2.pos).lengthSq)
    (hsep : (s.pc1.pos.sub s.pc2.pos).isZero = false)
    (hov : 0 ≤ s.pc1.r + s.pc2.r - (s.pc1.pos.sub s.pc2.pos).length sqrt) :
    ((resolvePair sqrt s).pc2.pos.sub (resolvePair sqrt s).pc1.pos).normalized sqrt =
      ((s.pc1.pos.sub s.pc2.pos).normalized sqrt).neg ∧
    ((resolvePair sqrt s).pc2.pos.sub (resolvePair sqrt s).pc1.pos).isZero = false := by
  have h0 := length_ne_zero_of_exact sqrt _ hex hsep
  have hnn : 0 ≤ (s.pc1.pos.sub s.pc2.pos).length sqrt := hex.nonneg
  have hpos : 0 < s.pc1.r + s.pc2.r :=
    lt_of_lt_of_le (lt_of_le_of_ne hnn (Ne.symm h0)) (by linarith)
  obtain ⟨d1, _, d3⟩ := resolvePair_distance sqrt s hex hsep hov
  obtain ⟨e1, e2⟩ := resolvePair_pos sqrt s hsep hov
  constructor
  · have hn : ((resolvePair sqrt s).pc2.pos.sub (resolvePair sqrt s).pc1.pos).normalized sqrt
        = ((resolvePair sqrt s).pc2.pos.sub (resolvePair sqrt s).pc1.pos).mul
            (1 / (s.pc1.r + s.pc2.r)) := by
      unfold Vec2.normalized
      rw [d3]
    rw [hn, e1, e2]
    exact corrected_normal s.pc1.pos s.pc2.pos s.pc1.r s.pc2.r _ h0 (ne_of_gt hpos)
  · rw [isZero_eq_false_iff, lengthSq_sub_comm, d1]
    exact ne_of_gt (mul_pos hpos hpos)

theorem ccImpulse_dot_of_unit (sqrt : K → K) (pc1 pc2 : Fruit K)
    (h1 : ((pc1.pos.sub pc2.pos).normalized sqrt).lengthSq = 1) :
    (ccImpulse sqrt pc1 pc2).dot ((pc1.pos.sub pc2.pos).normalized sqrt) =
      Min ((pc2.v.sub pc1.v).dot ((pc1.pos.sub pc2.pos).normalized sqrt)) 50 *
        (pc1.M * pc2.M) / (pc1.M + pc2.M) := by
  unfold ccImpulse
  simp only
  generalize (pc1.pos.sub pc2.pos).normalized sqrt = n at h1 ⊢
  generalize Min ((pc2.v.sub pc1.v).dot n) 50 = m
  generalize Sign ((pc1.v.sub pc2.v).dot n.rotated90 - pc1.r * pc1.omega - pc2.r * pc2.omega) = k
  simp only [Vec2.dot, Vec2.div, Vec2.mul, Vec2.add, Vec2.rotated90, Vec2.lengthSq] at h1 ⊢
  linear_combination (m * pc1.M * pc2.M * (1 / (pc1.M + pc2.M))) * h1

theorem closing_after_impulse (v1 v2 J n : Vec2 K) (M1 M2 c : K) (h1 : 0 < M1) (h2 : 0 < M2)
    (hc : (v2.sub v1).dot n = c) (hJ : J.dot n = c * (M1 * M2) / (M1 + M2)) :
    (((v2.add (J.neg.div M2)).sub (v1.add (J.div M1)))).dot n = 0 := by
  have h3 : M1 + M2 ≠ 0 := ne_of_gt (add_pos h1 h2)
  have h1' : M1 ≠ 0 := ne_of_gt h1
  have h2' : M2 ≠ 0 := ne_of_gt h2
  simp only [Vec2.dot, Vec2.sub, Vec2.add, Vec2.neg, Vec2.div, Vec2.mul] at hc hJ ⊢
  have hJ' : J.x * n.x + J.y * n.y = c * (M1 * M2) / (M1 + M2) := hJ
  have e : (v2.x + -J.x * (1 / M2) - (v1.x + J.x * (1 / M1))) * n.x +
      (v2.y + -J.y * (1 / M2) - (v1.y + J.y * (1 / M1))) * n.y =
      ((v2.x - v1.x) * n.x + (v2.y - v1.y) * n.y) -
        (J.x * n.x + J.y * n.y) * (1 / M1 + 1 / M2) := by ring
  rw [e, hc, hJ']
  field_simp
  ring

theorem resolvePair_noop (sqrt : K → K) (t : PairState K)
    (hlen : (t.pc1.pos.sub t.pc2.pos).length sqrt = t.pc1.r + t.pc2.r)
    (hnum : t.pc1.num ≠ t.pc2.num)
    (hf1 : t.pc1.fallen = true) (hf2 : t.pc2.fallen = true)
    (hc : (t.pc2.v.sub t.pc1.v).dot ((t.pc1.pos.sub t.pc2.pos).normalized sqrt) < 0 ∨
      (t.pc2.v.sub t.pc1.v).dot ((t.pc1.pos.sub t.pc2.pos).normalized sqrt) = 0) :
    resolvePair sqrt t = t := by
  by_cases hz : (t.pc1.pos.sub t.pc2.pos).isZero = true
  · exact resolvePair_of_isZero sqrt t hz
  · rw [Bool.not_eq_true] at hz
    obtain ⟨⟨pos1, v1, th1, om1, M1, I1, r1, n1, d1, f1⟩,
      ⟨pos2, v2, th2, om2, M2, I2, r2, n2, d2, f2⟩, slot, score⟩ := t
    simp only at hlen hnum hf1 hf2 hc hz
    subst hf1 hf2
    have hov : ¬ r1 + r2 - (pos1.sub pos2).length sqrt < 0 := by rw [hlen, sub_self]; exact lt_irrefl 0
    have hov0 : r1 + r2 - (pos1.sub pos2).length sqrt = 0 := by rw [hlen, sub_self]
    have hp1 : pos1.add ((((pos1.sub pos2).normalized sqrt).mul 0).div 2) = pos1 := by
      cases pos1
      simp [Vec2.add, Vec2.mul, Vec2.div]
    have hp2 : pos2.sub ((((pos1.sub pos2).normalized sqrt).mul 0).div 2) = pos2 := by
      cases pos2
      simp [Vec2.sub, Vec2.mul, Vec2.div]
    simp only [resolvePair, hz, hov, hov0, hp1, hp2, hnum, Bool.false_eq_true, if_false,
      false_and]
    rcases hc with hc | hc
    · simp only [hc, if_true, ite_self]
    · have hnot : ¬ (v2.sub v1).dot ((pos1.sub pos2).normalized sqrt) < 0 := by
        rw [hc]; exact lt_irrefl 0
      have hmin : Min ((v2.sub v1).dot ((pos1.sub pos2).normalized sqrt)) 50 = 0 := by
        rw [hc]
        unfold Min
        rw [if_neg (by norm_num)]
      simp only [hnot, if_false, hmin, Fruit.addImpulseLocal]
      cases v1
      cases v2
      simp [Vec2.add, Vec2.mul, Vec2.div, Vec2.neg, Vec2.cross]

theorem dot_neg_swap (u v n : Vec2 K) : (u.sub v).dot n.neg = (v.sub u).dot n := by
  simp only [Vec2.dot, Vec2.sub, Vec2.neg]
  ring

theorem resolvePair_reversed_noop (sqrt : K → K) (s : PairState K)
    (hex : ExactSqrtAt sqrt (s.pc1.pos.sub s.pc2.pos).lengthSq)
    (hsep : (s.pc1.pos.sub s.pc2.pos).isZero = false)
    (hov : 0 ≤ s.pc1.r + s.pc2.r - (s.pc1.pos.sub s.pc2.pos).length sqrt)
    (hnum : s.pc1.num ≠ s.pc2.num) (hM1 : 0 < s.pc1.M) (hM2 : 0 < s.pc2.M)
    (hc50 : (s.pc2.v.sub s.pc1.v).dot ((s.pc1.pos.sub s.pc2.pos).normalized sqrt) ≤ 50) :
    resolvePair sqrt ⟨(resolvePair sqrt s).pc2, (resolvePair sqrt s).pc1,
        (resolvePair sqrt s).addFruit, (resolvePair sqrt s).score⟩ =
      ⟨(resolvePair sqrt s).pc2, (resolvePair sqrt s).pc1,
        (resolvePair sqrt s).addFruit, (resolvePair sqrt s).score⟩ := by
  obtain ⟨n1, n2⟩ := resolvePair_num sqrt s
  obtain ⟨r1, r2⟩ := resolvePair_r sqrt s
  obtain ⟨f1, f2⟩ := resolvePair_fallen sqrt s hsep hov
  obtain ⟨_, _, d3⟩ := resolvePair_distance sqrt s hex hsep hov
  obtain ⟨hn, _⟩ := resolvePair_reversed_normal sqrt s hex hsep hov
  refine resolvePair_noop sqrt _ ?_ ?_ f2 f1 ?_
  · show ((resolvePair sqrt s).pc2.pos.sub (resolvePair sqrt s).pc1.pos).length sqrt
      = (resolvePair sqrt s).pc2.r + (resolvePair sqrt s).pc1.r
    rw [d3, r1, r2, add_comm]
  · show (resolvePair sqrt s).pc2.num ≠ (resolvePair sqrt s).pc1.num
    rw [n1, n2]
    exact fun h => hnum h.symm
  · show ((resolvePair sqrt s).pc1.v.sub (resolvePair sqrt s).pc2.v).dot
        (((resolvePair sqrt s).pc2.pos.sub (resolvePair sqrt s).pc1.pos).normalized sqrt) < 0 ∨
      ((resolvePair sqrt s).pc1.v.sub (resolvePair sqrt s).pc2.v).dot
        (((resolvePair sqrt s).pc2.pos.sub (resolvePair sqrt s).pc1.pos).normalized sqrt) = 0
    rw [hn, dot_neg_swap]
    by_cases hc : (s.pc2.v.sub s.pc1.v).dot ((s.pc1.pos.sub s.pc2.pos).normalized sqrt) < 0
    · obtain ⟨e1, e2, _, _⟩ := resolvePair_velocity_separating sqrt s hc
      rw [e1, e2]
      exact Or.inl hc
    · obtain ⟨e1, e2⟩ := resolvePair_velocity sqrt s hsep hov (not_lt.1 hc)
      have hJ := ccImpulse_dot_of_unit sqrt s.pc1 s.pc2
        (normalized_lengthSq_of_exact sqrt _ hex hsep)
      have hmin : Min ((s.pc2.v.sub s.pc1.v).dot ((s.pc1.pos.sub s.pc2.pos).normalized sqrt)) 50
          = (s.pc2.v.sub s.pc1.v).dot ((s.pc1.pos.sub s.pc2.pos).normalized sqrt) := by
        unfold Min
        rw [if_neg (not_lt.2 hc50)]
      rw [hmin] at hJ
      rw [e1, e2]
      exact Or.inr (closing_after_impulse _ _ _ _ _ _ _ hM1 hM2 rfl hJ)

theorem resolveCC_reversed_noop (sqrt : K → K) (i j : Nat) (w : World K) (a b : Fruit K)
    (hi : w.circles[i]? = some a) (hj : w.circles[j]? = some b) (hij : i ≠ j)
    (hex : ExactSqrtAt sqrt (a.pos.sub b.pos).lengthSq)
    (hsep : (a.pos.sub b.pos).isZero = false)
    (hov : 0 ≤ a.r + b.r - (a.pos.sub b.pos).length sqrt)
    (hnum : a.num ≠ b.num) (hM1 : 0 < a.M) (hM2 : 0 < b.M)
    (hc50 : (b.v.sub a.v).dot ((a.pos.sub b.pos).normalized sqrt) ≤ 50) :
    resolveCC sqrt j i (resolveCC sqrt i j w) = resolveCC sqrt i j w := by
  have hnoop := resolvePair_reversed_noop sqrt ⟨a, b, w.addFruit, w.score⟩ hex hsep hov hnum
    hM1 hM2 hc50
  obtain ⟨s1, hs1⟩ : ∃ s1, resolvePair sqrt ⟨a, b, w.addFruit, w.score⟩ = s1 := ⟨_, rfl⟩
  rw [hs1] at hnoop
  obtain ⟨hi', _⟩ := List.getElem?_eq_some.1 hi
  obtain ⟨hj', _⟩ := List.getElem?_eq_some.1 hj
  have e1 : resolveCC sqrt i j w =
      ⟨(w.circles.set i s1.pc1).set j s1.pc2, s1.addFruit, s1.score, w.accumulatorSec,
        w.gameOver⟩ := by
    simp only [resolveCC, hi, hj, hs1]
  have g1 : ((w.circles.set i s1.pc1).set j s1.pc2)[j]? = some s1.pc2 :=
    List.getElem?_set_self (by rw [List.length_set]; exact hj')
  have g2 : ((w.circles.set i s1.pc1).set j s1.pc2)[i]? = some s1.pc1 := by
    rw [List.getElem?_set_ne (Ne.symm hij)]
    exact List.getElem?_set_self hi'
  rw [e1]
  simp only [resolveCC, g1, g2, hnoop, set_of_getElem? _ _ _ g1, set_of_getElem? _ _ _ g2]

/-- C19: the circle-circle pass visits both orders of a pair (for two bodies: first
(0, 1), then (1, 0)).  For two non-coincident overlapping bodies of different tiers
and positive mass whose closing velocity is at most 50, the visit of the reversed
pair right after the visit of the pair changes nothing: the two bodies (position,
velocity, angle, angular velocity, flags), the pending-spawn slot and the score are
as the first visit left them. -/
theorem reversed_visit_is_noop (sqrt : K → K) (i j : Nat) (w : World K) (a b : Fruit K)
    (hi : w.circles[i]? = some a) (hj : w.circles[j]? = some b) (hij : i ≠ j)
    (hex : ExactSqrtAt sqrt (a.pos.sub b.pos).lengthSq)
    (hsep : (a.pos.sub b.pos).isZero = false)
    (hov : 0 ≤ a.r + b.r - (a.pos.sub b.pos).length sqrt)
    (hnum : a.num ≠ b.num) (hM1 : 0 < a.M) (hM2 : 0 < b.M)
    (hc50 : (b.v.sub a.v).dot ((a.pos.sub b.pos).normalized sqrt) ≤ 50) :
    resolvePair sqrt ⟨(resolvePair sqrt ⟨a, b, w.addFruit, w.score⟩).pc2,
        (resolvePair sqrt ⟨a, b, w.addFruit, w.score⟩).pc1,
        (resolvePair sqrt ⟨a, b, w.addFruit, w.score⟩).addFruit,
        (resolvePair sqrt ⟨a, b, w.addFruit, w.score⟩).score⟩ =
      ⟨(resolvePair sqrt ⟨a, b, w.addFruit, w.score⟩).pc2,
        (resolvePair sqrt ⟨a, b, w.addFruit, w.score⟩).pc1,
        (resolvePair sqrt ⟨a, b, w.addFruit, w.score⟩).addFruit,
        (resolvePair sqrt ⟨a, b, w.addFruit, w.score⟩).score⟩ ∧
    resolveCC sqrt j i (resolveCC sqrt i j w) = resolveCC sqrt i j w ∧
    (w.circles.length = 2 →
      ccPass sqrt w = resolveCC sqrt 1 0 (resolveCC sqrt 0 1 w)) :=
  ⟨resolvePair_reversed_noop sqrt ⟨a, b, w.addFruit, w.score⟩ hex hsep hov hnum hM1 hM2 hc50,
    resolveCC_reversed_noop sqrt i j w a b hi hj hij hex hsep hov hnum hM1 hM2 hc50,
    ccPass_two sqrt w⟩

/-- Witness for C19: the two bodies of `duoWorld`. -/
theorem reversed_visit_is_noop_witness :
    resolveCC sqrtQ 1 0 (resolveCC sqrtQ 0 1 duoWorld) = resolveCC sqrtQ 0 1 duoWorld :=
  (reversed_visit_is_noop sqrtQ 0 1 duoWorld (Fruit.new ⟨400, 300⟩ 1) (Fruit.new ⟨420, 300⟩ 2)
    rfl rfl (by decide) ⟨by decide!, sqrtQ_sq⟩ (by decide!) (by decide!) (by decide)
    (by decide!) (by decide!) (by decide!)).2.1

/-! ## A pair of bodies among others: distance after a solver iteration -/

/-- After the solver iteration on `quartetWorld` the active set holds the two bodies of
tier 2, which the taken slot kept from merging, and the body of tier 2 that the two
bodies of tier 1 merged into. -/
theorem quartetWorld_iteration :
    (solverIteration sqrtQ gameWalls quartetWorld).circles.map (fun o => (o.num, o.dead))
      = [(2, false), (2, false), (2, false)] ∧
    overlapAt sqrtQ (solverIteration sqrtQ gameWalls quartetWorld).circles 0 1 = some 0 := by
  decide!

/-- The hypothesis on third bodies is what `chainWorld` lacks: the visit of the second
and the third body finds them in contact. -/
theorem chainWorld_third_contact :
    pairLeftAlone sqrtQ 0 1 (ccVisits chainWorld.circles.length) chainWorld = false ∧
    leavesPairAlone sqrtQ 0 1 1 2 (resolveCC sqrtQ 0 1 chainWorld) = false := by
  decide!

/-- The hypothesis on walls is needed as well: in `wallsideWorld` no third body
exists, the first body reaches the left wall once the pair has been pushed apart,
the wall pushes it back, and the two bodies, which overlapped by 11.68, overlap by
5.24 after the solver iteration. -/
theorem wall_iteration_leaves_overlap :
    overlapAt sqrtQ wallsideWorld.circles 0 1 = some (292 / 25) ∧
    pairLeftAlone sqrtQ 0 1 (ccVisits wallsideWorld.circles.length) wallsideWorld = true ∧
    clearOfWalls sqrtQ gameWalls (ccPass sqrtQ wallsideWorld).circles 0 = false ∧
    (solverIteration sqrtQ gameWalls wallsideWorld).circles.map (fun o => (o.num, o.dead))
      = [(1, false), (2, false)] ∧
    overlapAt sqrtQ (solverIteration sqrtQ gameWalls wallsideWorld).circles 0 1
      = some (131 / 25) := by
  decide!

/-! ## The fixed-step loop in double arithmetic -/

theorem log2Fuel_eq : ∀ fuel n : Nat, n ≤ fuel → log2Fuel fuel n = Nat.log 2 n := by
  intro fuel
  induction fuel with
  | zero =>
    intro n h
    rw [Nat.le_zero.1 h, Nat.log_zero_right]
    rfl
  | succ m ih =>
    intro n h
    unfold log2Fuel
    split_ifs with h2
    · rw [ih (n / 2) (by omega), Nat.log_of_one_lt_of_le (by decide) h2]
    · rw [Nat.log_of_lt (by omega)]

theorem log2Fuel_spec (n : Nat) (h : n ≠ 0) :
    2 ^ log2Fuel n n ≤ n ∧ n < 2 ^ (log2Fuel n n + 1) := by
  rw [log2Fuel_eq n n le_rfl]
  exact ⟨Nat.pow_log_le_self 2 h, Nat.lt_pow_succ_log_self (by decide) n⟩

theorem stepSecD_eq : stepSecD = 5764607523034235 / 2 ^ 60 := by decide!

theorem roundEven_err (y : ℚ) : |(roundEven y : ℚ) - y| ≤ 1 / 2 := by
  have h1 := Int.floor_le y
  have h2 := Int.lt_floor_add_one y
  unfold roundEven
  split_ifs <;> push_cast <;> rw [abs_le] <;> constructor <;> linarith

theorem roundEven_nonneg (y : ℚ) (h : 0 ≤ y) : 0 ≤ roundEven y := by
  have h1 : 0 ≤ ⌊y⌋ := Int.floor_nonneg.2 h
  unfold roundEven
  split_ifs <;> omega

theorem zpow_two_sub (a b : Nat) : (2 : ℚ) ^ ((a : ℤ) - (b : ℤ)) = 2 ^ a / 2 ^ b := by
  rw [zpow_sub₀ (by norm_num : (2 : ℚ) ≠ 0), zpow_natCast, zpow_natCast]

theorem binade_spec (x : ℚ) (hx : 0 < x) :
    (2 : ℚ) ^ binade x ≤ x ∧ x < (2 : ℚ) ^ (binade x + 1) := by
  have hnum : 0 < x.num := Rat.num_pos.2 hx
  have hn0 : x.num.natAbs ≠ 0 := Int.natAbs_ne_zero.2 (ne_of_gt hnum)
  obtain ⟨a1, a2⟩ := log2Fuel_spec x.num.natAbs hn0
  obtain ⟨b1, b2⟩ := log2Fuel_spec x.den x.den_nz
  have hc : ((x.num.natAbs : ℕ) : ℚ) = (x.num : ℚ) := by
    rw [Nat.cast_natAbs, abs_of_pos hnum]
  have hxe : x = (x.num.natAbs : ℚ) / (x.den : ℚ) := by
    rw [hc]
    exact (Rat.num_div_den x).symm
  have hd : (0 : ℚ) < (x.den : ℚ) := by exact_mod_cast x.den_pos
  unfold binade
  rw [abs_of_pos hx]
  generalize log2Fuel x.num.natAbs x.num.natAbs = a at a1 a2 ⊢
  generalize log2Fuel x.den x.den = b at b1 b2 ⊢
  have A1 : (2 : ℚ) ^ a ≤ (x.num.natAbs : ℚ) := by exact_mod_cast a1
  have A2 : (x.num.natAbs : ℚ) < (2 : ℚ) ^ (a + 1) := by exact_mod_cast a2
  have B1 : (2 : ℚ) ^ b ≤ (x.den : ℚ) := by exact_mod_cast b1
  have B2 : (x.den : ℚ) < (2 : ℚ) ^ (b + 1) := by exact_mod_cast b2
  have pa : (0 : ℚ) < 2 ^ a := by positivity
  have pb : (0 : ℚ) < 2 ^ b := by positivity
  have pb1 : (0 : ℚ) < 2 ^ (b + 1) := by positivity
  generalize (x.num.natAbs : ℚ) = n at hxe A1 A2
  generalize (x.den : ℚ) = d at hxe hd B1 B2
  split_ifs with h
  · refine ⟨h, ?_⟩
    rw [show (a : ℤ) - (b : ℤ) + 1 = ((a + 1 : ℕ) : ℤ) - (b : ℤ) by push_cast; ring,
      zpow_two_sub, hxe, div_lt_div_iff₀ hd pb]
    nlinarith
  · refine ⟨?_, ?_⟩
    · rw [show (a : ℤ) - (b : ℤ) - 1 = (a : ℤ) - ((b + 1 : ℕ) : ℤ) by push_cast; ring,
        zpow_two_sub, hxe, div_le_div_iff₀ pb1 hd]
      nlinarith
    · rw [sub_add_cancel]
      exact not_le.1 h

theorem binade_le (x : ℚ) (e : ℤ) (h0 : 0 ≤ x) (h : x ≤ (2 : ℚ) ^ e) (he : -1 ≤ e) :
    binade x ≤ e := by
  rcases eq_or_lt_of_le h0 with h1 | h1
  · rw [← h1]
    exact he
  · by_contra hlt
    rw [not_le] at hlt
    have h2 := (binade_spec x h1).1
    have h3 : (2 : ℚ) ^ (e + 1) ≤ (2 : ℚ) ^ binade x :=
      zpow_le_zpow_right₀ (by norm_num) (by omega)
    have h4 : (2 : ℚ) ^ e < (2 : ℚ) ^ (e + 1) := zpow_lt_zpow_right₀ (by norm_num) (by omega)
    linarith

theorem ulp_pos (x : ℚ) : 0 < ulp x := by
  unfold ulp
  positivity

theorem roundDouble_nonneg (x : ℚ) (h : 0 ≤ x) : 0 ≤ roundDouble x := by
  unfold roundDouble
  have h1 : 0 ≤ roundEven (x / ulp x) := roundEven_nonneg _ (div_nonneg h (ulp_pos x).le)
  have h2 : (0 : ℚ) ≤ (roundEven (x / ulp x) : ℚ) := by exact_mod_cast h1
  exact mul_nonneg h2 (ulp_pos x).le

theorem roundDouble_err (x : ℚ) : |roundDouble x - x| ≤ ulp x / 2 := by
  have hu := ulp_pos x
  have h := roundEven_err (x / ulp x)
  unfold roundDouble
  have e : (roundEven (x / ulp x) : ℚ) * ulp x - x = ((roundEven (x / ulp x) : ℚ) - x / ulp x) * ulp x := by
    field_simp
  rw [e, abs_mul, abs_of_pos hu]
  nlinarith [abs_nonneg ((roundEven (x / ulp x) : ℚ) - x / ulp x)]

theorem roundDouble_err_bounded (x : ℚ) (h0 : 0 ≤ x) (h : x ≤ 131072) :
    |roundDouble x - x| ≤ 1 / 2 ^ 36 := by
  have hb : binade x ≤ 17 := binade_le x 17 h0 (by norm_num; exact h) (by norm_num)
  have hu : ulp x ≤ (2 : ℚ) ^ (-35 : ℤ) := by
    unfold ulp
    exact zpow_le_zpow_right₀ (by norm_num) (by omega)
  have := roundDouble_err x
  rw [show (2 : ℚ) ^ (-35 : ℤ) = 1 / 2 ^ 35 by norm_num [zpow_neg]] at hu
  norm_num at hu ⊢
  linarith

theorem stepOnceR_accumulator (rd : K → K) (s : K) (sqrt : K → K) (walls : List (Line K))
    (w : World K) :
    (stepOnceR rd s sqrt walls w).accumulatorSec = rd (w.accumulatorSec - s) := by
  unfold stepOnceR
  simp only
  rw [(fixedStep_frame sqrt walls w).1]

theorem stepLoopR_done (rd : K → K) (s : K) (sqrt : K → K) (walls : List (Line K))
    (fuel : Nat) (w : World K) (h : ¬ s ≤ w.accumulatorSec) :
    stepLoopR rd s sqrt walls fuel w = some w := by
  cases fuel <;> simp [stepLoopR, h]

theorem stepLoopR_id (sqrt : K → K) (walls : List (Line K)) (fuel : Nat) :
    ∀ w : World K, stepLoopR id stepSec sqrt walls fuel w = stepLoop sqrt walls fuel w := by
  induction fuel with
  | zero => intro w; rfl
  | succ m ih =>
    intro w
    unfold stepLoopR stepLoop
    split_ifs with h
    · exact ih _
    · rfl

theorem stepLoopR_run (rd : K → K) (s ε B : K) (sqrt : K → K) (walls : List (Line K))
    (hε : 0 ≤ ε) (hεs : ε < s) (hnn : ∀ x : K, 0 ≤ x → 0 ≤ rd x)
    (herr : ∀ x : K, 0 ≤ x → x ≤ B → |rd x - x| ≤ ε) (m : Nat) :
    ∀ w : World K, 0 ≤ w.accumulatorSec → w.accumulatorSec ≤ B →
      w.accumulatorSec < s + m * (s - ε) →
      ∃ n : Nat, n ≤ m ∧
        (∀ k : Nat, stepLoopR rd s sqrt walls (n + k) w =
          some ((stepOnceR rd s sqrt walls)^[n] w)) ∧
        (∀ j : Nat, j < n → s ≤ ((stepOnceR rd s sqrt walls)^[j] w).accumulatorSec) ∧
        0 ≤ ((stepOnceR rd s sqrt walls)^[n] w).accumulatorSec ∧
        ((stepOnceR rd s sqrt walls)^[n] w).accumulatorSec < s ∧
        w.accumulatorSec - n * (s + ε) ≤ ((stepOnceR rd s sqrt walls)^[n] w).accumulatorSec ∧
        ((stepOnceR rd s sqrt walls)^[n] w).accumulatorSec ≤ w.accumulatorSec - n * (s - ε) := by
  induction m with
  | zero =>
    intro w h0 _ hlt
    rw [Nat.cast_zero, zero_mul, add_zero] at hlt
    refine ⟨0, le_rfl, fun k => ?_, fun j hj => absurd hj (Nat.not_lt_zero j), h0, hlt, ?_, ?_⟩
    · rw [Nat.zero_add]
      exact stepLoopR_done rd s sqrt walls k w (not_le.2 hlt)
    · simp
    · simp
  | succ m ih =>
    intro w h0 hB hlt
    by_cases hge : s ≤ w.accumulatorSec
    · obtain ⟨w1, hw1⟩ : ∃ w1, stepOnceR rd s sqrt walls w = w1 := ⟨_, rfl⟩
      have hacc : w1.accumulatorSec = rd (w.accumulatorSec - s) := by
        rw [← hw1]
        exact stepOnceR_accumulator rd s sqrt walls w
      have hs : 0 ≤ s := by linarith
      have he := abs_le.1 (herr (w.accumulatorSec - s) (by linarith) (by linarith))
      have h1 : 0 ≤ w1.accumulatorSec := by
        rw [hacc]
        exact hnn _ (by linarith)
      rw [← hacc] at he
      rw [Nat.cast_succ] at hlt
      obtain ⟨n, hn, e1, e2, e3, e4, e5, e6⟩ := ih w1 h1 (by linarith) (by linarith)
      refine ⟨n + 1, Nat.succ_le_succ hn, fun k => ?_, fun j hj => ?_, ?_, ?_, ?_, ?_⟩
      · rw [show n + 1 + k = (n + k) + 1 by omega, Function.iterate_succ_apply, hw1]
        simp only [stepLoopR, hge, if_true, hw1]
        exact e1 k
      · cases j with
        | zero => exact hge
        | succ i =>
          rw [Function.iterate_succ_apply, hw1]
          exact e2 i (by omega)
      · rw [Function.iterate_succ_apply, hw1]
        exact e3
      · rw [Function.iterate_succ_apply, hw1]
        exact e4
      · rw [Function.iterate_succ_apply, hw1, Nat.cast_succ]
        linarith
      · rw [Function.iterate_succ_apply, hw1, Nat.cast_succ]
        linarith
    · rw [not_le] at hge
      refine ⟨0, Nat.zero_le _, fun k => ?_, fun j hj => absurd hj (Nat.not_lt_zero j), h0,
        hge, ?_, ?_⟩
      · rw [Nat.zero_add]
        exact stepLoopR_done rd s sqrt walls k w (not_le.2 hge)
      · simp
      · simp

/-- C14, amended: in double arithmetic (the sum `accumulatorSec + delta` and every
difference `accumulatorSec - stepSec` rounded to the nearest `double`, `stepSec`
stored as the `double` nearest to 1/200), with the accumulator at `a ≥ 0` and
elapsed time `d ≥ 0`, `a + d ≤ 65536`, the fixed-step loop of a pass returns (with
any fuel of at least the number of rounds) after `n` rounds, each a fixed step
followed by the decrement; the loop condition held before each of these rounds and
fails after the last; `n` differs from `floor ((a + d) * 200)` by at most one; the
accumulator is left in `[0, stepSec)`, within `(n + 1) / 2 ^ 36` of
`a + d - n * stepSec`. -/
theorem double_stepLoop_near_floor (sqrt : ℚ → ℚ) (walls : List (Line ℚ)) (w : World ℚ)
    (a d : ℚ) (ha : 0 ≤ a) (hd : 0 ≤ d) (hB : a + d ≤ 65536) (hacc : w.accumulatorSec = a) :
    ∃ n : Nat,
      (∀ k : Nat, stepLoopR roundDouble stepSecD sqrt walls (n + k)
          { w with accumulatorSec := roundDouble (w.accumulatorSec + d) } =
        some ((stepOnceR roundDouble stepSecD sqrt walls)^[n]
          { w with accumulatorSec := roundDouble (w.accumulatorSec + d) })) ∧
      (∀ j : Nat, j < n → stepSecD ≤ ((stepOnceR roundDouble stepSecD sqrt walls)^[j]
          { w with accumulatorSec := roundDouble (w.accumulatorSec + d) }).accumulatorSec) ∧
      0 ≤ ((stepOnceR roundDouble stepSecD sqrt walls)^[n]
          { w with accumulatorSec := roundDouble (w.accumulatorSec + d) }).accumulatorSec ∧
      ((stepOnceR roundDouble stepSecD sqrt walls)^[n]
          { w with accumulatorSec := roundDouble (w.accumulatorSec + d) }).accumulatorSec
        < stepSecD ∧
      n ≤ ⌊(a + d) * 200⌋₊ + 1 ∧ ⌊(a + d) * 200⌋₊ ≤ n + 1 ∧
      |((stepOnceR roundDouble stepSecD sqrt walls)^[n]
          { w with accumulatorSec := roundDouble (w.accumulatorSec + d) }).accumulatorSec
        - (a + d - n * stepSecD)| ≤ (n + 1) / 2 ^ 36 := by
  obtain ⟨circles, slot, score, acc, g⟩ := w
  simp only at hacc
  subst hacc
  simp only
  have herr0 := abs_le.1 (roundDouble_err_bounded (acc + d) (by linarith) (by linarith))
  have h0 : 0 ≤ roundDouble (acc + d) := roundDouble_nonneg _ (by linarith)
  obtain ⟨acc0, hacc0⟩ : ∃ acc0, roundDouble (acc + d) = acc0 := ⟨_, rfl⟩
  rw [hacc0] at herr0 h0 ⊢
  have hs := stepSecD_eq
  obtain ⟨s, hs'⟩ : ∃ s, stepSecD = s := ⟨_, rfl⟩
  rw [hs'] at hs ⊢
  have hsε : (1 : ℚ) / 2 ^ 36 < s := by rw [hs]; norm_num
  have hpos : (0 : ℚ) < s - 1 / 2 ^ 36 := by linarith
  have hm : acc0 / (s - 1 / 2 ^ 36) ≤ (⌈acc0 / (s - 1 / 2 ^ 36)⌉₊ : ℚ) := Nat.le_ceil _
  rw [div_le_iff₀ hpos] at hm
  obtain ⟨n, -, e1, e2, e3, e4, e5, e6⟩ := stepLoopR_run roundDouble s (1 / 2 ^ 36) 131072
    sqrt walls (by norm_num) hsε roundDouble_nonneg roundDouble_err_bounded
    ⌈acc0 / (s - 1 / 2 ^ 36)⌉₊ ⟨circles, slot, score, acc0, g⟩ h0
    (by show acc0 ≤ 131072; linarith) (by show acc0 < _; linarith)
  obtain ⟨fin, hfin⟩ : ∃ fin, ((stepOnceR roundDouble s sqrt walls)^[n]
    ⟨circles, slot, score, acc0, g⟩).accumulatorSec = fin := ⟨_, rfl⟩
  rw [hfin] at e3 e4 e5 e6
  simp only at e5 e6
  have hX0 : 0 ≤ (acc + d) * 200 := by linarith
  have hfl : (⌊(acc + d) * 200⌋₊ : ℚ) ≤ (acc + d) * 200 := Nat.floor_le hX0
  have hlt : (acc + d) * 200 < (⌊(acc + d) * 200⌋₊ : ℚ) + 1 := Nat.lt_floor_add_one _
  have e4' := e4
  rw [hs] at e4' e5 e6
  have hn : (n : ℚ) ≤ 20000000 := by linarith
  refine ⟨n, e1, e2, ?_, ?_, ?_, ?_, ?_⟩
  · rw [hfin]
    exact e3
  · rw [hfin]
    exact e4
  · have h1 : (n : ℚ) < (⌊(acc + d) * 200⌋₊ : ℚ) + 2 := by linarith
    have h2 : n < ⌊(acc + d) * 200⌋₊ + 2 := by exact_mod_cast h1
    omega
  · have h1 : (⌊(acc + d) * 200⌋₊ : ℚ) < (n : ℚ) + 2 := by linarith
    have h2 : ⌊(acc + d) * 200⌋₊ < n + 2 := by exact_mod_cast h1
    omega
  · rw [hfin, hs, abs_le]
    constructor <;> linarith

/-- Witness for the amended C14: a first pass of 0.125 s on the initial state. -/
theorem double_stepLoop_near_floor_witness :
    ∃ n : Nat, n ≤ ⌊((0 : ℚ) + 1 / 8) * 200⌋₊ + 1 ∧ ⌊((0 : ℚ) + 1 / 8) * 200⌋₊ ≤ n + 1 ∧
      ∀ k : Nat, stepLoopR roundDouble stepSecD sqrtQ gameWalls (n + k)
          ⟨[], none, 0, roundDouble (0 + 1 / 8), false⟩ =
        some ((stepOnceR roundDouble stepSecD sqrtQ gameWalls)^[n]
          ⟨[], none, 0, roundDouble (0 + 1 / 8), false⟩) :=
  (double_stepLoop_near_floor sqrtQ gameWalls ⟨[], none, 0, 0, false⟩ 0 (1 / 8)
    (by norm_num) (by norm_num) (by norm_num) rfl).imp
    fun _ h => ⟨h.2.2.2.2.1, h.2.2.2.2.2.1, h.1⟩

/-- C14 fails as stated: started from the initial state (accumulator 0) with an
elapsed time of 0.125 s, the loop in double arithmetic runs 24 fixed steps, not
`floor ((0 + 0.125) * 200) = 25`: the loop condition holds before each of the
first 24 rounds and fails after them, because the stored `stepSec` is above 1/200
and 25 of them exceed 0.125. -/
theorem double_loop_runs_fewer_steps :
    stepLoopR roundDouble stepSecD sqrtQ gameWalls 25
        ⟨[], none, 0, roundDouble (0 + 1 / 8), false⟩ =
      some ((stepOnceR roundDouble stepSecD sqrtQ gameWalls)^[24]
        ⟨[], none, 0, roundDouble (0 + 1 / 8), false⟩) ∧
    (∀ j : Nat, j < 24 → stepSecD ≤ ((stepOnceR roundDouble stepSecD sqrtQ gameWalls)^[j]
        (⟨[], none, 0, roundDouble (0 + 1 / 8), false⟩ : World ℚ)).accumulatorSec) ∧
    ((stepOnceR roundDouble stepSecD sqrtQ gameWalls)^[24]
        (⟨[], none, 0, roundDouble (0 + 1 / 8), false⟩ : World ℚ)).accumulatorSec < stepSecD ∧
    ⌊((0 : ℚ) + 1 / 8) * 200⌋₊ = 25 ∧ (1 : ℚ) / 200 < stepSecD := by
  decide!

/-- The count can also exceed the floor: with the accumulator at
`913264250315207 / 2 ^ 58` (about 0.00317) and an elapsed time of
`2047569789848437 / 2 ^ 55` (about 0.0568), both `double` values whose sum lies just
below 0.06, the loop runs 12 fixed steps while `floor ((a + d) * 200) = 11`. -/
theorem double_loop_runs_more_steps :
    stepLoopR roundDouble stepSecD sqrtQ gameWalls 12
        ⟨[], none, 0, roundDouble (913264250315207 / 2 ^ 58 + 2047569789848437 / 2 ^ 55),
          false⟩ =
      some ((stepOnceR roundDouble stepSecD sqrtQ gameWalls)^[12]
        ⟨[], none, 0, roundDouble (913264250315207 / 2 ^ 58 + 2047569789848437 / 2 ^ 55),
          false⟩) ∧
    (∀ j : Nat, j < 12 → stepSecD ≤ ((stepOnceR roundDouble stepSecD sqrtQ gameWalls)^[j]
        (⟨[], none, 0, roundDouble (913264250315207 / 2 ^ 58 + 2047569789848437 / 2 ^ 55),
          false⟩ : World ℚ)).accumulatorSec) ∧
    ((stepOnceR roundDouble stepSecD sqrtQ gameWalls)^[12]
        (⟨[], none, 0, roundDouble (913264250315207 / 2 ^ 58 + 2047569789848437 / 2 ^ 55),
          false⟩ : World ℚ)).accumulatorSec < stepSecD ∧
    roundDouble (913264250315207 / 2 ^ 58) = 913264250315207 / 2 ^ 58 ∧
    roundDouble (2047569789848437 / 2 ^ 55) = 2047569789848437 / 2 ^ 55 ∧
    ⌊((913264250315207 / 2 ^ 58 : ℚ) + 2047569789848437 / 2 ^ 55) * 200⌋₊ = 11 := by
  decide!

end Suika
